import Mathlib

/-!
# Merchant stock control: the rule engine of `configmanager.h`

A shallow embedding of the configuration parser, the filter matcher and the
cached multiplier queries of `src/configmanager.h`, followed by the theorems
that settle the claims made about them.

Conventions of the embedding.

* `std::string` is a list of characters (`Str`).
* A number of the type `float` is a rational number (`ℚ`).  `std::stof`
  rounds what it reads to binary32 and reports its range errors; where it
  yields an infinity or a NaN, which the rational numbers do not hold, the run
  of the model ends with the fault `not_finite`.  The rule engine computes
  with exact arithmetic; the arithmetic of binary32, with its rounding and
  its overflow to infinity, is given for the sampling of a ranged value
  (`GetRandomValueBinary32`).
* A C++ exception and an undefined operation are values of `Fault`, carried by
  `Except`.  Exceptions are the faults that `LoadConfig` catches.
* The host game (`RE::...`) is a record of look-up functions, `World`, and
  the entity handles are records of the attributes the code reads from them.
  A null pointer is `none`.
* The function-local `static` variables of the two multiplier queries are
  fields of the engine state.
-/

namespace MerchantStock

/-! ## Strings -/

/-- A `std::string`. -/
abbrev Str := List Char

/-- What can go wrong: the two exceptions of the numeric conversions, and the
two undefined operations the code can reach.  The last one is not a fault of
the program: `float` is modelled by the rational numbers, so where a
conversion yields an infinity or a NaN, with which the program goes on, the
run of the model ends, with `not_finite`. -/
inductive Fault where
  | invalid_argument
  | out_of_range
  | null_dereference
  | pop_back_on_empty
  | not_finite
  deriving DecidableEq, Repr

/-- The faults that are C++ exceptions derived from `std::exception`. -/
def Fault.isException : Fault → Bool
  | .invalid_argument => true
  | .out_of_range => true
  | .null_dereference => false
  | .pop_back_on_empty => false
  | .not_finite => false

deriving instance DecidableEq for Except

/-- Whether `pat` occurs at the front of `s`. -/
def startsWith : Str → Str → Bool
  | _, [] => true
  | [], _ :: _ => false
  | c :: s, p :: pat => c == p && startsWith s pat

/-- The position of the first occurrence of `pat` in `s`, as
`std::string::find` from position 0; `none` is `npos`. -/
def find (s pat : Str) : Option Nat :=
  if startsWith s pat then some 0
  else
    match s with
    | [] => none
    | _ :: r => (find r pat).map (· + 1)

/-- The C locale `std::isspace`. -/
def isspace (c : Char) : Bool :=
  c == ' ' || c == '\t' || c == '\n' || c == '\x0b' || c == '\x0c' || c == '\r'

/-- The value of a run of decimal digits. -/
def natOfDigits (ds : Str) : Nat :=
  ds.foldl (fun n c => 10 * n + (c.toNat - 48)) 0

/-- An optional sign: whether it is a minus, and the text after it. -/
def scanSign : Str → Bool × Str
  | '-' :: r => (true, r)
  | '+' :: r => (false, r)
  | s => (false, s)

/-- An optional decimal exponent: its value and the text after it.  An `e`
that is not followed by digits is not part of the number. -/
def scanExponent (s : Str) : Int × Str :=
  match s with
  | [] => (0, s)
  | c :: r =>
    if c == 'e' || c == 'E' then
      let sr := scanSign r
      let ds := sr.2.takeWhile Char.isDigit
      if ds.isEmpty then (0, s)
      else ((if sr.1 then -(natOfDigits ds : Int) else (natOfDigits ds : Int)),
            sr.2.dropWhile Char.isDigit)
    else (0, s)

/-- Scale by a power of ten. -/
def scale10 (q : ℚ) (e : Int) : ℚ :=
  if e < 0 then q / (10 : ℚ) ^ e.natAbs else q * (10 : ℚ) ^ e.natAbs

/-- The decimal form of `strtof`, after white space and sign: digits with an
optional point, and an optional exponent.  Returns the value written and the
text not consumed; `none` when no digit starts the text. -/
def scanDecimal (s : Str) : Option (ℚ × Str) :=
  let ip := s.takeWhile Char.isDigit
  let s3 := s.dropWhile Char.isDigit
  let fr : Str × Str :=
    match s3 with
    | '.' :: r => (r.takeWhile Char.isDigit, r.dropWhile Char.isDigit)
    | _ => ([], s3)
  if ip.isEmpty && fr.1.isEmpty then none
  else
    let er := scanExponent fr.2
    let m : ℚ := (natOfDigits (ip ++ fr.1) : ℚ) / (10 : ℚ) ^ fr.1.length
    some (scale10 m er.1, er.2)

/-- The C locale `std::isxdigit`. -/
def isxdigit (c : Char) : Bool :=
  c.isDigit || (decide ('a' ≤ c) && decide (c ≤ 'f')) || (decide ('A' ≤ c) && decide (c ≤ 'F'))

/-- The value of a hexadecimal digit. -/
def hexDigitValue (c : Char) : Nat :=
  if c.isDigit then c.toNat - 48 else if decide ('a' ≤ c) then c.toNat - 87 else c.toNat - 55

/-- The value of a run of hexadecimal digits. -/
def natOfHexDigits (ds : Str) : Nat :=
  ds.foldl (fun n c => 16 * n + hexDigitValue c) 0

/-- An optional binary exponent of the hexadecimal form: its value and the
text after it.  A `p` that is not followed by digits is not part of the
number. -/
def scanBinaryExponent (s : Str) : Int × Str :=
  match s with
  | [] => (0, s)
  | c :: r =>
    if c == 'p' || c == 'P' then
      let sr := scanSign r
      let ds := sr.2.takeWhile Char.isDigit
      if ds.isEmpty then (0, s)
      else ((if sr.1 then -(natOfDigits ds : Int) else (natOfDigits ds : Int)),
            sr.2.dropWhile Char.isDigit)
    else (0, s)

/-- A power of two. -/
def pow2 (e : Int) : ℚ :=
  if e < 0 then 1 / (2 : ℚ) ^ e.natAbs else (2 : ℚ) ^ e.natAbs

/-- The hexadecimal form of `strtof`, after the `0x`: hexadecimal digits with
an optional point, and an optional binary exponent; `none` when no
hexadecimal digit follows the `0x`. -/
def scanHexadecimal (s : Str) : Option (ℚ × Str) :=
  let ip := s.takeWhile isxdigit
  let s3 := s.dropWhile isxdigit
  let fr : Str × Str :=
    match s3 with
    | '.' :: r => (r.takeWhile isxdigit, r.dropWhile isxdigit)
    | _ => ([], s3)
  if ip.isEmpty && fr.1.isEmpty then none
  else
    let er := scanBinaryExponent fr.2
    let m : ℚ := (natOfHexDigits (ip ++ fr.1) : ℚ) / (16 : ℚ) ^ fr.1.length
    some (m * pow2 er.1, er.2)

/-- The hexadecimal form with its `0x` or `0X`. -/
def scanHexNumber (s : Str) : Option (ℚ × Str) :=
  match s with
  | '0' :: x :: r => if x == 'x' || x == 'X' then scanHexadecimal r else none
  | _ => none

/-- Whether the text starts with the letters `pat`, given in lower case, in
either case. -/
def startsWithNoCase : Str → Str → Bool
  | _, [] => true
  | [], _ :: _ => false
  | c :: s, p :: pat => (c == p || c.toNat + 32 == p.toNat) && startsWithNoCase s pat

/-- The characters of the optional `(n-char-sequence)` after `nan`. -/
def isNanChar (c : Char) : Bool :=
  c.isAlphanum || c == '_'

/-- The text after `nan` and its optional `(n-char-sequence)`, which is part
of the number only when it is closed. -/
def scanNanTail (s : Str) : Str :=
  match s with
  | '(' :: r =>
    match r.dropWhile isNanChar with
    | ')' :: rest => rest
    | _ => s
  | _ => s

/-- What `strtof` finds at the front of a text: a number, of which the exact
value written is kept, an infinity, or a NaN. -/
inductive Scanned where
  | number (q : ℚ)
  | infinity (negative : Bool)
  | nan
  deriving DecidableEq

/-- The subject sequence of `strtof`: white space, a sign, then `infinity`,
`inf` or `nan` in either case, a hexadecimal number after `0x`, or a decimal
number.  Returns what is written and the text not consumed; `none` when none
of these starts the text. -/
def scanNumber (s : Str) : Option (Scanned × Str) :=
  let sr := scanSign (s.dropWhile isspace)
  let t := sr.2
  if startsWithNoCase t "infinity".toList then some (.infinity sr.1, t.drop 8)
  else if startsWithNoCase t "inf".toList then some (.infinity sr.1, t.drop 3)
  else if startsWithNoCase t "nan".toList then some (.nan, scanNanTail (t.drop 3))
  else
    match scanHexNumber t with
    | some (m, rest) => some (.number (if sr.1 then -m else m), rest)
    | none =>
      match scanDecimal t with
      | some (m, rest) => some (.number (if sr.1 then -m else m), rest)
      | none => none

/-- The integer nearest to a number, the even one of two equally near. -/
def roundHalfEven (x : ℚ) : Int :=
  let f : Int := ⌊x⌋
  let d := x - f
  if d < 1 / 2 then f
  else if 1 / 2 < d then f + 1
  else if f % 2 = 0 then f else f + 1

/-- The multiple of `2 ^ e` nearest to a number, ties to the even multiple. -/
def roundToQuantum (q : ℚ) (e : Int) : ℚ :=
  (roundHalfEven (q / pow2 e) : ℚ) * pow2 e

/-- The exponent of the last place of the numbers of binary32 around a
positive number `a`: `e - 23` for the largest `e` among the `k` exponents
`-126, ..., k - 127` of the normal numbers with `2 ^ e ≤ a`, and `-149`, the
last place of the subnormal numbers, when `a` is below `2 ^ -126`. -/
def lastPlace (a : ℚ) : Nat → Int
  | 0 => -149
  | k + 1 => if pow2 ((k : Int) - 126) ≤ a then (k : Int) - 149 else lastPlace a k

/-- A value of the type `float`: a number, an infinity, or a NaN. -/
inductive Binary32 where
  | finite (q : ℚ)
  | infinite (negative : Bool)
  | nan
  deriving DecidableEq

/-- The value of binary32 for the exact result `x` of a conversion or of an
operation: `x` rounded to nearest, ties to even, with 24 significant bits and
the exponents of binary32, subnormal numbers included; the infinity of the
sign of `x` when the rounded number overflows binary32 (it reaches
`2 ^ 128`). -/
def roundBinary32 (x : ℚ) : Binary32 :=
  let a := |x|
  let r := roundToQuantum a (lastPlace a 254)
  if pow2 128 ≤ r then .infinite (decide (x < 0))
  else .finite (if x < 0 then -r else r)

/-- The number of binary32 that `strtof` returns for the exact value `q`
written: `q` rounded to binary32.  It reports a range error, on which
`std::stof` throws `std::out_of_range`, when the rounded number overflows
binary32 and, as the C library of GCC does, when the result is both tiny (the
value rounded to 24 bits with the exponent unbounded is below the least
normal number `2 ^ -126`) and inexact. -/
def convertBinary32 (q : ℚ) : Except Fault ℚ :=
  match roundBinary32 q with
  | .finite r =>
    if decide (|q| < pow2 (-126) - pow2 (-151)) && r != q then .error .out_of_range
    else .ok r
  | _ => .error .out_of_range

/-- The number `std::strtof` converts at the front of `s` and the text it
does not consume; `none` when no conversion to a number of binary32 is made:
no number starts the text, the number is out of range, or an infinity or a
NaN is written. -/
def stofScan (s : Str) : Option (ℚ × Str) :=
  match scanNumber s with
  | some (.number q, rest) =>
    match convertBinary32 q with
    | .ok v => some (v, rest)
    | .error _ => none
  | _ => none

/-- The call `std::stof(s)`: the number at the front of `s`, whatever follows
it, rounded to binary32.  It throws `std::invalid_argument` when no number
starts the text and `std::out_of_range` on a range error; on `inf` and `nan`
the program goes on with an infinity or a NaN, and the model, whose numbers
are rational, ends with `not_finite`. -/
def stof (s : Str) : Except Fault ℚ :=
  match scanNumber s with
  | none => .error .invalid_argument
  | some (.number q, _) => convertBinary32 q
  | some (_, _) => .error .not_finite

/-- A text that is a number from its first to its last character. -/
def isFloatText (s : Str) : Prop :=
  ∃ v, stofScan s = some (v, [])

/-- The call `std::stoi(s)` in base 10 for a 32-bit `int`. -/
def stoi (s : Str) : Except Fault Int :=
  let sr := scanSign (s.dropWhile isspace)
  let ds := sr.2.takeWhile Char.isDigit
  if ds.isEmpty then .error .invalid_argument
  else
    let v : Int := if sr.1 then -(natOfDigits ds : Int) else (natOfDigits ds : Int)
    if v < -2147483648 ∨ 2147483647 < v then .error .out_of_range else .ok v

/-! ## ValueRange -/

/-- A value of the standard random engine mapped to the unit interval, which
`std::uniform_real_distribution` scales to the requested range. -/
structure Sample where
  val : ℚ
  nonneg : 0 ≤ val
  lt_one : val < 1

/-- The struct `ValueRange`. -/
structure ValueRange where
  min : ℚ
  max : ℚ
  isRange : Bool
  deriving DecidableEq

/-- The default constructor `ValueRange()`. -/
def ValueRange.default : ValueRange := ⟨1, 1, false⟩

/-- The method `ValueRange::ParseValue`; every member is assigned on success. -/
def ValueRange.ParseValue (valueStr : Str) : Except Fault ValueRange :=
  match find valueStr ['~'] with
  | some tildePos => do
    let mn ← stof (valueStr.take tildePos)
    let mx ← stof (valueStr.drop (tildePos + 1))
    pure ⟨mn, mx, true⟩
  | none => do
    let v ← stof valueStr
    pure ⟨v, v, false⟩

/-- The method `ValueRange::GetRandomValue`, the random engine output `u`
being scaled as `std::uniform_real_distribution<float>(min, max)` does, in
exact arithmetic.  `GetRandomValueBinary32` is the same computation with the
rounding and the overflow of binary32. -/
def ValueRange.GetRandomValue (self : ValueRange) (u : Sample) : ℚ :=
  if !self.isRange then self.min
  else u.val * (self.max - self.min) + self.min

/-- The method `ValueRange::GetValue`. -/
def ValueRange.GetValue (self : ValueRange) (u : Sample) : ℚ :=
  if self.isRange then self.GetRandomValue u else self.min

/-! ## The arithmetic of binary32 -/

/-- The sum of two values of binary32. -/
def Binary32.add : Binary32 → Binary32 → Binary32
  | .finite x, .finite y => roundBinary32 (x + y)
  | .finite _, .infinite s => .infinite s
  | .infinite s, .finite _ => .infinite s
  | .infinite s, .infinite t => if s = t then .infinite s else .nan
  | .nan, _ => .nan
  | _, .nan => .nan

/-- The product of two values of binary32. -/
def Binary32.mul : Binary32 → Binary32 → Binary32
  | .finite x, .finite y => roundBinary32 (x * y)
  | .finite x, .infinite s => if x = 0 then .nan else .infinite (xor s (decide (x < 0)))
  | .infinite s, .finite x => if x = 0 then .nan else .infinite (xor s (decide (x < 0)))
  | .infinite s, .infinite t => .infinite (xor s t)
  | .nan, _ => .nan
  | _, .nan => .nan

/-- The opposite of a value of binary32. -/
def Binary32.neg : Binary32 → Binary32
  | .finite x => .finite (-x)
  | .infinite s => .infinite (!s)
  | .nan => .nan

/-- The difference of two values of binary32. -/
def Binary32.sub (x y : Binary32) : Binary32 :=
  Binary32.add x y.neg

/-- The method `ValueRange::GetRandomValue` in the arithmetic of binary32:
`std::uniform_real_distribution<float>(min, max)` returns
`u * (max - min) + min` for the output `u` of the random engine brought to
the unit interval, each of the three operations being one of binary32. -/
def ValueRange.GetRandomValueBinary32 (self : ValueRange) (u : Sample) : Binary32 :=
  if !self.isRange then .finite self.min
  else
    Binary32.add
      (Binary32.mul (.finite u.val) (Binary32.sub (.finite self.max) (.finite self.min)))
      (.finite self.min)

/-- The method `ValueRange::GetValue` in the arithmetic of binary32. -/
def ValueRange.GetValueBinary32 (self : ValueRange) (u : Sample) : Binary32 :=
  if self.isRange then self.GetRandomValueBinary32 u else .finite self.min

/-- The finite numbers of binary32: `m * 2 ^ e` with `|m| < 2 ^ 24` and
`-149 ≤ e ≤ 104`. -/
def Representable32 (q : ℚ) : Prop :=
  ∃ m e : ℤ, |m| < 2 ^ 24 ∧ -149 ≤ e ∧ e ≤ 104 ∧ q = (m : ℚ) * (2 : ℚ) ^ e

/-- A number of binary32 nearest to `x`. -/
def Nearest32 (x r : ℚ) : Prop :=
  Representable32 r ∧ ∀ c, Representable32 c → |r - x| ≤ |c - x|

/-- The least magnitude that rounding to nearest takes beyond the largest
number of binary32, `(2 ^ 24 - 1) * 2 ^ 104`: halfway from it to `2 ^ 128`. -/
def overflowThreshold : ℚ := 2 ^ 128 - 2 ^ 103

/-! ## ComparisonFilter -/

/-- The enum `ComparisonFilter::ComparisonType`. -/
inductive ComparisonType where
  | NONE
  | GREATER
  | LESS
  | EQUAL
  | GREATER_EQUAL
  | LESS_EQUAL
  deriving DecidableEq, Repr

/-- The struct `ComparisonFilter`. -/
structure ComparisonFilter where
  type : ComparisonType
  value : ℚ
  deriving DecidableEq

/-- The default constructor `ComparisonFilter()`. -/
def ComparisonFilter.default : ComparisonFilter := ⟨.NONE, 0⟩

/-- The method `ComparisonFilter::ParseFilter`, run on the object `self`.
The `substr` calls never start past the end of the text, since the operator
was found in it. -/
def ComparisonFilter.ParseFilter (self : ComparisonFilter) (filterStr : Str) :
    Except Fault ComparisonFilter :=
  if filterStr = "NONE".toList ∨ filterStr = [] then
    .ok { self with type := .NONE }
  else if (find filterStr ">=".toList).isSome then do
    let v ← stof (filterStr.drop 2)
    pure ⟨.GREATER_EQUAL, v⟩
  else if (find filterStr "<=".toList).isSome then do
    let v ← stof (filterStr.drop 2)
    pure ⟨.LESS_EQUAL, v⟩
  else if (find filterStr ">".toList).isSome then do
    let v ← stof (filterStr.drop 1)
    pure ⟨.GREATER, v⟩
  else if (find filterStr "<".toList).isSome then do
    let v ← stof (filterStr.drop 1)
    pure ⟨.LESS, v⟩
  else if (find filterStr "=".toList).isSome then do
    let v ← stof (filterStr.drop 1)
    pure ⟨.EQUAL, v⟩
  else
    .ok { self with type := .NONE }

/-- The method `ComparisonFilter::Matches`. -/
def ComparisonFilter.Matches (self : ComparisonFilter) (testValue : ℚ) : Bool :=
  match self.type with
  | .GREATER => decide (testValue > self.value)
  | .LESS => decide (testValue < self.value)
  | .EQUAL => decide (testValue = self.value)
  | .GREATER_EQUAL => decide (testValue ≥ self.value)
  | .LESS_EQUAL => decide (testValue ≤ self.value)
  | .NONE => true

/-! ## GlobalsFilter -/

/-- The struct `GlobalsFilter`. -/
structure GlobalsFilter where
  globalEditorID : Str
  againstValue : ComparisonFilter
  deriving DecidableEq

/-- The default constructor `GlobalsFilter()`. -/
def GlobalsFilter.default : GlobalsFilter := ⟨[], ComparisonFilter.default⟩

/-- The method `GlobalsFilter::TrimString`: white space is erased at both
ends. -/
def TrimString (str : Str) : Str :=
  ((str.dropWhile isspace).reverse.dropWhile isspace).reverse

/-- The operator search of `GlobalsFilter::ParseFilter`: the position and the
text of the first operator found in the order `>=`, `<=`, `>`, `<`, `=`. -/
def findOperator (filterStr : Str) : Option (Nat × Str) :=
  match find filterStr ">=".toList with
  | some opPos => some (opPos, ">=".toList)
  | none =>
    match find filterStr "<=".toList with
    | some opPos => some (opPos, "<=".toList)
    | none =>
      match find filterStr ">".toList with
      | some opPos => some (opPos, ">".toList)
      | none =>
        match find filterStr "<".toList with
        | some opPos => some (opPos, "<".toList)
        | none =>
          match find filterStr "=".toList with
          | some opPos => some (opPos, "=".toList)
          | none => none

/-- The method `GlobalsFilter::ParseFilter`, run on the object `self`. -/
def GlobalsFilter.ParseFilter (self : GlobalsFilter) (filterStr : Str) :
    Except Fault GlobalsFilter :=
  if filterStr = [] ∨ filterStr = "NONE".toList then
    .ok ⟨[], { self.againstValue with type := .NONE }⟩
  else
    match findOperator filterStr with
    | some (opPos, opStr) => do
      let globalEditorID := TrimString (filterStr.take opPos)
      let valueStr := TrimString (filterStr.drop (opPos + opStr.length))
      let againstValue ← self.againstValue.ParseFilter (opStr ++ valueStr)
      pure ⟨globalEditorID, againstValue⟩
    | none =>
      .ok ⟨TrimString filterStr, { self.againstValue with type := .NONE }⟩

/-! ## Item, merchant and player filters -/

/-- The helper `SplitString`: `boost::split` on any character of `delimiter`,
adjacent delimiters giving empty parts. -/
def SplitString (str : Str) (delimiter : Str) : List Str :=
  match str with
  | [] => [[]]
  | c :: r =>
    if delimiter.contains c then [] :: SplitString r delimiter
    else
      match SplitString r delimiter with
      | [] => [[c]]
      | p :: ps => (c :: p) :: ps

/-- The struct `ItemFilter`. -/
structure ItemFilter where
  formEditorID : Str
  keywordEditorID : Str
  weightFilter : ComparisonFilter
  valueFilter : ComparisonFilter
  deriving DecidableEq

/-- The default member initialisation of `ItemFilter`. -/
def ItemFilter.default : ItemFilter :=
  ⟨[], [], ComparisonFilter.default, ComparisonFilter.default⟩

/-- The method `ItemFilter::ParseFilter`, run on the object `self`. -/
def ItemFilter.ParseFilter (self : ItemFilter) (filterStr : Str) : Except Fault ItemFilter :=
  match SplitString filterStr "|".toList with
  | p0 :: p1 :: p2 :: p3 :: _ => do
    let formEditorID := if p0 = "NONE".toList then [] else p0
    let keywordEditorID := if p1 = "NONE".toList then [] else p1
    let weightFilter ← self.weightFilter.ParseFilter p2
    let valueFilter ← self.valueFilter.ParseFilter p3
    pure ⟨formEditorID, keywordEditorID, weightFilter, valueFilter⟩
  | _ => .ok self

/-- The constructor `ItemFilter(const std::string&)`. -/
def ItemFilter.ofString (filterStr : Str) : Except Fault ItemFilter :=
  ItemFilter.default.ParseFilter filterStr

/-- The struct `MerchantFilter`. -/
structure MerchantFilter where
  formEditorID : Str
  relationship : ComparisonFilter
  globalCondition : GlobalsFilter
  deriving DecidableEq

/-- The default member initialisation of `MerchantFilter`. -/
def MerchantFilter.default : MerchantFilter :=
  ⟨[], ComparisonFilter.default, GlobalsFilter.default⟩

/-- The method `MerchantFilter::ParseFilter`, run on the object `self`. -/
def MerchantFilter.ParseFilter (self : MerchantFilter) (filterStr : Str) :
    Except Fault MerchantFilter :=
  match SplitString filterStr "|".toList with
  | p0 :: p1 :: p2 :: _ => do
    let formEditorID := if p0 = "NONE".toList then [] else p0
    let relationship ← self.relationship.ParseFilter p1
    let globalCondition ←
      if p2 ≠ "NONE".toList then self.globalCondition.ParseFilter p2
      else pure self.globalCondition
    pure ⟨formEditorID, relationship, globalCondition⟩
  | _ => .ok self

/-- The constructor `MerchantFilter(const std::string&)`. -/
def MerchantFilter.ofString (filterStr : Str) : Except Fault MerchantFilter :=
  MerchantFilter.default.ParseFilter filterStr

/-- The struct `PlayerFilter`. -/
structure PlayerFilter where
  levelFilter : ComparisonFilter
  skillID : Int
  skillLevel : Int
  perkEditorID : Str
  deriving DecidableEq

/-- The default constructor `PlayerFilter()`, which sets both skill members to
the unset marker. -/
def PlayerFilter.default : PlayerFilter := ⟨ComparisonFilter.default, -1, -1, []⟩

/-- The call `std::string::pop_back`, undefined on the empty string. -/
def pop_back (s : Str) : Except Fault Str :=
  if s = [] then .error .pop_back_on_empty else .ok s.dropLast

/-- The skill field of `PlayerFilter::ParseFilter`: the new `skillID` and
`skillLevel`, given the ones the object holds. -/
def parseSkill (held : Int × Int) (field : Str) : Except Fault (Int × Int) :=
  if field ≠ "NONE".toList then
    match find field ['('] with
    | some parenPos => do
      let skillID ← stoi (field.take parenPos)
      let levelStr ← pop_back (field.drop (parenPos + 1))
      let skillLevel ← stoi levelStr
      pure (skillID, skillLevel)
    | none => pure held
  else pure held

/-- The method `PlayerFilter::ParseFilter`, run on the object `self`. -/
def PlayerFilter.ParseFilter (self : PlayerFilter) (filterStr : Str) :
    Except Fault PlayerFilter :=
  match SplitString filterStr "|".toList with
  | p0 :: p1 :: p2 :: _ => do
    let levelFilter ← self.levelFilter.ParseFilter p0
    let skill ← parseSkill (self.skillID, self.skillLevel) p1
    let perkEditorID := if p2 = "NONE".toList then [] else p2
    pure ⟨levelFilter, skill.1, skill.2, perkEditorID⟩
  | _ => .ok self

/-- The constructor `PlayerFilter(const std::string&)`.  It has no member
initialiser list, so the two `int` members start with the indeterminate
content `junk` of the storage the object is built in. -/
def PlayerFilter.ofString (junk : Int × Int) (filterStr : Str) : Except Fault PlayerFilter :=
  PlayerFilter.ParseFilter ⟨ComparisonFilter.default, junk.1, junk.2, []⟩ filterStr

/-! ## FilterSet and ConfigEntry -/

/-- The struct `FilterSet`. -/
structure FilterSet where
  itemFilters : List ItemFilter
  merchantFilters : List MerchantFilter
  playerFilters : List PlayerFilter
  deriving DecidableEq

/-- The `filters` object of a rule in the configuration document: each of its
three arrays of condition texts, when the key is there. -/
structure FiltersJson where
  item : Option (List Str)
  merchant : Option (List Str)
  player : Option (List Str)
  deriving DecidableEq

/-- The method `FilterSet::ParseFilters` on a freshly built `FilterSet`. -/
def FilterSet.ParseFilters (junk : Int × Int) (filtersJson : FiltersJson) :
    Except Fault FilterSet := do
  let itemFilters ←
    match filtersJson.item with
    | some texts => texts.mapM ItemFilter.ofString
    | none => pure []
  let merchantFilters ←
    match filtersJson.merchant with
    | some texts => texts.mapM MerchantFilter.ofString
    | none => pure []
  let playerFilters ←
    match filtersJson.player with
    | some texts => texts.mapM (PlayerFilter.ofString junk)
    | none => pure []
  pure ⟨itemFilters, merchantFilters, playerFilters⟩

/-- The struct `ConfigEntry`. -/
structure ConfigEntry where
  value : ValueRange
  filters : FilterSet
  deriving DecidableEq

/-- A rule object of the configuration document. -/
structure EntryJson where
  value : Option Str
  filters : Option FiltersJson
  deriving DecidableEq

/-- The constructor `ConfigEntry(const nlohmann::json&)`. -/
def ConfigEntry.ofJson (junk : Int × Int) (entryJson : EntryJson) : Except Fault ConfigEntry := do
  let value ←
    match entryJson.value with
    | some text => ValueRange.ParseValue text
    | none => pure ValueRange.default
  let filters ←
    match entryJson.filters with
    | some filtersJson => FilterSet.ParseFilters junk filtersJson
    | none => pure ⟨[], [], []⟩
  pure ⟨value, filters⟩

/-! ## The host game, as far as the matcher reads it -/

/-- A form identifier of the game (`RE::FormID`). -/
abbrev FormID := Nat

/-- The world queries of the matcher.  Each look-up answers `none` for a name
it cannot resolve (a null pointer in the code). -/
structure World where
  /-- The call `RE::TESForm::LookupByEditorID(name)`: the form identifier. -/
  lookupForm : Str → Option FormID
  /-- The same look-up restricted to keywords (`RE::BGSKeyword`). -/
  lookupKeyword : Str → Option FormID
  /-- The same look-up restricted to globals (`RE::TESGlobal`): the value. -/
  lookupGlobal : Str → Option ℚ
  /-- The same look-up restricted to perks (`RE::BGSPerk`). -/
  lookupPerk : Str → Option FormID
  /-- The call `RE::BGSRelationship::GetRelationship` between the base of the
  player singleton and the given actor base: the level of the record. -/
  getRelationship : FormID → Option Int

/-- The object of an inventory entry (`RE::TESBoundObject`). -/
structure BoundObject where
  formID : FormID
  keywords : List FormID
  weight : ℚ
  goldValue : Int

/-- An inventory entry (`RE::InventoryEntryData`); its object may be null. -/
structure InventoryEntryData where
  object : Option BoundObject

/-- A merchant (`RE::Actor`). -/
structure Actor where
  formID : FormID
  actorBase : FormID

/-- The customer (`RE::PlayerCharacter`). -/
structure PlayerCharacter where
  level : Nat
  /-- The result of `AsActorValueOwner()`, a map from actor value to level. -/
  actorValueOwner : Option (Int → ℚ)
  perks : List FormID

/-! ## Matching -/

/-- The method `ConfigManager::MatchesItemFilter`. -/
def MatchesItemFilter (w : World) (filter : ItemFilter) (item : Option InventoryEntryData) :
    Bool :=
  match item.bind (fun i => i.object) with
  | none => false
  | some object =>
    if !filter.formEditorID.isEmpty &&
        (match w.lookupForm filter.formEditorID with
          | none => true
          | some targetForm => targetForm != object.formID) then false
    else if !filter.keywordEditorID.isEmpty &&
        (match w.lookupKeyword filter.keywordEditorID with
          | none => true
          | some keyword => !object.keywords.contains keyword) then false
    else if filter.weightFilter.type != .NONE &&
        !filter.weightFilter.Matches object.weight then false
    else if filter.valueFilter.type != .NONE &&
        !filter.valueFilter.Matches (object.goldValue : ℚ) then false
    else true

/-- The method `ConfigManager::MatchesMerchantFilter`. -/
def MatchesMerchantFilter (w : World) (filter : MerchantFilter) (trader : Option Actor) :
    Bool :=
  match trader with
  | none => false
  | some t =>
    if !filter.formEditorID.isEmpty &&
        (match w.lookupForm filter.formEditorID with
          | none => true
          | some targetForm => targetForm != t.formID) then false
    else if filter.relationship.type != .NONE &&
        (match w.getRelationship t.actorBase with
          | some relationshipLevel => !filter.relationship.Matches (relationshipLevel : ℚ)
          | none => true) then false
    else if !filter.globalCondition.globalEditorID.isEmpty &&
        (match w.lookupGlobal filter.globalCondition.globalEditorID with
          | none => true
          | some globalValue => !filter.globalCondition.againstValue.Matches globalValue)
      then false
    else true

/-- The method `ConfigManager::MatchesPlayerFilter`. -/
def MatchesPlayerFilter (w : World) (filter : PlayerFilter) (player : Option PlayerCharacter) :
    Bool :=
  match player with
  | none => false
  | some p =>
    if filter.levelFilter.type != .NONE &&
        !filter.levelFilter.Matches (p.level : ℚ) then false
    else if (decide (filter.skillID ≥ 0) && decide (filter.skillLevel ≥ 0)) &&
        (match p.actorValueOwner with
          | some av => decide (av filter.skillID < (filter.skillLevel : ℚ))
          | none => true) then false
    else if !filter.perkEditorID.isEmpty &&
        (match w.lookupPerk filter.perkEditorID with
          | none => true
          | some perk => !p.perks.contains perk) then false
    else true

/-- The method `ConfigManager::MatchesFilters`.  Each of the three blocks of
the code rejects in two ways: the list is not empty, the entity is there and
no filter of the list matches it; or the list is not empty and the entity is
null. -/
def MatchesFilters (w : World) (filters : FilterSet) (trader : Option Actor)
    (item : Option InventoryEntryData) (player : Option PlayerCharacter) : Bool :=
  if (if !filters.itemFilters.isEmpty && item.isSome then
        !filters.itemFilters.any (fun f => MatchesItemFilter w f item)
      else !filters.itemFilters.isEmpty && !item.isSome) then false
  else if (if !filters.merchantFilters.isEmpty && trader.isSome then
        !filters.merchantFilters.any (fun f => MatchesMerchantFilter w f trader)
      else !filters.merchantFilters.isEmpty && !trader.isSome) then false
  else if (if !filters.playerFilters.isEmpty && player.isSome then
        !filters.playerFilters.any (fun f => MatchesPlayerFilter w f player)
      else !filters.playerFilters.isEmpty && !player.isSome) then false
  else true

/-! ## The engine -/

/-- The two function-local statics of a multiplier query: the merchant
recorded and the multipliers cached for it, by item form identifier. -/
structure SessionCache where
  trader_id : FormID
  cache : List (FormID × ℚ)
  deriving DecidableEq

/-- The assignment `cache[key] = value` of `std::unordered_map`. -/
def cacheStore (cache : List (FormID × ℚ)) (key : FormID) (value : ℚ) : List (FormID × ℚ) :=
  (key, value) :: cache.filter (fun p => p.1 != key)

/-- The class `ConfigManager`, with the statics of `GetPriceMultiplier` and of
`GetCountMultiplier`; a static is `none` until the first call initialises it. -/
structure ConfigManager where
  configPath : Str
  priceEntries : List ConfigEntry
  countEntries : List ConfigEntry
  priceStatics : Option SessionCache
  countStatics : Option SessionCache
  deriving DecidableEq

/-- The configuration document: the `Prices` and the `Counts` array, when the
key is there.  Every field has the JSON type the code asks for: an array of
objects, a text for `value`, arrays of texts for the filters. -/
structure ConfigJson where
  Prices : Option (List EntryJson)
  Counts : Option (List EntryJson)
  deriving DecidableEq

/-- The loop `entries.emplace_back(json[i])` over an array: the entries built
before the first fault, and that fault. -/
def emplaceEntries (junk : Int × Int) : List EntryJson → List ConfigEntry × Option Fault
  | [] => ([], none)
  | entryJson :: rest =>
    match ConfigEntry.ofJson junk entryJson with
    | .error fault => ([], some fault)
    | .ok entry =>
      let r := emplaceEntries junk rest
      (entry :: r.1, r.2)

/-- The method `ConfigManager::LoadConfig`.  `file` is the document read from
the path, `none` when the file cannot be opened or is not JSON.  The result
is the flag returned and the engine afterwards; an undefined operation is not
caught. -/
def LoadConfig (self : ConfigManager) (file : Option ConfigJson) (junk : Int × Int) :
    Except Fault (Bool × ConfigManager) :=
  match file with
  | none => .ok (false, self)
  | some configJson =>
    let cleared := { self with priceEntries := [], countEntries := [] }
    let prices :=
      match configJson.Prices with
      | some array => emplaceEntries junk array
      | none => ([], none)
    let withPrices := { cleared with priceEntries := prices.1 }
    match prices.2 with
    | some fault =>
      if fault.isException then .ok (false, withPrices) else .error fault
    | none =>
      let counts :=
        match configJson.Counts with
        | some array => emplaceEntries junk array
        | none => ([], none)
      let withCounts := { withPrices with countEntries := counts.1 }
      match counts.2 with
      | some fault =>
        if fault.isException then .ok (false, withCounts) else .error fault
      | none => .ok (true, withCounts)

/-- The method `ConfigManager::ReloadConfig`. -/
def ReloadConfig (self : ConfigManager) (file : Option ConfigJson) (junk : Int × Int) :
    Except Fault (Bool × ConfigManager) :=
  LoadConfig self file junk

/-- The constructor `ConfigManager(path)`: it loads, and ignores the flag. -/
def ConfigManager.create (path : Str) (file : Option ConfigJson) (junk : Int × Int) :
    Except Fault ConfigManager :=
  (LoadConfig ⟨path, [], [], none, none⟩ file junk).map (fun r => r.2)

/-- The rule scan shared by the two multiplier queries: the sampled value of
the first entry whose filters match, and 1.0 when none does. -/
def scanEntries (w : World) (u : Sample) (entries : List ConfigEntry) (trader : Option Actor)
    (item : Option InventoryEntryData) (player : Option PlayerCharacter) : ℚ :=
  match entries with
  | [] => 1
  | entry :: rest =>
    if MatchesFilters w entry.filters trader item player then entry.value.GetValue u
    else scanEntries w u rest trader item player

/-- The body shared by `GetPriceMultiplier` and `GetCountMultiplier`, on the
statics and the rule list of the query: the multiplier returned and the
statics afterwards.  `trader->formID` and `item->object->formID` fault on a
null pointer. -/
def getMultiplier (statics : Option SessionCache) (entries : List ConfigEntry) (w : World)
    (u : Sample) (trader : Option Actor) (item : Option InventoryEntryData)
    (player : Option PlayerCharacter) : Except Fault (ℚ × SessionCache) :=
  match trader with
  | none => .error .null_dereference
  | some t =>
    let held : SessionCache :=
      match statics with
      | some s => s
      | none => ⟨t.formID, []⟩
    let scan (cache : List (FormID × ℚ)) : Except Fault (ℚ × SessionCache) :=
      let multiplier := scanEntries w u entries trader item player
      match item.bind (fun i => i.object) with
      | none => .error .null_dereference
      | some object => .ok (multiplier, ⟨t.formID, cacheStore cache object.formID multiplier⟩)
    if held.trader_id = t.formID then
      match item.bind (fun i => i.object) with
      | none => .error .null_dereference
      | some object =>
        match held.cache.lookup object.formID with
        | some cached => .ok (cached, held)
        | none => scan held.cache
    else scan []

/-- The method `ConfigManager::GetPriceMultiplier`. -/
def GetPriceMultiplier (self : ConfigManager) (w : World) (u : Sample)
    (trader : Option Actor) (item : Option InventoryEntryData)
    (player : Option PlayerCharacter) : Except Fault (ℚ × ConfigManager) :=
  (getMultiplier self.priceStatics self.priceEntries w u trader item player).map
    (fun r => (r.1, { self with priceStatics := some r.2 }))

/-- The method `ConfigManager::GetCountMultiplier`. -/
def GetCountMultiplier (self : ConfigManager) (w : World) (u : Sample)
    (trader : Option Actor) (item : Option InventoryEntryData)
    (player : Option PlayerCharacter) : Except Fault (ℚ × ConfigManager) :=
  (getMultiplier self.countStatics self.countEntries w u trader item player).map
    (fun r => (r.1, { self with countStatics := some r.2 }))

/-- The characters a decimal or hexadecimal number can be made of. -/
def floatChar (c : Char) : Bool :=
  isspace c || isxdigit c || c == '+' || c == '-' || c == '.' || c == 'x' || c == 'X' ||
    c == 'p' || c == 'P'

/-- A text `s` ends with `r` after a run of number characters. -/
def ScansTo (s r : Str) : Prop :=
  ∃ p : Str, s = p ++ r ∧ ∀ c ∈ p, floatChar c = true

/-! ## Sessions and histories -/

/-- The multiplier the statics of a query hold for an item while the merchant
is the one recorded; `none` when the query has to scan the rules. -/
def cachedFor (statics : Option SessionCache) (traderID itemID : FormID) : Option ℚ :=
  match statics with
  | some s => if s.trader_id = traderID then s.cache.lookup itemID else none
  | none => none

/-- The cached entries that survive a query of the merchant `traderID`: those
held when that merchant is the one recorded, none otherwise. -/
def keptEntries (statics : Option SessionCache) (traderID : FormID) : List (FormID × ℚ) :=
  match statics with
  | some s => if s.trader_id = traderID then s.cache else []
  | none => []

/-- One use of the engine by the host: a reload of the configuration file,
whose content is given, or one of the two multiplier queries. -/
inductive Call where
  | reload (file : Option ConfigJson) (junk : Int × Int)
  | price (w : World) (u : Sample) (trader : Option Actor)
      (item : Option InventoryEntryData) (player : Option PlayerCharacter)
  | count (w : World) (u : Sample) (trader : Option Actor)
      (item : Option InventoryEntryData) (player : Option PlayerCharacter)

/-- The engine after a call. -/
def Call.run (self : ConfigManager) : Call → Except Fault ConfigManager
  | .reload file junk => (ReloadConfig self file junk).map (fun r => r.2)
  | .price w u trader item player =>
    (GetPriceMultiplier self w u trader item player).map (fun r => r.2)
  | .count w u trader item player =>
    (GetCountMultiplier self w u trader item player).map (fun r => r.2)

/-- The engine after a sequence of calls. -/
def runCalls (self : ConfigManager) : List Call → Except Fault ConfigManager
  | [] => .ok self
  | call :: rest =>
    match call.run self with
    | .ok next => runCalls next rest
    | .error fault => .error fault

/-- The engine states the host can bring about: the singleton is created from
the configuration file and then used by any sequence of calls. -/
def Reachable (cm : ConfigManager) : Prop :=
  ∃ (path : Str) (file : Option ConfigJson) (junk : Int × Int) (start : ConfigManager)
    (calls : List Call),
    ConfigManager.create path file junk = .ok start ∧ runCalls start calls = .ok cm

/-! ## Sample data -/

/-- A world in which no name resolves and no relationship is recorded. -/
def emptyWorld : World :=
  ⟨fun _ => none, fun _ => none, fun _ => none, fun _ => none, fun _ => none⟩

/-- A merchant with form identifier 20. -/
def merchantA : Actor := ⟨20, 21⟩

/-- A merchant with form identifier 30. -/
def merchantB : Actor := ⟨30, 31⟩

/-- An inventory entry whose object has form identifier 7. -/
def ironSword : InventoryEntryData := ⟨some ⟨7, [], 9, 25⟩⟩

/-- The random source at its lowest output. -/
def lowSample : Sample := ⟨0, le_refl 0, zero_lt_one⟩

/-- The random source at the middle of its range. -/
def midSample : Sample := ⟨1 / 2, by norm_num, by norm_num⟩

/-- The path the singleton is created with. -/
def pluginPath : Str := "Data/SKSE/Plugins/DynamicMerchant.json".toList

/-- A rule without filters and with a fixed value. -/
def fixedRule (v : ℚ) : ConfigEntry := ⟨⟨v, v, false⟩, ⟨[], [], []⟩⟩

/-- A rule that asks for the merchant named `Belethor`. -/
def belethorRule (v : ℚ) : ConfigEntry :=
  ⟨⟨v, v, false⟩, ⟨[], [⟨"Belethor".toList, ComparisonFilter.default, GlobalsFilter.default⟩], []⟩⟩

/-- The document with the single price rule of value `2.0` and no filters. -/
def doubleEverything : ConfigJson := ⟨some [⟨some "2.0".toList, none⟩], none⟩

/-- The document with an empty `Prices` array. -/
def noRules : ConfigJson := ⟨some [], none⟩

/-- The engine created from `doubleEverything`, asked the price of the iron
sword at merchant A, and then reloaded from `noRules`: no price rule is left,
and the multiplier 2 is still cached for the sword. -/
def staleEngine : ConfigManager := ⟨pluginPath, [], [], some ⟨20, [(7, 2)]⟩, none⟩

/-! ## The answers of the current merchant session

A record kept beside the engine, built from the calls and their results only:
the merchant of the last multiplier query of one kind, and the item and result
of every query of the unbroken run of queries for that merchant. -/

/-- The merchant of the last query and the answers given since the merchant
last changed, as pairs of item identity and returned multiplier. -/
structure SessionLog where
  merchant : FormID
  answers : List (FormID × ℚ)

/-- The session log after a query of `traderID` for `itemID` that returned
`v`: the run goes on when the merchant is the one of the last query, and
starts anew otherwise. -/
def SessionLog.answer (log : Option SessionLog) (traderID itemID : FormID) (v : ℚ) :
    SessionLog :=
  match log with
  | some l =>
    if l.merchant = traderID then ⟨traderID, (itemID, v) :: l.answers⟩
    else ⟨traderID, [(itemID, v)]⟩
  | none => ⟨traderID, [(itemID, v)]⟩

/-- The session log after a query with the given handles that returned `v`. -/
def logAnswer (log : Option SessionLog) (trader : Option Actor)
    (item : Option InventoryEntryData) (v : ℚ) : Option SessionLog :=
  match trader, item.bind (fun i => i.object) with
  | some t, some object => some (SessionLog.answer log t.formID object.formID v)
  | _, _ => log

/-- The engine after a call, with the session logs of the price and of the
count queries. -/
def Call.runLogged (self : ConfigManager) (logs : Option SessionLog × Option SessionLog) :
    Call → Except Fault (ConfigManager × (Option SessionLog × Option SessionLog))
  | .reload file junk => (ReloadConfig self file junk).map (fun r => (r.2, logs))
  | .price w u trader item player =>
    (GetPriceMultiplier self w u trader item player).map
      (fun r => (r.2, (logAnswer logs.1 trader item r.1, logs.2)))
  | .count w u trader item player =>
    (GetCountMultiplier self w u trader item player).map
      (fun r => (r.2, (logs.1, logAnswer logs.2 trader item r.1)))

/-- The engine after a sequence of calls, with the two session logs. -/
def runLogged (self : ConfigManager) (logs : Option SessionLog × Option SessionLog) :
    List Call → Except Fault (ConfigManager × (Option SessionLog × Option SessionLog))
  | [] => .ok (self, logs)
  | call :: rest =>
    match call.runLogged self logs with
    | .ok next => runLogged next.1 next.2 rest
    | .error fault => .error fault

/-- The statics of a query agree with a session log: they are initialised
exactly when a query was answered, they record the merchant of the last
query, and every cached entry is an answer of the current run. -/
def Recorded (statics : Option SessionCache) (log : Option SessionLog) : Prop :=
  match statics, log with
  | none, none => True
  | some s, some l => s.trader_id = l.merchant ∧ ∀ p ∈ s.cache, p ∈ l.answers
  | _, _ => False

/-! ## The grammar of the specification -/

/-- Valid value-text in the words of the specification: a float, or a float,
the separator `~`, and a float. -/
def isValueText (t : Str) : Prop :=
  isFloatText t ∨ ∃ a b : Str, t = a ++ '~' :: b ∧ isFloatText a ∧ isFloatText b

/-- The rule objects of a document in the order `LoadConfig` builds them: the
`Prices` array, then the `Counts` array; a missing array has none. -/
def ConfigJson.rules (configJson : ConfigJson) : List EntryJson :=
  configJson.Prices.getD [] ++ configJson.Counts.getD []

/-- A rule object is built into a rule without a fault. -/
def Builds (junk : Int × Int) (entryJson : EntryJson) (entry : ConfigEntry) : Prop :=
  ConfigEntry.ofJson junk entryJson = .ok entry

/-- The document whose single price rule has the value text `abc`. -/
def badValueDoc : ConfigJson := ⟨some [⟨some "abc".toList, none⟩], none⟩

/-- The document whose single count rule has an item filter with the weight
comparison `>abc`. -/
def badThresholdDoc : ConfigJson :=
  ⟨none, some [⟨some "2.0".toList, some ⟨some ["NONE|NONE|>abc|NONE".toList], none, none⟩⟩]⟩

/-- The document of the end-to-end example: one price rule of value `2.0` for
merchants whose relationship level with the player is at least 4. -/
def relationshipDoc : ConfigJson :=
  ⟨some [⟨some "2.0".toList, some ⟨none, some ["NONE|>=4|NONE".toList], none⟩⟩], none⟩

/-- The rule built from the rule object of `relationshipDoc`. -/
def relationshipRule : ConfigEntry :=
  ⟨⟨2, 2, false⟩, ⟨[], [⟨[], ⟨.GREATER_EQUAL, 4⟩, GlobalsFilter.default⟩], []⟩⟩

/-- A player of level 1 whose every actor value is 10 and who has no perk. -/
def novice : PlayerCharacter := ⟨1, some (fun _ => 10), []⟩

/-- The comparison kind an operator text stands for. -/
def operatorKind (op : Str) : ComparisonType :=
  if op = ">=".toList then .GREATER_EQUAL
  else if op = "<=".toList then .LESS_EQUAL
  else if op = ">".toList then .GREATER
  else if op = "<".toList then .LESS
  else if op = "=".toList then .EQUAL
  else .NONE

/-- An engine that holds two price rules and one count rule. -/
def stockedEngine : ConfigManager :=
  ⟨pluginPath, [fixedRule 2, fixedRule 3], [fixedRule 4], none, none⟩

/-- The document whose second price rule has the value text `abc`, and which
has one count rule. -/
def secondRuleBadDoc : ConfigJson :=
  ⟨some [⟨some "5".toList, none⟩, ⟨some "abc".toList, none⟩, ⟨some "6".toList, none⟩],
    some [⟨some "7".toList, none⟩]⟩

/-! ## Numbers that fail to parse -/

/-- A comparison text whose threshold fails to parse: an operator is found in
it, and `std::stof` throws on the text that `ComparisonFilter::ParseFilter`
reads for the threshold, the text from the operator's length on. -/
def ThresholdFails (s : Str) : Prop :=
  ∃ (opPos : Nat) (opStr : Str) (f : Fault),
    findOperator s = some (opPos, opStr) ∧ stof (s.drop opStr.length) = .error f ∧
      f.isException = true

/-- The comparison text that `GlobalsFilter::ParseFilter` hands to
`ComparisonFilter::ParseFilter` for a global field: the operator it finds and
the trimmed text after it; none for an empty field, for `NONE` and for a field
without operator. -/
def rebuiltComparison (s : Str) : Option Str :=
  if s = [] ∨ s = "NONE".toList then none
  else (findOperator s).map (fun p => p.2 ++ TrimString (s.drop (p.1 + p.2.length)))

/-- A skill field `id(level)` one of whose two numbers fails to parse: the
field is not `NONE`, it holds a `(`, and `std::stoi` throws on the text before
it, or on the text after it less its last character, when there is one. -/
def SkillFails (s : Str) : Prop :=
  s ≠ "NONE".toList ∧ ∃ parenPos : Nat, find s ['('] = some parenPos ∧
    ((∃ f, stoi (s.take parenPos) = .error f) ∨
      (s.drop (parenPos + 1) ≠ [] ∧ ∃ f, stoi (s.drop (parenPos + 1)).dropLast = .error f))

/-- A rule object that carries a value text or a threshold whose numeric parse
fails, in the words of the specification: a conversion throws on its value
text, or, in one of its condition texts with all the fields of its category,
on the weight or the value comparison of an item, on the relationship
comparison or the comparison of the global field of a merchant, on the level
comparison or the skill field of a player. -/
def CarriesFailingNumber (entryJson : EntryJson) : Prop :=
  (∃ text f, entryJson.value = some text ∧ ValueRange.ParseValue text = .error f ∧
    f.isException = true) ∨
  ∃ filtersJson, entryJson.filters = some filtersJson ∧
    ((∃ t ∈ filtersJson.item.getD [], ∃ p0 p1 p2 p3 rest,
        SplitString t "|".toList = p0 :: p1 :: p2 :: p3 :: rest ∧
          (ThresholdFails p2 ∨ ThresholdFails p3)) ∨
      (∃ t ∈ filtersJson.merchant.getD [], ∃ p0 p1 p2 rest,
        SplitString t "|".toList = p0 :: p1 :: p2 :: rest ∧
          (ThresholdFails p1 ∨ ∃ c, rebuiltComparison p2 = some c ∧ ThresholdFails c)) ∨
      ∃ t ∈ filtersJson.player.getD [], ∃ p0 p1 p2 rest,
        SplitString t "|".toList = p0 :: p1 :: p2 :: rest ∧
          (ThresholdFails p0 ∨ SkillFails p1))

/-- The document with one price rule, of the given value text and condition
texts, and no count rule. -/
def onePriceRuleDoc (value : Str) (item merchant player : List Str) : ConfigJson :=
  ⟨some [⟨some value, some ⟨some item, some merchant, some player⟩⟩], none⟩

/-! ## Lemmas on text search -/

theorem startsWith_mem {s pat : Str} (h : startsWith s pat = true) : ∀ c ∈ pat, c ∈ s := by
  induction pat generalizing s with
  | nil => intro c hc; cases hc
  | cons p pat ih =>
    cases s with
    | nil => simp [startsWith] at h
    | cons a s =>
      simp only [startsWith, Bool.and_eq_true, beq_iff_eq] at h
      intro c hc
      rcases List.mem_cons.mp hc with rfl | hc
      · simp [h.1]
      · exact List.mem_cons_of_mem _ (ih h.2 c hc)

theorem find_eq_none_of_not_mem {s pat : Str} {c : Char} (hc : c ∈ pat) (hs : c ∉ s) :
    find s pat = none := by
  induction s with
  | nil =>
    unfold find
    have : startsWith [] pat = false := by
      cases pat with
      | nil => cases hc
      | cons p pat => rfl
    simp [this]
  | cons a s ih =>
    unfold find
    have hsw : startsWith (a :: s) pat = false := by
      cases hb : startsWith (a :: s) pat with
      | false => rfl
      | true => exact absurd (startsWith_mem hb c hc) hs
    have hs2 : c ∉ s := fun h => hs (List.mem_cons_of_mem _ h)
    simp [hsw, ih hs2]

theorem startsWith_append (pat t : Str) : startsWith (pat ++ t) pat = true := by
  induction pat with
  | nil => cases t <;> rfl
  | cons p pat ih => simp [startsWith, ih]

theorem find_append_self (pat t : Str) : find (pat ++ t) pat = some 0 := by
  unfold find
  simp [startsWith_append]

/-- On a text without any of the three operator characters, every operator
search of `ComparisonFilter::ParseFilter` answers `npos`. -/
theorem find_operators_none {s : Str} (h : ∀ c ∈ s, c ≠ '>' ∧ c ≠ '<' ∧ c ≠ '=') :
    find s ['>', '='] = none ∧ find s ['<', '='] = none ∧ find s ['>'] = none ∧
      find s ['<'] = none ∧ find s ['='] = none := by
  have hgt : '>' ∉ s := fun hc => (h _ hc).1 rfl
  have hlt : '<' ∉ s := fun hc => (h _ hc).2.1 rfl
  have heq : '=' ∉ s := fun hc => (h _ hc).2.2 rfl
  exact ⟨find_eq_none_of_not_mem (c := '>') (by decide) hgt,
    find_eq_none_of_not_mem (c := '<') (by decide) hlt,
    find_eq_none_of_not_mem (c := '>') (by decide) hgt,
    find_eq_none_of_not_mem (c := '<') (by decide) hlt,
    find_eq_none_of_not_mem (c := '=') (by decide) heq⟩

/-! ## Lemmas on the numeric scanner -/

theorem ScansTo.refl (s : Str) : ScansTo s s := ⟨[], rfl, by simp⟩

theorem ScansTo.trans {s r q : Str} (h1 : ScansTo s r) (h2 : ScansTo r q) : ScansTo s q := by
  obtain ⟨p1, rfl, hp1⟩ := h1
  obtain ⟨p2, rfl, hp2⟩ := h2
  refine ⟨p1 ++ p2, by simp, ?_⟩
  intro c hc
  rcases List.mem_append.mp hc with h | h
  · exact hp1 c h
  · exact hp2 c h

theorem ScansTo.cons {c : Char} {s r : Str} (hc : floatChar c = true) (h : ScansTo s r) :
    ScansTo (c :: s) r := by
  obtain ⟨p, rfl, hp⟩ := h
  refine ⟨c :: p, rfl, ?_⟩
  intro d hd
  rcases List.mem_cons.mp hd with rfl | hd
  · exact hc
  · exact hp d hd

theorem scansTo_dropWhile (f : Char → Bool) (hf : ∀ c, f c = true → floatChar c = true)
    (s : Str) : ScansTo s (s.dropWhile f) := by
  refine ⟨s.takeWhile f, (List.takeWhile_append_dropWhile f s).symm, ?_⟩
  intro c hc
  exact hf c (List.mem_takeWhile_imp hc)

theorem scansTo_scanSign (s : Str) : ScansTo s (scanSign s).2 := by
  unfold scanSign
  split
  · exact ScansTo.cons (by decide) (ScansTo.refl _)
  · exact ScansTo.cons (by decide) (ScansTo.refl _)
  · exact ScansTo.refl _

theorem floatChar_of_isDigit (c : Char) (h : c.isDigit = true) : floatChar c = true := by
  simp [floatChar, isxdigit, h]

theorem floatChar_of_isxdigit (c : Char) (h : isxdigit c = true) : floatChar c = true := by
  simp [floatChar, h]

theorem floatChar_of_isspace (c : Char) (h : isspace c = true) : floatChar c = true := by
  simp [floatChar, h]

theorem scansTo_scanExponent (s : Str) : ScansTo s (scanExponent s).2 := by
  unfold scanExponent
  split
  · exact ScansTo.refl _
  · rename_i c r
    by_cases hc : (c == 'e' || c == 'E') = true
    · simp only [hc, if_true]
      by_cases hd : ((scanSign r).2.takeWhile Char.isDigit).isEmpty = true
      · simp only [hd, if_true]; exact ScansTo.refl _
      · simp only [hd]
        have hfc : floatChar c = true := by
          simp only [Bool.or_eq_true, beq_iff_eq] at hc
          rcases hc with rfl | rfl <;> decide
        exact ScansTo.cons hfc ((scansTo_scanSign r).trans
          (scansTo_dropWhile _ floatChar_of_isDigit _))
    · simp only [hc]; exact ScansTo.refl _

theorem scansTo_scanBinaryExponent (s : Str) : ScansTo s (scanBinaryExponent s).2 := by
  unfold scanBinaryExponent
  split
  · exact ScansTo.refl _
  · rename_i c r
    by_cases hc : (c == 'p' || c == 'P') = true
    · simp only [hc, if_true]
      by_cases hd : ((scanSign r).2.takeWhile Char.isDigit).isEmpty = true
      · simp only [hd, if_true]; exact ScansTo.refl _
      · simp only [hd]
        have hfc : floatChar c = true := by
          simp only [Bool.or_eq_true, beq_iff_eq] at hc
          rcases hc with rfl | rfl <;> decide
        exact ScansTo.cons hfc ((scansTo_scanSign r).trans
          (scansTo_dropWhile _ floatChar_of_isDigit _))
    · simp only [hc]; exact ScansTo.refl _

theorem scansTo_scanDecimal {s r : Str} {m : ℚ} (h : scanDecimal s = some (m, r)) :
    ScansTo s r := by
  unfold scanDecimal at h
  simp only at h
  split at h
  · cases h
  · simp only [Option.some.injEq, Prod.mk.injEq] at h
    rw [← h.2]
    refine (scansTo_dropWhile _ floatChar_of_isDigit _).trans ?_
    refine ScansTo.trans ?_ (scansTo_scanExponent _)
    split
    · rename_i r2 heq
      rw [heq]
      exact ScansTo.cons (by decide) (scansTo_dropWhile _ floatChar_of_isDigit _)
    · exact ScansTo.refl _

theorem scansTo_scanHexadecimal {s r : Str} {m : ℚ} (h : scanHexadecimal s = some (m, r)) :
    ScansTo s r := by
  unfold scanHexadecimal at h
  simp only at h
  split at h
  · cases h
  · simp only [Option.some.injEq, Prod.mk.injEq] at h
    rw [← h.2]
    refine (scansTo_dropWhile _ floatChar_of_isxdigit _).trans ?_
    refine ScansTo.trans ?_ (scansTo_scanBinaryExponent _)
    split
    · rename_i r2 heq
      rw [heq]
      exact ScansTo.cons (by decide) (scansTo_dropWhile _ floatChar_of_isxdigit _)
    · exact ScansTo.refl _

theorem scansTo_scanHexNumber {s r : Str} {m : ℚ} (h : scanHexNumber s = some (m, r)) :
    ScansTo s r := by
  unfold scanHexNumber at h
  split at h
  · rename_i x r2
    split at h
    · rename_i hx
      have hfx : floatChar x = true := by
        simp only [Bool.or_eq_true, beq_iff_eq] at hx
        rcases hx with rfl | rfl <;> decide
      exact ScansTo.cons (by decide) (ScansTo.cons hfx (scansTo_scanHexadecimal h))
    · cases h
  · cases h

/-- The text a number is scanned from ends with the text left over after a
run of number characters. -/
theorem scansTo_scanNumber {s r : Str} {q : ℚ} (h : scanNumber s = some (.number q, r)) :
    ScansTo s r := by
  unfold scanNumber at h
  simp only at h
  refine (scansTo_dropWhile _ floatChar_of_isspace s).trans ?_
  refine (scansTo_scanSign _).trans ?_
  generalize (scanSign (List.dropWhile isspace s)).2 = t at h
  generalize (scanSign (List.dropWhile isspace s)).1 = neg at h
  split at h
  · cases h
  · split at h
    · cases h
    · split at h
      · cases h
      · split at h
        · rename_i m rest hhex
          simp only [Option.some.injEq, Prod.mk.injEq] at h
          rw [← h.2]
          exact scansTo_scanHexNumber hhex
        · split at h
          · rename_i m rest hdec
            simp only [Option.some.injEq, Prod.mk.injEq] at h
            rw [← h.2]
            exact scansTo_scanDecimal hdec
          · cases h

theorem scanNumber_of_stofScan {s r : Str} {v : ℚ} (h : stofScan s = some (v, r)) :
    ∃ q, scanNumber s = some (.number q, r) ∧ convertBinary32 q = .ok v := by
  unfold stofScan at h
  split at h
  · rename_i q rest hs
    split at h
    · rename_i v2 hc
      simp only [Option.some.injEq, Prod.mk.injEq] at h
      obtain ⟨rfl, rfl⟩ := h
      exact ⟨q, hs, hc⟩
    · cases h
  · cases h

theorem scansTo_stofScan {s r : Str} {v : ℚ} (h : stofScan s = some (v, r)) : ScansTo s r := by
  obtain ⟨q, hq, _⟩ := scanNumber_of_stofScan h
  exact scansTo_scanNumber hq

theorem floatChar_of_floatText {s : Str} {v : ℚ} (h : stofScan s = some (v, [])) :
    ∀ c ∈ s, floatChar c = true := by
  obtain ⟨p, hp, hall⟩ := scansTo_stofScan h
  simp only [List.append_nil] at hp
  subst hp
  exact hall

theorem stof_of_stofScan {s r : Str} {v : ℚ} (h : stofScan s = some (v, r)) :
    stof s = .ok v := by
  obtain ⟨q, hq, hc⟩ := scanNumber_of_stofScan h
  simp [stof, hq, hc]

theorem stofScan_of_stof {s : Str} {v : ℚ} (h : stof s = .ok v) :
    ∃ r, stofScan s = some (v, r) := by
  unfold stof at h
  split at h
  · cases h
  · rename_i q rest hs
    exact ⟨rest, by simp [stofScan, hs, h]⟩
  · cases h

/-! ## Lemmas on value texts -/

theorem find_char_append {c : Char} (s r : Str) (h : c ∉ s) :
    find (s ++ c :: r) [c] = some s.length := by
  induction s with
  | nil =>
    unfold find
    simp [startsWith]
  | cons a s ih =>
    have hne : ¬ (a = c) := fun e => h (by simp [e])
    have hs : c ∉ s := fun hc => h (List.mem_cons_of_mem _ hc)
    unfold find
    simp [startsWith, hne, ih hs]

theorem isFloatText_iff (s : Str) :
    isFloatText s ↔ (stofScan s).map (fun r => r.2) = some [] := by
  unfold isFloatText
  constructor
  · rintro ⟨v, hv⟩
    rw [hv]
    rfl
  · intro h
    cases hs : stofScan s with
    | none => rw [hs] at h; cases h
    | some r =>
      obtain ⟨v, rest⟩ := r
      rw [hs] at h
      simp only [Option.map_some', Option.some.injEq] at h
      subst h
      exact ⟨v, rfl⟩

theorem tilde_not_mem_of_isFloatText {s : Str} (h : isFloatText s) : '~' ∉ s := by
  obtain ⟨v, hv⟩ := h
  intro hmem
  have := floatChar_of_floatText hv '~' hmem
  revert this
  decide

theorem stof_ok_iff (s : Str) : (∃ v, stof s = .ok v) ↔ stofScan s ≠ none := by
  constructor
  · rintro ⟨v, hv⟩
    obtain ⟨r, hr⟩ := stofScan_of_stof hv
    simp [hr]
  · intro h
    cases hs : stofScan s with
    | none => exact absurd hs h
    | some p => exact ⟨p.1, stof_of_stofScan (r := p.2) hs⟩

/-- Valid value-text is a float text, or is cut by its first `~` into two
float texts. -/
theorem isValueText_cases {t : Str} (h : isValueText t) :
    isFloatText t ∨ ∃ p, find t ['~'] = some p ∧ isFloatText (t.take p) ∧
      isFloatText (t.drop (p + 1)) := by
  rcases h with h | ⟨a, b, rfl, ha, hb⟩
  · exact Or.inl h
  · refine Or.inr ⟨a.length, find_char_append a b (tilde_not_mem_of_isFloatText ha), ?_, ?_⟩
    · simpa using ha
    · simpa using hb

/-! ## Lemmas on the multiplier queries -/

theorem lookup_cacheStore_self (cache : List (FormID × ℚ)) (key : FormID) (value : ℚ) :
    (cacheStore cache key value).lookup key = some value := by
  simp [cacheStore, List.lookup]

/-- A query with a present merchant and item object that finds no cached
entry scans the rules and stores the result. -/
theorem getMultiplier_miss (statics : Option SessionCache) (entries : List ConfigEntry)
    (w : World) (u : Sample) (t : Actor) (object : BoundObject)
    (player : Option PlayerCharacter)
    (hmiss : cachedFor statics t.formID object.formID = none) :
    getMultiplier statics entries w u (some t) (some ⟨some object⟩) player =
      .ok (scanEntries w u entries (some t) (some ⟨some object⟩) player,
        ⟨t.formID, cacheStore (keptEntries statics t.formID) object.formID
          (scanEntries w u entries (some t) (some ⟨some object⟩) player)⟩) := by
  unfold getMultiplier
  cases statics with
  | none => simp [keptEntries, List.lookup]
  | some s =>
    by_cases hid : s.trader_id = t.formID
    · simp only [cachedFor, hid, if_true] at hmiss
      simp [keptEntries, hid, hmiss]
    · simp [keptEntries, hid]

/-- A query with a present merchant and item object that finds a cached entry
returns it and leaves the statics as they are. -/
theorem getMultiplier_hit (statics : Option SessionCache) (entries : List ConfigEntry)
    (w : World) (u : Sample) (t : Actor) (object : BoundObject)
    (player : Option PlayerCharacter) (v : ℚ)
    (hhit : cachedFor statics t.formID object.formID = some v) :
    ∃ s, statics = some s ∧
      getMultiplier statics entries w u (some t) (some ⟨some object⟩) player = .ok (v, s) := by
  cases statics with
  | none => simp [cachedFor] at hhit
  | some s =>
    refine ⟨s, rfl, ?_⟩
    by_cases hid : s.trader_id = t.formID
    · simp only [cachedFor, hid, if_true] at hhit
      unfold getMultiplier
      simp [hid, hhit]
    · simp [cachedFor, hid] at hhit

/-- After a query that returned, the statics hold the returned multiplier for
the merchant and the item of the query. -/
theorem cachedFor_after_query (statics : Option SessionCache) (entries : List ConfigEntry)
    (w : World) (u : Sample) (t : Actor) (object : BoundObject)
    (player : Option PlayerCharacter) (v : ℚ) (s1 : SessionCache)
    (h : getMultiplier statics entries w u (some t) (some ⟨some object⟩) player = .ok (v, s1)) :
    cachedFor (some s1) t.formID object.formID = some v := by
  cases hc : cachedFor statics t.formID object.formID with
  | none =>
    rw [getMultiplier_miss statics entries w u t object player hc] at h
    simp only [Except.ok.injEq, Prod.mk.injEq] at h
    obtain ⟨hv, hs⟩ := h
    subst hs
    simp only [cachedFor, if_true]
    rw [lookup_cacheStore_self, hv]
  | some v0 =>
    obtain ⟨s, hs, hq⟩ := getMultiplier_hit statics entries w u t object player v0 hc
    rw [hq] at h
    simp only [Except.ok.injEq, Prod.mk.injEq] at h
    obtain ⟨hv, hs1⟩ := h
    subst hs hv hs1
    exact hc

/-- The scan returns the sampled value of the first matching entry. -/
theorem scanEntries_first_match (w : World) (u : Sample) (entries : List ConfigEntry)
    (trader : Option Actor) (item : Option InventoryEntryData)
    (player : Option PlayerCharacter) (i : Nat) (rule : ConfigEntry)
    (hi : entries[i]? = some rule)
    (hmatch : MatchesFilters w rule.filters trader item player = true)
    (hfirst : ∀ k e, k < i → entries[k]? = some e →
      MatchesFilters w e.filters trader item player = false) :
    scanEntries w u entries trader item player = rule.value.GetValue u := by
  induction entries generalizing i with
  | nil => simp at hi
  | cons e es ih =>
    cases i with
    | zero =>
      simp only [List.getElem?_cons_zero, Option.some.injEq] at hi
      subst hi
      simp [scanEntries, hmatch]
    | succ n =>
      have he : MatchesFilters w e.filters trader item player = false :=
        hfirst 0 e (Nat.succ_pos n) (by simp)
      simp only [List.getElem?_cons_succ] at hi
      unfold scanEntries
      simp only [he, Bool.false_eq_true, if_false]
      exact ih n hi (fun k e2 hk hk2 => hfirst (k + 1) e2 (Nat.succ_lt_succ hk) (by simpa using hk2))

/-- The scan returns 1 when no entry matches. -/
theorem scanEntries_no_match (w : World) (u : Sample) (entries : List ConfigEntry)
    (trader : Option Actor) (item : Option InventoryEntryData)
    (player : Option PlayerCharacter)
    (hnone : ∀ e ∈ entries, MatchesFilters w e.filters trader item player = false) :
    scanEntries w u entries trader item player = 1 := by
  induction entries with
  | nil => rfl
  | cons e es ih =>
    unfold scanEntries
    simp only [hnone e (List.mem_cons_self _ _), Bool.false_eq_true, if_false]
    exact ih (fun e2 h2 => hnone e2 (List.mem_cons_of_mem _ h2))

/-! ## Lemmas on what a call leaves alone -/

/-- A load changes neither the path nor the statics of the queries. -/
theorem LoadConfig_frame (self next : ConfigManager) (file : Option ConfigJson)
    (junk : Int × Int) (flag : Bool) (h : LoadConfig self file junk = .ok (flag, next)) :
    next.configPath = self.configPath ∧ next.priceStatics = self.priceStatics ∧
      next.countStatics = self.countStatics := by
  unfold LoadConfig at h
  split at h
  · simp only [Except.ok.injEq, Prod.mk.injEq] at h
    rw [← h.2]
    exact ⟨rfl, rfl, rfl⟩
  · simp only at h
    split at h
    · split at h
      · simp only [Except.ok.injEq, Prod.mk.injEq] at h
        rw [← h.2]
        exact ⟨rfl, rfl, rfl⟩
      · cases h
    · split at h
      · split at h
        · simp only [Except.ok.injEq, Prod.mk.injEq] at h
          rw [← h.2]
          exact ⟨rfl, rfl, rfl⟩
        · cases h
      · simp only [Except.ok.injEq, Prod.mk.injEq] at h
        rw [← h.2]
        exact ⟨rfl, rfl, rfl⟩

/-- A query that returns was given a merchant and an item with an object. -/
theorem getMultiplier_ok_present (statics : Option SessionCache) (entries : List ConfigEntry)
    (w : World) (u : Sample) (trader : Option Actor) (item : Option InventoryEntryData)
    (player : Option PlayerCharacter) (r : ℚ × SessionCache)
    (h : getMultiplier statics entries w u trader item player = .ok r) :
    ∃ t object, trader = some t ∧ item = some ⟨some object⟩ := by
  cases trader with
  | none => simp [getMultiplier] at h
  | some t =>
    cases item with
    | none =>
      unfold getMultiplier at h
      simp only [Option.bind] at h
      split at h <;> cases h
    | some i =>
      obtain ⟨o⟩ := i
      cases o with
      | none =>
        unfold getMultiplier at h
        simp only [Option.bind] at h
        split at h <;> cases h
      | some object => exact ⟨t, object, rfl, rfl⟩

/-- A query keeps the statics in agreement with the session log. -/
theorem Recorded_after_query (statics : Option SessionCache) (log : Option SessionLog)
    (entries : List ConfigEntry) (w : World) (u : Sample) (trader : Option Actor)
    (item : Option InventoryEntryData) (player : Option PlayerCharacter) (v : ℚ)
    (s1 : SessionCache) (hrec : Recorded statics log)
    (h : getMultiplier statics entries w u trader item player = .ok (v, s1)) :
    Recorded (some s1) (logAnswer log trader item v) := by
  obtain ⟨t, object, rfl, rfl⟩ := getMultiplier_ok_present _ _ _ _ _ _ _ _ h
  simp only [logAnswer, Option.bind]
  cases hc : cachedFor statics t.formID object.formID with
  | none =>
    rw [getMultiplier_miss statics entries w u t object player hc] at h
    simp only [Except.ok.injEq, Prod.mk.injEq] at h
    obtain ⟨hv, hs⟩ := h
    subst hs
    cases statics with
    | none =>
      cases log with
      | none =>
        simp [Recorded, SessionLog.answer, keptEntries, cacheStore, hv]
      | some l => simp [Recorded] at hrec
    | some s =>
      cases log with
      | none => simp [Recorded] at hrec
      | some l =>
        simp only [Recorded] at hrec
        obtain ⟨hm, hsub⟩ := hrec
        by_cases hid : s.trader_id = t.formID
        · have hl : l.merchant = t.formID := by rw [← hm, hid]
          simp only [Recorded, SessionLog.answer, hl, if_true, keptEntries, hid, true_and]
          intro p hp
          simp only [cacheStore, List.mem_cons, List.mem_filter] at hp
          rcases hp with hp | hp
          · rw [hp, hv]; exact List.mem_cons_self _ _
          · exact List.mem_cons_of_mem _ (hsub p hp.1)
        · have hl : ¬ l.merchant = t.formID := by rw [← hm]; exact hid
          simp [Recorded, SessionLog.answer, hl, keptEntries, hid, cacheStore, hv]
  | some v0 =>
    obtain ⟨s, hs, hq⟩ := getMultiplier_hit statics entries w u t object player v0 hc
    rw [hq] at h
    simp only [Except.ok.injEq, Prod.mk.injEq] at h
    obtain ⟨hv, hs1⟩ := h
    subst hs hv hs1
    cases log with
    | none => simp [Recorded] at hrec
    | some l =>
      simp only [Recorded] at hrec
      obtain ⟨hm, hsub⟩ := hrec
      have hid : s.trader_id = t.formID := by
        by_contra hne
        simp [cachedFor, hne] at hc
      have hl : l.merchant = t.formID := by rw [← hm, hid]
      simp only [Recorded, SessionLog.answer, hl, if_true]
      exact ⟨hid, fun p hp => List.mem_cons_of_mem _ (hsub p hp)⟩

/-- A call that returns keeps both statics in agreement with their logs. -/
theorem Recorded_after_call (self next : ConfigManager)
    (logs : Option SessionLog × Option SessionLog) (call : Call)
    (hp : Recorded self.priceStatics logs.1) (hc : Recorded self.countStatics logs.2)
    (h : call.run self = .ok next) :
    ∃ logs1, call.runLogged self logs = .ok (next, logs1) ∧
      Recorded next.priceStatics logs1.1 ∧ Recorded next.countStatics logs1.2 := by
  cases call with
  | reload file junk =>
    simp only [Call.run, ReloadConfig] at h
    cases hl : LoadConfig self file junk with
    | error f => rw [hl] at h; cases h
    | ok r =>
      obtain ⟨flag, cm1⟩ := r
      rw [hl] at h
      simp only [Except.map, Except.ok.injEq] at h
      subst h
      obtain ⟨_, h1, h2⟩ := LoadConfig_frame _ _ _ _ _ hl
      refine ⟨logs, ?_, ?_, ?_⟩
      · simp [Call.runLogged, ReloadConfig, hl, Except.map]
      · rw [h1]; exact hp
      · rw [h2]; exact hc
  | price w u trader item player =>
    simp only [Call.run, GetPriceMultiplier] at h
    cases hq : getMultiplier self.priceStatics self.priceEntries w u trader item player with
    | error f => rw [hq] at h; cases h
    | ok r =>
      obtain ⟨v, s1⟩ := r
      rw [hq] at h
      simp only [Except.map, Except.ok.injEq] at h
      subst h
      refine ⟨(logAnswer logs.1 trader item v, logs.2), ?_, ?_, hc⟩
      · simp [Call.runLogged, GetPriceMultiplier, hq, Except.map]
      · exact Recorded_after_query _ _ _ _ _ _ _ _ _ _ hp hq
  | count w u trader item player =>
    simp only [Call.run, GetCountMultiplier] at h
    cases hq : getMultiplier self.countStatics self.countEntries w u trader item player with
    | error f => rw [hq] at h; cases h
    | ok r =>
      obtain ⟨v, s1⟩ := r
      rw [hq] at h
      simp only [Except.map, Except.ok.injEq] at h
      subst h
      refine ⟨(logs.1, logAnswer logs.2 trader item v), ?_, hp, ?_⟩
      · simp [Call.runLogged, GetCountMultiplier, hq, Except.map]
      · exact Recorded_after_query _ _ _ _ _ _ _ _ _ _ hc hq

/-- A sequence of calls that returns keeps both statics in agreement with
their logs. -/
theorem Recorded_after_calls (calls : List Call) (self cm : ConfigManager)
    (logs : Option SessionLog × Option SessionLog)
    (hp : Recorded self.priceStatics logs.1) (hc : Recorded self.countStatics logs.2)
    (h : runCalls self calls = .ok cm) :
    ∃ logs1, runLogged self logs calls = .ok (cm, logs1) ∧
      Recorded cm.priceStatics logs1.1 ∧ Recorded cm.countStatics logs1.2 := by
  induction calls generalizing self logs with
  | nil =>
    simp only [runCalls, Except.ok.injEq] at h
    subst h
    exact ⟨logs, rfl, hp, hc⟩
  | cons call rest ih =>
    unfold runCalls at h
    cases hr : call.run self with
    | error f => rw [hr] at h; cases h
    | ok next =>
      rw [hr] at h
      obtain ⟨logs1, hl, hp1, hc1⟩ := Recorded_after_call self next logs call hp hc hr
      obtain ⟨logs2, hl2, hp2, hc2⟩ := ih next logs1 hp1 hc1 h
      refine ⟨logs2, ?_, hp2, hc2⟩
      unfold runLogged
      rw [hl]
      exact hl2

/-- The engine is created with both statics not yet initialised. -/
theorem create_statics (path : Str) (file : Option ConfigJson) (junk : Int × Int)
    (start : ConfigManager) (h : ConfigManager.create path file junk = .ok start) :
    start.priceStatics = none ∧ start.countStatics = none := by
  unfold ConfigManager.create at h
  cases hl : LoadConfig ⟨path, [], [], none, none⟩ file junk with
  | error f => rw [hl] at h; cases h
  | ok r =>
    obtain ⟨flag, cm1⟩ := r
    rw [hl] at h
    simp only [Except.map, Except.ok.injEq] at h
    subst h
    obtain ⟨_, h1, h2⟩ := LoadConfig_frame _ _ _ _ _ hl
    exact ⟨h1, h2⟩

/-- A query of a merchant other than the recorded one scans the rules and
leaves the statics with the new merchant and the one entry just computed. -/
theorem getMultiplier_other_merchant (s : SessionCache) (entries : List ConfigEntry)
    (w : World) (u : Sample) (t : Actor) (object : BoundObject)
    (player : Option PlayerCharacter) (hne : s.trader_id ≠ t.formID) :
    getMultiplier (some s) entries w u (some t) (some ⟨some object⟩) player =
      .ok (scanEntries w u entries (some t) (some ⟨some object⟩) player,
        ⟨t.formID,
          [(object.formID, scanEntries w u entries (some t) (some ⟨some object⟩) player)]⟩) := by
  have hmiss : cachedFor (some s) t.formID object.formID = none := by
    simp [cachedFor, hne]
  rw [getMultiplier_miss _ _ _ _ _ _ _ hmiss]
  simp [keptEntries, hne, cacheStore]

/-- A query that returned leaves the merchant of the query recorded. -/
theorem trader_id_after_query (statics : Option SessionCache) (entries : List ConfigEntry)
    (w : World) (u : Sample) (t : Actor) (object : BoundObject)
    (player : Option PlayerCharacter) (v : ℚ) (s1 : SessionCache)
    (h : getMultiplier statics entries w u (some t) (some ⟨some object⟩) player = .ok (v, s1)) :
    s1.trader_id = t.formID := by
  have hc := cachedFor_after_query _ _ _ _ _ _ _ _ _ h
  by_contra hne
  simp [cachedFor, hne] at hc

/-- After a query for merchant B that returned, a query for another merchant A
scans the rules, whatever an earlier session of A had cached. -/
theorem getMultiplier_returning_merchant (statics : Option SessionCache)
    (entriesB entries : List ConfigEntry) (wB w : World) (uB u : Sample)
    (tA tB : Actor) (object objectB : BoundObject)
    (playerB player : Option PlayerCharacter) (vB : ℚ) (sB : SessionCache)
    (hAB : tB.formID ≠ tA.formID)
    (hB : getMultiplier statics entriesB wB uB (some tB) (some ⟨some objectB⟩) playerB =
      .ok (vB, sB)) :
    getMultiplier (some sB) entries w u (some tA) (some ⟨some object⟩) player =
      .ok (scanEntries w u entries (some tA) (some ⟨some object⟩) player,
        ⟨tA.formID,
          [(object.formID, scanEntries w u entries (some tA) (some ⟨some object⟩) player)]⟩) := by
  have hB1 : sB.trader_id = tB.formID := trader_id_after_query _ _ _ _ _ _ _ _ _ hB
  exact getMultiplier_other_merchant sB entries w u tA object player (by rw [hB1]; exact hAB)

/-- A price query that returned, in terms of the shared body. -/
theorem GetPriceMultiplier_ok (cm cm1 : ConfigManager) (w : World) (u : Sample)
    (trader : Option Actor) (item : Option InventoryEntryData)
    (player : Option PlayerCharacter) (v : ℚ)
    (h : GetPriceMultiplier cm w u trader item player = .ok (v, cm1)) :
    ∃ s1, getMultiplier cm.priceStatics cm.priceEntries w u trader item player = .ok (v, s1) ∧
      cm1 = { cm with priceStatics := some s1 } := by
  unfold GetPriceMultiplier at h
  cases hq : getMultiplier cm.priceStatics cm.priceEntries w u trader item player with
  | error f => rw [hq] at h; cases h
  | ok r =>
    obtain ⟨v0, s1⟩ := r
    rw [hq] at h
    simp only [Except.map, Except.ok.injEq, Prod.mk.injEq] at h
    exact ⟨s1, by rw [h.1], h.2.symm⟩

/-- A count query that returned, in terms of the shared body. -/
theorem GetCountMultiplier_ok (cm cm1 : ConfigManager) (w : World) (u : Sample)
    (trader : Option Actor) (item : Option InventoryEntryData)
    (player : Option PlayerCharacter) (v : ℚ)
    (h : GetCountMultiplier cm w u trader item player = .ok (v, cm1)) :
    ∃ s1, getMultiplier cm.countStatics cm.countEntries w u trader item player = .ok (v, s1) ∧
      cm1 = { cm with countStatics := some s1 } := by
  unfold GetCountMultiplier at h
  cases hq : getMultiplier cm.countStatics cm.countEntries w u trader item player with
  | error f => rw [hq] at h; cases h
  | ok r =>
    obtain ⟨v0, s1⟩ := r
    rw [hq] at h
    simp only [Except.map, Except.ok.injEq, Prod.mk.injEq] at h
    exact ⟨s1, by rw [h.1], h.2.symm⟩

/-! ## Lemmas on loading -/

/-- The loop over an array ends without a fault exactly when every rule object
is built, and then it holds the rules in the order of the array. -/
theorem emplaceEntries_none_iff (junk : Int × Int) (array : List EntryJson)
    (entries : List ConfigEntry) :
    emplaceEntries junk array = (entries, none) ↔ List.Forall₂ (Builds junk) array entries := by
  induction array generalizing entries with
  | nil =>
    constructor
    · intro h
      simp only [emplaceEntries, Prod.mk.injEq] at h
      rw [← h.1]
      exact List.Forall₂.nil
    · intro h
      cases h
      rfl
  | cons e es ih =>
    constructor
    · intro h
      unfold emplaceEntries at h
      cases he : ConfigEntry.ofJson junk e with
      | error f => rw [he] at h; simp at h
      | ok c =>
        rw [he] at h
        simp only [Prod.mk.injEq] at h
        obtain ⟨h1, h2⟩ := h
        rw [← h1]
        refine List.Forall₂.cons he ((ih _).mp ?_)
        exact Prod.ext rfl h2
    · intro h
      cases h with
      | cons hb hrest =>
        rename_i c cs
        unfold emplaceEntries
        have hb2 : ConfigEntry.ofJson junk e = .ok c := hb
        rw [hb2, (ih cs).mpr hrest]

/-- A fault of the loop over an array is the fault of one of its rule
objects. -/
theorem emplaceEntries_fault (junk : Int × Int) (array : List EntryJson) (f : Fault)
    (h : (emplaceEntries junk array).2 = some f) :
    ∃ e ∈ array, ConfigEntry.ofJson junk e = .error f := by
  induction array with
  | nil => simp [emplaceEntries] at h
  | cons e es ih =>
    unfold emplaceEntries at h
    cases he : ConfigEntry.ofJson junk e with
    | error f0 =>
      rw [he] at h
      simp only [Option.some.injEq] at h
      subst h
      exact ⟨e, List.mem_cons_self _ _, he⟩
    | ok c =>
      rw [he] at h
      obtain ⟨e2, hmem, h2⟩ := ih h
      exact ⟨e2, List.mem_cons_of_mem _ hmem, h2⟩

/-- The loop over an array ends without a fault when every rule object is
built. -/
theorem emplaceEntries_all_built (junk : Int × Int) (array : List EntryJson)
    (h : ∀ e ∈ array, ∃ c, ConfigEntry.ofJson junk e = .ok c) :
    (emplaceEntries junk array).2 = none := by
  cases hf : (emplaceEntries junk array).2 with
  | none => rfl
  | some f =>
    obtain ⟨e, hmem, he⟩ := emplaceEntries_fault junk array f hf
    obtain ⟨c, hc⟩ := h e hmem
    rw [hc] at he
    cases he

/-- The loop over a key that may be missing is the loop over its array. -/
theorem emplace_missing (junk : Int × Int) (key : Option (List EntryJson)) :
    (match key with
      | some array => emplaceEntries junk array
      | none => ([], none)) = emplaceEntries junk (key.getD []) := by
  cases key <;> rfl

/-- The result of `LoadConfig` on a document, by the two loops. -/
theorem LoadConfig_eq (self : ConfigManager) (configJson : ConfigJson) (junk : Int × Int) :
    LoadConfig self (some configJson) junk =
      match (emplaceEntries junk (configJson.Prices.getD [])).2 with
      | some fault =>
        if fault.isException then
          .ok (false, { self with
            priceEntries := (emplaceEntries junk (configJson.Prices.getD [])).1,
            countEntries := [] })
        else .error fault
      | none =>
        match (emplaceEntries junk (configJson.Counts.getD [])).2 with
        | some fault =>
          if fault.isException then
            .ok (false, { self with
              priceEntries := (emplaceEntries junk (configJson.Prices.getD [])).1,
              countEntries := (emplaceEntries junk (configJson.Counts.getD [])).1 })
          else .error fault
        | none =>
          .ok (true, { self with
            priceEntries := (emplaceEntries junk (configJson.Prices.getD [])).1,
            countEntries := (emplaceEntries junk (configJson.Counts.getD [])).1 }) := by
  unfold LoadConfig
  simp only [emplace_missing]

/-- The load of a document succeeds exactly when every rule object of both
arrays is built, and then the two rule lists are the rules built. -/
theorem LoadConfig_true_iff (self cm : ConfigManager) (configJson : ConfigJson)
    (junk : Int × Int) :
    LoadConfig self (some configJson) junk = .ok (true, cm) ↔
      ∃ prices counts,
        List.Forall₂ (Builds junk) (configJson.Prices.getD []) prices ∧
        List.Forall₂ (Builds junk) (configJson.Counts.getD []) counts ∧
        cm = { self with priceEntries := prices, countEntries := counts } := by
  rw [LoadConfig_eq]
  constructor
  · intro h
    cases hp : (emplaceEntries junk (configJson.Prices.getD [])).2 with
    | some f =>
      rw [hp] at h
      simp only at h
      split at h <;> simp at h
    | none =>
      rw [hp] at h
      simp only at h
      cases hc : (emplaceEntries junk (configJson.Counts.getD [])).2 with
      | some f =>
        rw [hc] at h
        simp only at h
        split at h <;> simp at h
      | none =>
        rw [hc] at h
        simp only [Except.ok.injEq, Prod.mk.injEq, true_and] at h
        exact ⟨_, _, (emplaceEntries_none_iff junk _ _).mp (Prod.ext rfl hp),
          (emplaceEntries_none_iff junk _ _).mp (Prod.ext rfl hc), h.symm⟩
  · rintro ⟨prices, counts, hp, hc, rfl⟩
    rw [(emplaceEntries_none_iff junk _ _).mpr hp, (emplaceEntries_none_iff junk _ _).mpr hc]

theorem forall₂_built {junk : Int × Int} {array : List EntryJson} {entries : List ConfigEntry}
    (h : List.Forall₂ (Builds junk) array entries) :
    ∀ e ∈ array, ∃ c, ConfigEntry.ofJson junk e = .ok c := by
  induction h with
  | nil => intro e he; cases he
  | cons hb _ ih =>
    intro e he
    rcases List.mem_cons.mp he with rfl | he
    · exact ⟨_, hb⟩
    · exact ih e he

theorem built_forall₂ (junk : Int × Int) (array : List EntryJson)
    (h : ∀ e ∈ array, ∃ c, ConfigEntry.ofJson junk e = .ok c) :
    ∃ entries, List.Forall₂ (Builds junk) array entries :=
  ⟨(emplaceEntries junk array).1,
    (emplaceEntries_none_iff junk array _).mp (Prod.ext rfl (emplaceEntries_all_built junk array h))⟩

/-- When the rule object at position `k` is the first that fails to build, the
loop over the array ends with its fault, holding the rules built from the
`k` rule objects before it. -/
theorem emplaceEntries_first_fault (junk : Int × Int) (array : List EntryJson) (k : Nat)
    (e : EntryJson) (f : Fault) (hk : array[k]? = some e)
    (he : ConfigEntry.ofJson junk e = .error f)
    (hbefore : ∀ j e1, j < k → array[j]? = some e1 → ∃ c, ConfigEntry.ofJson junk e1 = .ok c) :
    (emplaceEntries junk array).2 = some f ∧
      List.Forall₂ (Builds junk) (array.take k) (emplaceEntries junk array).1 := by
  induction array generalizing k with
  | nil => simp at hk
  | cons a rest ih =>
    cases k with
    | zero =>
      simp only [List.getElem?_cons_zero, Option.some.injEq] at hk
      subst hk
      unfold emplaceEntries
      rw [he]
      exact ⟨rfl, List.Forall₂.nil⟩
    | succ n =>
      obtain ⟨c, hc⟩ := hbefore 0 a (Nat.succ_pos n) (by simp)
      simp only [List.getElem?_cons_succ] at hk
      obtain ⟨h1, h2⟩ := ih n hk
        (fun j e1 hj hj1 => hbefore (j + 1) e1 (Nat.succ_lt_succ hj) (by simpa using hj1))
      unfold emplaceEntries
      rw [hc]
      exact ⟨h1, List.Forall₂.cons hc h2⟩

/-- When the first rule object of a document that fails to build, in the order
`Prices` then `Counts`, fails with an exception, the load returns false. -/
theorem LoadConfig_first_fault (self : ConfigManager) (configJson : ConfigJson)
    (junk : Int × Int) (k : Nat) (e : EntryJson) (f : Fault)
    (hk : configJson.rules[k]? = some e) (he : ConfigEntry.ofJson junk e = .error f)
    (hexc : f.isException = true)
    (hbefore : ∀ j e1, j < k → configJson.rules[j]? = some e1 →
      ∃ c, ConfigEntry.ofJson junk e1 = .ok c) :
    ∃ cm, LoadConfig self (some configJson) junk = .ok (false, cm) := by
  rw [LoadConfig_eq]
  unfold ConfigJson.rules at hk hbefore
  by_cases hlt : k < (configJson.Prices.getD []).length
  · rw [List.getElem?_append_left hlt] at hk
    have hb : ∀ j e1, j < k → (configJson.Prices.getD [])[j]? = some e1 →
        ∃ c, ConfigEntry.ofJson junk e1 = .ok c := by
      intro j e1 hj hj1
      refine hbefore j e1 hj ?_
      rw [List.getElem?_append_left (lt_trans hj hlt)]
      exact hj1
    obtain ⟨h1, _⟩ := emplaceEntries_first_fault junk _ k e f hk he hb
    rw [h1]
    simp only [hexc, if_true]
    exact ⟨_, rfl⟩
  · have hge : (configJson.Prices.getD []).length ≤ k := Nat.le_of_not_lt hlt
    rw [List.getElem?_append_right hge] at hk
    have hallP : ∀ e1 ∈ configJson.Prices.getD [], ∃ c, ConfigEntry.ofJson junk e1 = .ok c := by
      intro e1 hmem
      obtain ⟨j, hj, hj1⟩ := List.getElem_of_mem hmem
      refine hbefore j e1 (lt_of_lt_of_le hj hge) ?_
      rw [List.getElem?_append_left hj, List.getElem?_eq_getElem hj, hj1]
    have hb : ∀ j e1, j < k - (configJson.Prices.getD []).length →
        (configJson.Counts.getD [])[j]? = some e1 →
        ∃ c, ConfigEntry.ofJson junk e1 = .ok c := by
      intro j e1 hj hj1
      refine hbefore (j + (configJson.Prices.getD []).length) e1 (by omega) ?_
      rw [List.getElem?_append_right (by omega)]
      simpa using hj1
    obtain ⟨h1, _⟩ := emplaceEntries_first_fault junk _ _ e f hk he hb
    rw [emplaceEntries_all_built junk _ hallP, h1]
    simp only [hexc, if_true]
    exact ⟨_, rfl⟩

/-! ## C1: the three categories of a filter set -/

/-- C1. For every filter set and every merchant, item and player handle, each
of which may be null, `MatchesFilters` returns true exactly when all three
categories pass, a category passing when its list of conditions is empty
(whether or not the entity is there), or the entity is there and at least one
condition of the list matches it.  A list that is not empty fails a null
entity. -/
theorem MatchesFilters_iff_categories (w : World) (filters : FilterSet)
    (trader : Option Actor) (item : Option InventoryEntryData)
    (player : Option PlayerCharacter) :
    MatchesFilters w filters trader item player = true ↔
      (filters.itemFilters = [] ∨
        (item ≠ none ∧ ∃ f ∈ filters.itemFilters, MatchesItemFilter w f item = true)) ∧
      (filters.merchantFilters = [] ∨
        (trader ≠ none ∧
          ∃ f ∈ filters.merchantFilters, MatchesMerchantFilter w f trader = true)) ∧
      (filters.playerFilters = [] ∨
        (player ≠ none ∧ ∃ f ∈ filters.playerFilters, MatchesPlayerFilter w f player = true)) := by
  unfold MatchesFilters
  cases hi : filters.itemFilters <;> cases hm : filters.merchantFilters <;>
    cases hp : filters.playerFilters <;> cases item <;> cases trader <;> cases player <;>
    simp

/-! ## C2: the first matching rule wins -/

/-- C2. When `GetPriceMultiplier` is called with a present merchant and item
object and has no cached entry for the item in the current merchant session,
so that it scans the rules, and the rule at position `i` matches the query
while no rule before it does, the multiplier returned is the sampled value of
that rule, whatever rules match at later positions.  The same holds for
`GetCountMultiplier` and the quantity rules. -/
theorem first_matching_rule_wins (cm : ConfigManager) (w : World) (u : Sample) (t : Actor)
    (object : BoundObject) (player : Option PlayerCharacter) (i : Nat) (rule : ConfigEntry) :
    (cachedFor cm.priceStatics t.formID object.formID = none →
      cm.priceEntries[i]? = some rule →
      MatchesFilters w rule.filters (some t) (some ⟨some object⟩) player = true →
      (∀ k e, k < i → cm.priceEntries[k]? = some e →
        MatchesFilters w e.filters (some t) (some ⟨some object⟩) player = false) →
      ∃ cm1, GetPriceMultiplier cm w u (some t) (some ⟨some object⟩) player =
        .ok (rule.value.GetValue u, cm1)) ∧
    (cachedFor cm.countStatics t.formID object.formID = none →
      cm.countEntries[i]? = some rule →
      MatchesFilters w rule.filters (some t) (some ⟨some object⟩) player = true →
      (∀ k e, k < i → cm.countEntries[k]? = some e →
        MatchesFilters w e.filters (some t) (some ⟨some object⟩) player = false) →
      ∃ cm1, GetCountMultiplier cm w u (some t) (some ⟨some object⟩) player =
        .ok (rule.value.GetValue u, cm1)) := by
  constructor
  · intro hmiss hi hmatch hfirst
    unfold GetPriceMultiplier
    rw [getMultiplier_miss _ _ _ _ _ _ _ hmiss,
      scanEntries_first_match w u _ _ _ _ i rule hi hmatch hfirst]
    exact ⟨_, rfl⟩
  · intro hmiss hi hmatch hfirst
    unfold GetCountMultiplier
    rw [getMultiplier_miss _ _ _ _ _ _ _ hmiss,
      scanEntries_first_match w u _ _ _ _ i rule hi hmatch hfirst]
    exact ⟨_, rfl⟩

/-- C2 on a list of three price rules of which the first does not match and
the second and the third do: the value of the second is returned. -/
theorem first_matching_rule_wins_witness :
    ∃ cm1, GetPriceMultiplier
        ⟨pluginPath, [belethorRule 2, fixedRule 3, fixedRule 5], [], none, none⟩
        emptyWorld lowSample (some merchantA) (some ⟨some ⟨7, [], 9, 25⟩⟩) none =
      .ok (3, cm1) :=
  (first_matching_rule_wins
    ⟨pluginPath, [belethorRule 2, fixedRule 3, fixedRule 5], [], none, none⟩
    emptyWorld lowSample merchantA ⟨7, [], 9, 25⟩ none 1 (fixedRule 3)).1
    rfl rfl (by decide)
    (by
      intro k e hk he
      have hk0 : k = 0 := by omega
      subst hk0
      simp only [List.getElem?_cons_zero, Option.some.injEq] at he
      subst he
      decide)

/-! ## C3: the default multiplier -/

/-- C3 fails as stated. The engine is created from a document whose single
price rule has value `2.0` and no filters, asked the price of the iron sword
at merchant A, and reloaded from a document without rules.  In that reachable
state no price rule matches any query, and yet the same query returns the
cached 2 and not 1. -/
theorem no_match_default_counterexample :
    Reachable staleEngine ∧
      (∀ e ∈ staleEngine.priceEntries,
        MatchesFilters emptyWorld e.filters (some merchantA) (some ironSword) none = false) ∧
      GetPriceMultiplier staleEngine emptyWorld lowSample (some merchantA) (some ironSword)
          none = .ok (2, staleEngine) ∧
      GetPriceMultiplier staleEngine emptyWorld lowSample (some merchantA) (some ironSword)
          none ≠ .ok (1, staleEngine) := by
  refine ⟨?_, ?_, by decide!, by decide!⟩
  · exact ⟨pluginPath, some doubleEverything, (0, 0),
      ⟨pluginPath, [fixedRule 2], [], none, none⟩,
      [.price emptyWorld lowSample (some merchantA) (some ironSword) none,
        .reload (some noRules) (0, 0)],
      by decide!, by decide!⟩
  · intro e he
    simp [staleEngine] at he

/-- C3 as amended. In every engine state, when a multiplier query is called
with a present merchant and item object, is not answered from the session
cache (the merchant is not the recorded one, or no entry is cached for the
item), and no rule of its rule list matches the query, it returns exactly 1:
`GetPriceMultiplier` on the price rules, `GetCountMultiplier` on the quantity
rules. -/
theorem no_match_default_when_scanned (cm : ConfigManager) (w : World) (u : Sample)
    (t : Actor) (object : BoundObject) (player : Option PlayerCharacter) :
    (cachedFor cm.priceStatics t.formID object.formID = none →
      (∀ e ∈ cm.priceEntries,
        MatchesFilters w e.filters (some t) (some ⟨some object⟩) player = false) →
      ∃ cm1, GetPriceMultiplier cm w u (some t) (some ⟨some object⟩) player = .ok (1, cm1)) ∧
    (cachedFor cm.countStatics t.formID object.formID = none →
      (∀ e ∈ cm.countEntries,
        MatchesFilters w e.filters (some t) (some ⟨some object⟩) player = false) →
      ∃ cm1, GetCountMultiplier cm w u (some t) (some ⟨some object⟩) player = .ok (1, cm1)) := by
  constructor
  · intro hmiss hnone
    unfold GetPriceMultiplier
    rw [getMultiplier_miss _ _ _ _ _ _ _ hmiss, scanEntries_no_match w u _ _ _ _ hnone]
    exact ⟨_, rfl⟩
  · intro hmiss hnone
    unfold GetCountMultiplier
    rw [getMultiplier_miss _ _ _ _ _ _ _ hmiss, scanEntries_no_match w u _ _ _ _ hnone]
    exact ⟨_, rfl⟩

/-- C3 as amended, on the stale engine and merchant B, for whom nothing is
cached: the query returns 1. -/
theorem no_match_default_when_scanned_witness :
    cachedFor staleEngine.priceStatics merchantB.formID 7 = none ∧
      ∃ cm1, GetPriceMultiplier staleEngine emptyWorld lowSample (some merchantB)
        (some ⟨some ⟨7, [], 9, 25⟩⟩) none = .ok (1, cm1) :=
  ⟨by decide,
    (no_match_default_when_scanned staleEngine emptyWorld lowSample merchantB ⟨7, [], 9, 25⟩
      none).1 (by decide) (by intro e he; simp [staleEngine] at he)⟩

/-! ## C4: repeated queries -/

/-- C4. In every engine state, when `GetPriceMultiplier` has returned the
multiplier `v` for a merchant and an item, the next `GetPriceMultiplier` query
with the same merchant identity and the same item identity returns `v` again
and leaves the engine as it is.  It does so in the state the first query left
and in every state with the same price statics, whatever the rule lists, the
world, the player and the output of the random source are at the second
query: the rules are not scanned and a ranged value is not sampled again. -/
theorem repeated_query_served_from_cache (cm cm1 : ConfigManager) (w : World) (u : Sample)
    (t : Actor) (object : BoundObject) (player : Option PlayerCharacter) (v : ℚ)
    (hfirst : GetPriceMultiplier cm w u (some t) (some ⟨some object⟩) player = .ok (v, cm1))
    (w2 : World) (u2 : Sample) (t2 : Actor) (object2 : BoundObject)
    (player2 : Option PlayerCharacter)
    (hmerchant : t2.formID = t.formID) (hitem : object2.formID = object.formID) :
    GetPriceMultiplier cm1 w2 u2 (some t2) (some ⟨some object2⟩) player2 = .ok (v, cm1) ∧
      ∀ cm2 : ConfigManager, cm2.priceStatics = cm1.priceStatics →
        GetPriceMultiplier cm2 w2 u2 (some t2) (some ⟨some object2⟩) player2 = .ok (v, cm2) := by
  obtain ⟨s1, hq, hcm⟩ := GetPriceMultiplier_ok _ _ _ _ _ _ _ _ hfirst
  have hc := cachedFor_after_query _ _ _ _ _ _ _ _ _ hq
  rw [← hmerchant, ← hitem] at hc
  have hstat : cm1.priceStatics = some s1 := by rw [hcm]
  have key : ∀ cm2 : ConfigManager, cm2.priceStatics = cm1.priceStatics →
      GetPriceMultiplier cm2 w2 u2 (some t2) (some ⟨some object2⟩) player2 = .ok (v, cm2) := by
    intro cm2 h2
    obtain ⟨s, hs, hget⟩ := getMultiplier_hit (some s1) cm2.priceEntries w2 u2 t2 object2
      player2 v hc
    cases hs
    unfold GetPriceMultiplier
    rw [h2, hstat, hget]
    simp only [Except.map]
    rw [← hstat, ← h2]
  exact ⟨key cm1 rfl, key⟩

/-- C4 on an engine whose only price rule is the range from 2 to 3: the first
query samples 5/2, and the second returns 5/2 although the random source is
then at its lowest output. -/
theorem repeated_query_served_from_cache_witness :
    GetPriceMultiplier ⟨pluginPath, [⟨⟨2, 3, true⟩, ⟨[], [], []⟩⟩], [], none, none⟩ emptyWorld
        midSample (some merchantA) (some ⟨some ⟨7, [], 9, 25⟩⟩) none =
      .ok (5 / 2, ⟨pluginPath, [⟨⟨2, 3, true⟩, ⟨[], [], []⟩⟩], [], some ⟨20, [(7, 5 / 2)]⟩,
        none⟩) ∧
    GetPriceMultiplier
        ⟨pluginPath, [⟨⟨2, 3, true⟩, ⟨[], [], []⟩⟩], [], some ⟨20, [(7, 5 / 2)]⟩, none⟩
        emptyWorld lowSample (some merchantA) (some ⟨some ⟨7, [], 0, 0⟩⟩) none =
      .ok (5 / 2, ⟨pluginPath, [⟨⟨2, 3, true⟩, ⟨[], [], []⟩⟩], [], some ⟨20, [(7, 5 / 2)]⟩,
        none⟩) :=
  ⟨by decide!,
    (repeated_query_served_from_cache
      ⟨pluginPath, [⟨⟨2, 3, true⟩, ⟨[], [], []⟩⟩], [], none, none⟩
      ⟨pluginPath, [⟨⟨2, 3, true⟩, ⟨[], [], []⟩⟩], [], some ⟨20, [(7, 5 / 2)]⟩, none⟩
      emptyWorld midSample merchantA ⟨7, [], 9, 25⟩ none (5 / 2) (by decide!)
      emptyWorld lowSample merchantA ⟨7, [], 0, 0⟩ none rfl rfl).1⟩

/-! ## C5: the cache holds the current merchant session only -/

/-- C5. (1) In every state the engine reaches from its creation by reloads
and queries, the statics of the price queries and those of the count queries
agree with the session log of their kind: the merchant recorded is the one of
the last query, and every cached entry is the item and the result of a query
of the current unbroken run of queries for that merchant.  (2) A price query
whose merchant differs from the recorded one scans the rules, records the new
merchant and leaves the cache with the one entry just computed; (3) so does a
count query.  (4) After price queries for merchant A, then for another
merchant B, a price query for merchant A and the first item scans the rules
again instead of returning the value cached in the first session; (5) the
same holds for count queries. -/
theorem session_cache_holds_current_run :
    (∀ (path : Str) (file : Option ConfigJson) (junk : Int × Int) (start cm : ConfigManager)
        (calls : List Call),
        ConfigManager.create path file junk = .ok start → runCalls start calls = .ok cm →
        ∃ logs, runLogged start (none, none) calls = .ok (cm, logs) ∧
          Recorded cm.priceStatics logs.1 ∧ Recorded cm.countStatics logs.2) ∧
    (∀ (cm : ConfigManager) (s : SessionCache) (w : World) (u : Sample) (t : Actor)
        (object : BoundObject) (player : Option PlayerCharacter),
        cm.priceStatics = some s → s.trader_id ≠ t.formID →
        GetPriceMultiplier cm w u (some t) (some ⟨some object⟩) player =
          .ok (scanEntries w u cm.priceEntries (some t) (some ⟨some object⟩) player,
            { cm with priceStatics := some ⟨t.formID, [(object.formID,
              scanEntries w u cm.priceEntries (some t) (some ⟨some object⟩) player)]⟩ })) ∧
    (∀ (cm : ConfigManager) (s : SessionCache) (w : World) (u : Sample) (t : Actor)
        (object : BoundObject) (player : Option PlayerCharacter),
        cm.countStatics = some s → s.trader_id ≠ t.formID →
        GetCountMultiplier cm w u (some t) (some ⟨some object⟩) player =
          .ok (scanEntries w u cm.countEntries (some t) (some ⟨some object⟩) player,
            { cm with countStatics := some ⟨t.formID, [(object.formID,
              scanEntries w u cm.countEntries (some t) (some ⟨some object⟩) player)]⟩ })) ∧
    (∀ (cm cmA cmB : ConfigManager) (wA wB w : World) (uA uB u : Sample) (tA tB : Actor)
        (object objectB : BoundObject) (playerA playerB player : Option PlayerCharacter)
        (vA vB : ℚ),
        GetPriceMultiplier cm wA uA (some tA) (some ⟨some object⟩) playerA = .ok (vA, cmA) →
        tB.formID ≠ tA.formID →
        GetPriceMultiplier cmA wB uB (some tB) (some ⟨some objectB⟩) playerB = .ok (vB, cmB) →
        GetPriceMultiplier cmB w u (some tA) (some ⟨some object⟩) player =
          .ok (scanEntries w u cmB.priceEntries (some tA) (some ⟨some object⟩) player,
            { cmB with priceStatics := some ⟨tA.formID, [(object.formID,
              scanEntries w u cmB.priceEntries (some tA) (some ⟨some object⟩) player)]⟩ })) ∧
    (∀ (cm cmA cmB : ConfigManager) (wA wB w : World) (uA uB u : Sample) (tA tB : Actor)
        (object objectB : BoundObject) (playerA playerB player : Option PlayerCharacter)
        (vA vB : ℚ),
        GetCountMultiplier cm wA uA (some tA) (some ⟨some object⟩) playerA = .ok (vA, cmA) →
        tB.formID ≠ tA.formID →
        GetCountMultiplier cmA wB uB (some tB) (some ⟨some objectB⟩) playerB = .ok (vB, cmB) →
        GetCountMultiplier cmB w u (some tA) (some ⟨some object⟩) player =
          .ok (scanEntries w u cmB.countEntries (some tA) (some ⟨some object⟩) player,
            { cmB with countStatics := some ⟨tA.formID, [(object.formID,
              scanEntries w u cmB.countEntries (some tA) (some ⟨some object⟩) player)]⟩ })) := by
  refine ⟨?_, ?_, ?_, ?_, ?_⟩
  · intro path file junk start cm calls hcreate hrun
    obtain ⟨h1, h2⟩ := create_statics path file junk start hcreate
    exact Recorded_after_calls calls start cm (none, none)
      (by rw [h1]; exact True.intro) (by rw [h2]; exact True.intro) hrun
  · intro cm s w u t object player hs hne
    unfold GetPriceMultiplier
    rw [hs, getMultiplier_other_merchant s _ w u t object player hne]
    rfl
  · intro cm s w u t object player hs hne
    unfold GetCountMultiplier
    rw [hs, getMultiplier_other_merchant s _ w u t object player hne]
    rfl
  · intro cm cmA cmB wA wB w uA uB u tA tB object objectB playerA playerB player vA vB _ hAB hB
    obtain ⟨sB, hqB, hcmB⟩ := GetPriceMultiplier_ok _ _ _ _ _ _ _ _ hB
    have hstatB : cmB.priceStatics = some sB := by rw [hcmB]
    unfold GetPriceMultiplier
    rw [hstatB, getMultiplier_returning_merchant _ _ cmB.priceEntries _ w _ u _ _ _ _ _
      player _ _ hAB hqB]
    rfl
  · intro cm cmA cmB wA wB w uA uB u tA tB object objectB playerA playerB player vA vB _ hAB hB
    obtain ⟨sB, hqB, hcmB⟩ := GetCountMultiplier_ok _ _ _ _ _ _ _ _ hB
    have hstatB : cmB.countStatics = some sB := by rw [hcmB]
    unfold GetCountMultiplier
    rw [hstatB, getMultiplier_returning_merchant _ _ cmB.countEntries _ w _ u _ _ _ _ _
      player _ _ hAB hqB]
    rfl

/-- C5 on the stale engine, which holds the multiplier 2 cached for the iron
sword at merchant A while no price rule is left: after a query for merchant
B, the query for merchant A and the sword returns the scanned 1, not the 2 of
the first session. -/
theorem session_cache_holds_current_run_witness :
    GetPriceMultiplier staleEngine emptyWorld lowSample (some merchantA)
        (some ⟨some ⟨7, [], 9, 25⟩⟩) none = .ok (2, staleEngine) ∧
      GetPriceMultiplier ⟨pluginPath, [], [], some ⟨30, [(7, 1)]⟩, none⟩ emptyWorld lowSample
        (some merchantA) (some ⟨some ⟨7, [], 9, 25⟩⟩) none =
      .ok (1, ⟨pluginPath, [], [], some ⟨20, [(7, 1)]⟩, none⟩) :=
  ⟨by decide!,
    session_cache_holds_current_run.2.2.2.1 staleEngine staleEngine
      ⟨pluginPath, [], [], some ⟨30, [(7, 1)]⟩, none⟩ emptyWorld emptyWorld emptyWorld
      lowSample lowSample lowSample merchantA merchantB ⟨7, [], 9, 25⟩ ⟨7, [], 9, 25⟩
      none none none 2 1 (by decide!) (by decide) (by decide!)⟩

/-! ## C6: null arguments -/

/-- C6 (the code departs from it). Both multiplier queries read
`trader->formID` and `item->object->formID` without a null check: with a null
merchant, a null item, or an item whose object is null, they fault instead of
returning a float, whatever the engine state and the rule lists are. -/
theorem query_with_null_argument_faults (cm : ConfigManager) (w : World) (u : Sample)
    (t : Actor) (item : Option InventoryEntryData) (player : Option PlayerCharacter) :
    GetPriceMultiplier cm w u none item player = .error .null_dereference ∧
      GetCountMultiplier cm w u none item player = .error .null_dereference ∧
      GetPriceMultiplier cm w u (some t) none player = .error .null_dereference ∧
      GetCountMultiplier cm w u (some t) none player = .error .null_dereference ∧
      GetPriceMultiplier cm w u (some t) (some ⟨none⟩) player = .error .null_dereference ∧
      GetCountMultiplier cm w u (some t) (some ⟨none⟩) player = .error .null_dereference := by
  have key : ∀ (statics : Option SessionCache) (entries : List ConfigEntry),
      getMultiplier statics entries w u none item player = .error .null_dereference ∧
      getMultiplier statics entries w u (some t) none player = .error .null_dereference ∧
      getMultiplier statics entries w u (some t) (some ⟨none⟩) player =
        .error .null_dereference := by
    intro statics entries
    refine ⟨rfl, ?_, ?_⟩
    · unfold getMultiplier
      simp only [Option.bind]
      split <;> rfl
    · unfold getMultiplier
      simp only [Option.bind]
      split <;> rfl
  obtain ⟨hp1, hp2, hp3⟩ := key cm.priceStatics cm.priceEntries
  obtain ⟨hc1, hc2, hc3⟩ := key cm.countStatics cm.countEntries
  simp only [GetPriceMultiplier, GetCountMultiplier, hp1, hp2, hp3, hc1, hc2, hc3]
  exact ⟨rfl, rfl, rfl, rfl, rfl, rfl⟩

/-! ## C7: operator texts -/

theorem not_operator_of_floatChar {c : Char} (h : floatChar c = true) :
    c ≠ '>' ∧ c ≠ '<' ∧ c ≠ '=' := by
  refine ⟨?_, ?_, ?_⟩ <;> · rintro rfl; revert h; decide

theorem operator_free_of_floatText {t : Str} {v : ℚ} (ht : stofScan t = some (v, [])) :
    '>' ∉ t ∧ '<' ∉ t ∧ '=' ∉ t := by
  have hchars : ∀ c ∈ t, c ≠ '>' ∧ c ≠ '<' ∧ c ≠ '=' := fun c hc =>
    not_operator_of_floatChar (floatChar_of_floatText ht c hc)
  exact ⟨fun hc => (hchars _ hc).1 rfl, fun hc => (hchars _ hc).2.1 rfl,
    fun hc => (hchars _ hc).2.2 rfl⟩

theorem operator_text_ne_NONE (c : Char) (r : Str) (hc : c = '>' ∨ c = '<' ∨ c = '=') :
    ¬ (c :: r = "NONE".toList ∨ c :: r = []) := by
  intro h
  rcases h with h | h
  · have : c = 'N' := (List.cons.inj h).1
    subst this
    revert hc; decide
  · cases h

theorem parse_GREATER_EQUAL (self : ComparisonFilter) {t : Str} {v : ℚ}
    (hv : stof t = .ok v) :
    self.ParseFilter ('>' :: '=' :: t) = .ok ⟨.GREATER_EQUAL, v⟩ := by
  have h1 : find ('>' :: '=' :: t) ['>', '='] = some 0 := find_append_self ['>', '='] t
  unfold ComparisonFilter.ParseFilter
  rw [if_neg (operator_text_ne_NONE _ _ (Or.inl rfl))]
  simp [h1, hv]

theorem parse_LESS_EQUAL (self : ComparisonFilter) {t : Str} {v : ℚ}
    (hv : stof t = .ok v) (hgt : '>' ∉ t) :
    self.ParseFilter ('<' :: '=' :: t) = .ok ⟨.LESS_EQUAL, v⟩ := by
  have h0 : find ('<' :: '=' :: t) ['>', '='] = none :=
    find_eq_none_of_not_mem (c := '>') (by decide) (by simp [hgt])
  have h1 : find ('<' :: '=' :: t) ['<', '='] = some 0 := find_append_self ['<', '='] t
  unfold ComparisonFilter.ParseFilter
  rw [if_neg (operator_text_ne_NONE _ _ (Or.inr (Or.inl rfl)))]
  simp [h0, h1, hv]

theorem parse_GREATER (self : ComparisonFilter) {t : Str} {v : ℚ}
    (hv : stof t = .ok v) (heq : '=' ∉ t) :
    self.ParseFilter ('>' :: t) = .ok ⟨.GREATER, v⟩ := by
  have h0 : find ('>' :: t) ['>', '='] = none :=
    find_eq_none_of_not_mem (c := '=') (by decide) (by simp [heq])
  have h1 : find ('>' :: t) ['<', '='] = none :=
    find_eq_none_of_not_mem (c := '=') (by decide) (by simp [heq])
  have h2 : find ('>' :: t) ['>'] = some 0 := find_append_self ['>'] t
  unfold ComparisonFilter.ParseFilter
  rw [if_neg (operator_text_ne_NONE _ _ (Or.inl rfl))]
  simp [h0, h1, h2, hv]

theorem parse_LESS (self : ComparisonFilter) {t : Str} {v : ℚ}
    (hv : stof t = .ok v) (hgt : '>' ∉ t) (heq : '=' ∉ t) :
    self.ParseFilter ('<' :: t) = .ok ⟨.LESS, v⟩ := by
  have h0 : find ('<' :: t) ['>', '='] = none :=
    find_eq_none_of_not_mem (c := '=') (by decide) (by simp [heq])
  have h1 : find ('<' :: t) ['<', '='] = none :=
    find_eq_none_of_not_mem (c := '=') (by decide) (by simp [heq])
  have h2 : find ('<' :: t) ['>'] = none :=
    find_eq_none_of_not_mem (c := '>') (by decide) (by simp [hgt])
  have h3 : find ('<' :: t) ['<'] = some 0 := find_append_self ['<'] t
  unfold ComparisonFilter.ParseFilter
  rw [if_neg (operator_text_ne_NONE _ _ (Or.inr (Or.inl rfl)))]
  simp [h0, h1, h2, h3, hv]

theorem parse_EQUAL (self : ComparisonFilter) {t : Str} {v : ℚ}
    (hv : stof t = .ok v) (hgt : '>' ∉ t) (hlt : '<' ∉ t) :
    self.ParseFilter ('=' :: t) = .ok ⟨.EQUAL, v⟩ := by
  have h0 : find ('=' :: t) ['>', '='] = none :=
    find_eq_none_of_not_mem (c := '>') (by decide) (by simp [hgt])
  have h1 : find ('=' :: t) ['<', '='] = none :=
    find_eq_none_of_not_mem (c := '<') (by decide) (by simp [hlt])
  have h2 : find ('=' :: t) ['>'] = none :=
    find_eq_none_of_not_mem (c := '>') (by decide) (by simp [hgt])
  have h3 : find ('=' :: t) ['<'] = none :=
    find_eq_none_of_not_mem (c := '<') (by decide) (by simp [hlt])
  have h4 : find ('=' :: t) ['='] = some 0 := find_append_self ['='] t
  unfold ComparisonFilter.ParseFilter
  rw [if_neg (operator_text_ne_NONE _ _ (Or.inr (Or.inr rfl)))]
  simp [h0, h1, h2, h3, h4, hv]

/-- C7. For each operator `op` of `>=`, `<=`, `>`, `<`, `=` and every numeric
text `t` (a text `std::stof` reads from its first to its last character, to
the value `v`), `ComparisonFilter::ParseFilter` on `op` followed by `t` yields
the kind of `op` with threshold `v`, and `Matches x` holds exactly when
`x op v`.  In particular the text `>=5` is parsed as `GREATER_EQUAL` with
threshold 5, which matches 5 and does not match 4.999. -/
theorem ComparisonFilter_parse_operator (self : ComparisonFilter) (t : Str) (v : ℚ)
    (ht : stofScan t = some (v, [])) :
    (self.ParseFilter (">=".toList ++ t) = .ok ⟨.GREATER_EQUAL, v⟩ ∧
      self.ParseFilter ("<=".toList ++ t) = .ok ⟨.LESS_EQUAL, v⟩ ∧
      self.ParseFilter (">".toList ++ t) = .ok ⟨.GREATER, v⟩ ∧
      self.ParseFilter ("<".toList ++ t) = .ok ⟨.LESS, v⟩ ∧
      self.ParseFilter ("=".toList ++ t) = .ok ⟨.EQUAL, v⟩) ∧
    (∀ x : ℚ,
      ((ComparisonFilter.mk .GREATER_EQUAL v).Matches x = true ↔ x ≥ v) ∧
      ((ComparisonFilter.mk .LESS_EQUAL v).Matches x = true ↔ x ≤ v) ∧
      ((ComparisonFilter.mk .GREATER v).Matches x = true ↔ x > v) ∧
      ((ComparisonFilter.mk .LESS v).Matches x = true ↔ x < v) ∧
      ((ComparisonFilter.mk .EQUAL v).Matches x = true ↔ x = v)) ∧
    (self.ParseFilter ">=5".toList = .ok ⟨.GREATER_EQUAL, 5⟩ ∧
      (ComparisonFilter.mk .GREATER_EQUAL 5).Matches 5 = true ∧
      (ComparisonFilter.mk .GREATER_EQUAL 5).Matches (4999 / 1000) = false) := by
  have hv : stof t = .ok v := stof_of_stofScan ht
  obtain ⟨hgt, hlt, heq⟩ := operator_free_of_floatText ht
  refine ⟨⟨parse_GREATER_EQUAL self hv, parse_LESS_EQUAL self hv hgt,
    parse_GREATER self hv heq, parse_LESS self hv hgt heq, parse_EQUAL self hv hgt hlt⟩, ?_, ?_⟩
  · intro x
    simp [ComparisonFilter.Matches]
  · refine ⟨parse_GREATER_EQUAL self (t := "5".toList) (by decide!), by decide!, by decide!⟩

/-- C7 at the numeric text `2.5`. -/
theorem ComparisonFilter_parse_operator_witness :
    stofScan "2.5".toList = some (5 / 2, []) ∧
      ComparisonFilter.default.ParseFilter ">=2.5".toList = .ok ⟨.GREATER_EQUAL, 5 / 2⟩ ∧
      ComparisonFilter.default.ParseFilter "<2.5".toList = .ok ⟨.LESS, 5 / 2⟩ :=
  ⟨by decide!,
    (ComparisonFilter_parse_operator ComparisonFilter.default "2.5".toList (5 / 2)
      (by decide!)).1.1,
    (ComparisonFilter_parse_operator ComparisonFilter.default "2.5".toList (5 / 2)
      (by decide!)).1.2.2.2.1⟩

/-! ## C8: texts without an operator -/

/-- C8. `ComparisonFilter::ParseFilter` on the text `NONE`, on the empty text,
or on any text holding none of the characters `>`, `<`, `=` does not fail and
yields a filter of kind `NONE`, and that filter matches every measured value. -/
theorem ComparisonFilter_parse_without_operator (self : ComparisonFilter) (s : Str)
    (h : s = "NONE".toList ∨ s = [] ∨ ∀ c ∈ s, c ≠ '>' ∧ c ≠ '<' ∧ c ≠ '=') :
    ∃ f, self.ParseFilter s = .ok f ∧ f.type = .NONE ∧ ∀ x : ℚ, f.Matches x = true := by
  refine ⟨{ self with type := .NONE }, ?_, rfl, fun x => by simp [ComparisonFilter.Matches]⟩
  by_cases h0 : s = "NONE".toList ∨ s = []
  · unfold ComparisonFilter.ParseFilter
    rw [if_pos h0]
  · have hfree : ∀ c ∈ s, c ≠ '>' ∧ c ≠ '<' ∧ c ≠ '=' := by
      rcases h with h | h | h
      · exact absurd (Or.inl h) h0
      · exact absurd (Or.inr h) h0
      · exact h
    obtain ⟨h1, h2, h3, h4, h5⟩ := find_operators_none hfree
    unfold ComparisonFilter.ParseFilter
    rw [if_neg h0]
    simp [h1, h2, h3, h4, h5]

/-- C8 at the text `abc`, which holds no operator character. -/
theorem ComparisonFilter_parse_without_operator_witness :
    ("abc".toList = "NONE".toList ∨ "abc".toList = [] ∨
        ∀ c ∈ "abc".toList, c ≠ '>' ∧ c ≠ '<' ∧ c ≠ '=') ∧
      ∃ f, ComparisonFilter.default.ParseFilter "abc".toList = .ok f ∧ f.type = .NONE ∧
        ∀ x : ℚ, f.Matches x = true :=
  ⟨Or.inr (Or.inr (by decide)),
    ComparisonFilter_parse_without_operator ComparisonFilter.default "abc".toList
      (Or.inr (Or.inr (by decide)))⟩

/-! ## C9 and C10: value texts -/

/-- C9. For every value text `t` without `~` that `std::stof` reads as the
number `v`, `ValueRange::ParseValue` yields the fixed value `v` (`isRange` is
false, `min` and `max` are `v`), and `GetValue` returns `v` whatever the
random source produces. -/
theorem ValueRange_fixed_value (t : Str) (v : ℚ) (htilde : '~' ∉ t) (hv : stof t = .ok v) :
    ValueRange.ParseValue t = .ok ⟨v, v, false⟩ ∧
      ∀ u : Sample, (ValueRange.mk v v false).GetValue u = v := by
  constructor
  · have hf : find t ['~'] = none := find_eq_none_of_not_mem (c := '~') (by decide) htilde
    unfold ValueRange.ParseValue
    simp [hf, hv]
  · intro u
    simp [ValueRange.GetValue]

/-- C9 at the value text `2.0`. -/
theorem ValueRange_fixed_value_witness :
    ('~' ∉ "2.0".toList ∧ stof "2.0".toList = .ok 2) ∧
      ValueRange.ParseValue "2.0".toList = .ok ⟨2, 2, false⟩ ∧
      ∀ u : Sample, (ValueRange.mk 2 2 false).GetValue u = 2 :=
  ⟨⟨by decide, by decide!⟩, ValueRange_fixed_value "2.0".toList 2 (by decide) (by decide!)⟩

/-! ## C14: a successful load replaces the rules -/

/-- C14. After a successful `LoadConfig` of a document, the price rule list
holds exactly the rules built from the rule objects of `Prices`, in the order
of the array, and the quantity rule list those of `Counts`; the lists are the
same whatever engine the document is loaded into (replaced, not merged); a
missing array gives the empty list for its kind; and the path is unchanged.
`ReloadConfig` never changes the path, whatever it returns.  The load of a
document without either array succeeds with two empty lists, and the load of
any document succeeds when all the rule objects it has are built, whichever
array is missing. -/
theorem successful_load_replaces_rules (self cm : ConfigManager) (configJson : ConfigJson)
    (junk : Int × Int) (h : LoadConfig self (some configJson) junk = .ok (true, cm)) :
    List.Forall₂ (Builds junk) (configJson.Prices.getD []) cm.priceEntries ∧
    List.Forall₂ (Builds junk) (configJson.Counts.getD []) cm.countEntries ∧
    (∀ other : ConfigManager, ∃ cm2,
      LoadConfig other (some configJson) junk = .ok (true, cm2) ∧
      cm2.priceEntries = cm.priceEntries ∧ cm2.countEntries = cm.countEntries) ∧
    (configJson.Prices = none → cm.priceEntries = []) ∧
    (configJson.Counts = none → cm.countEntries = []) ∧
    cm.configPath = self.configPath ∧
    (∀ file flag next, ReloadConfig self file junk = .ok (flag, next) →
      next.configPath = self.configPath) ∧
    LoadConfig self (some ⟨none, none⟩) junk =
      .ok (true, { self with priceEntries := [], countEntries := [] }) ∧
    (∀ doc : ConfigJson, (∀ e ∈ doc.rules, ∃ c, ConfigEntry.ofJson junk e = .ok c) →
      ∃ cm1, LoadConfig self (some doc) junk = .ok (true, cm1)) := by
  obtain ⟨prices, counts, hp, hc, rfl⟩ := (LoadConfig_true_iff self cm configJson junk).mp h
  refine ⟨hp, hc, ?_, ?_, ?_, rfl, ?_, rfl, ?_⟩
  · intro other
    exact ⟨{ other with priceEntries := prices, countEntries := counts },
      (LoadConfig_true_iff other _ configJson junk).mpr ⟨prices, counts, hp, hc, rfl⟩, rfl, rfl⟩
  · intro hnone
    rw [hnone] at hp
    cases hp
    rfl
  · intro hnone
    rw [hnone] at hc
    cases hc
    rfl
  · intro file flag next hre
    exact (LoadConfig_frame self next file junk flag hre).1
  · intro doc hall
    obtain ⟨ps, hps⟩ := built_forall₂ junk (doc.Prices.getD [])
      (fun e he => hall e (List.mem_append.mpr (Or.inl he)))
    obtain ⟨cs, hcs⟩ := built_forall₂ junk (doc.Counts.getD [])
      (fun e he => hall e (List.mem_append.mpr (Or.inr he)))
    exact ⟨_, (LoadConfig_true_iff self _ doc junk).mpr ⟨ps, cs, hps, hcs, rfl⟩⟩

/-- C14 on an engine that holds one price rule and one count rule, loaded
from a document without `Prices` whose `Counts` array has the rules `3` and
`4~5`: the price rules are gone and the count rules are the two of the
document, in its order. -/
theorem successful_load_replaces_rules_witness :
    LoadConfig ⟨pluginPath, [fixedRule 9], [fixedRule 8], none, none⟩
        (some ⟨none, some [⟨some "3".toList, none⟩, ⟨some "4~5".toList, none⟩]⟩) (0, 0) =
      .ok (true, ⟨pluginPath, [], [fixedRule 3, ⟨⟨4, 5, true⟩, ⟨[], [], []⟩⟩], none, none⟩) ∧
    List.Forall₂ (Builds (0, 0)) [⟨some "3".toList, none⟩, ⟨some "4~5".toList, none⟩]
      [fixedRule 3, ⟨⟨4, 5, true⟩, ⟨[], [], []⟩⟩] :=
  ⟨by decide!,
    (successful_load_replaces_rules ⟨pluginPath, [fixedRule 9], [fixedRule 8], none, none⟩
      ⟨pluginPath, [], [fixedRule 3, ⟨⟨4, 5, true⟩, ⟨[], [], []⟩⟩], none, none⟩
      ⟨none, some [⟨some "3".toList, none⟩, ⟨some "4~5".toList, none⟩]⟩ (0, 0)
      (by decide!)).2.1⟩

/-! ## C15: the relationship rule, end to end -/

theorem relationshipDoc_built (junk : Int × Int) :
    ConfigEntry.ofJson junk
        ⟨some "2.0".toList, some ⟨none, some ["NONE|>=4|NONE".toList], none⟩⟩ =
      .ok relationshipRule := by
  have h1 : ValueRange.ParseValue "2.0".toList = .ok ⟨2, 2, false⟩ := by decide!
  have h2 : MerchantFilter.ofString "NONE|>=4|NONE".toList =
      .ok ⟨[], ⟨.GREATER_EQUAL, 4⟩, GlobalsFilter.default⟩ := by decide!
  have h3 : FilterSet.ParseFilters junk ⟨none, some ["NONE|>=4|NONE".toList], none⟩ =
      .ok ⟨[], [⟨[], ⟨.GREATER_EQUAL, 4⟩, GlobalsFilter.default⟩], []⟩ := by
    unfold FilterSet.ParseFilters
    simp only [List.mapM_cons, List.mapM_nil, h2]
    rfl
  unfold ConfigEntry.ofJson
  simp only [h1, h3]
  rfl

theorem relationshipRule_matches (w : World) (t : Actor) (object : BoundObject)
    (player : Option PlayerCharacter) (level : Int)
    (hrel : w.getRelationship t.actorBase = some level) :
    MatchesFilters w relationshipRule.filters (some t) (some ⟨some object⟩) player =
      decide (4 ≤ level) := by
  by_cases h4 : 4 ≤ level
  · have hq : ¬ ((level : ℚ) < 4) := by exact_mod_cast not_lt.mpr h4
    simp [MatchesFilters, relationshipRule, MatchesMerchantFilter, hrel, GlobalsFilter.default,
      ComparisonFilter.Matches, h4, hq]
  · have hq : (level : ℚ) < 4 := by exact_mod_cast not_le.mp h4
    simp [MatchesFilters, relationshipRule, MatchesMerchantFilter, hrel, GlobalsFilter.default,
      ComparisonFilter.Matches, h4, hq]

/-- C15. The engine is created from the document whose only price rule has the
value `2.0` and the merchant filter `NONE|>=4|NONE`.  Its rule list is that
one rule, and its first price query for a present merchant and item object
whose relationship record with the player has level `level` returns 2 when
`level` is at least 4 (so for level 5) and the default 1 when it is below 4
(so for level 3). -/
theorem relationship_rule_end_to_end (path : Str) (junk : Int × Int) (w : World) (u : Sample)
    (t : Actor) (object : BoundObject) (player : Option PlayerCharacter) (level : Int)
    (hrel : w.getRelationship t.actorBase = some level) :
    ∃ start cm1, ConfigManager.create path (some relationshipDoc) junk = .ok start ∧
      start.priceEntries = [relationshipRule] ∧
      GetPriceMultiplier start w u (some t) (some ⟨some object⟩) player =
        .ok ((if 4 ≤ level then 2 else 1), cm1) ∧
      (level = 5 → GetPriceMultiplier start w u (some t) (some ⟨some object⟩) player =
        .ok (2, cm1)) ∧
      (level = 3 → GetPriceMultiplier start w u (some t) (some ⟨some object⟩) player =
        .ok (1, cm1)) := by
  have hcreate : ConfigManager.create path (some relationshipDoc) junk =
      .ok ⟨path, [relationshipRule], [], none, none⟩ := by
    unfold ConfigManager.create
    rw [LoadConfig_eq]
    have hp : emplaceEntries junk (relationshipDoc.Prices.getD []) =
        ([relationshipRule], none) :=
      (emplaceEntries_none_iff junk _ _).mpr
        (List.Forall₂.cons (relationshipDoc_built junk) List.Forall₂.nil)
    have hc : emplaceEntries junk (relationshipDoc.Counts.getD []) = ([], none) := rfl
    rw [hp, hc]
    rfl
  have hquery : GetPriceMultiplier ⟨path, [relationshipRule], [], none, none⟩ w u (some t)
      (some ⟨some object⟩) player =
      .ok ((if 4 ≤ level then 2 else 1),
        ⟨path, [relationshipRule], [], some ⟨t.formID,
          cacheStore [] object.formID (if 4 ≤ level then 2 else 1)⟩, none⟩) := by
    unfold GetPriceMultiplier
    rw [getMultiplier_miss none _ w u t object player rfl]
    have hscan : scanEntries w u [relationshipRule] (some t) (some ⟨some object⟩) player =
        if 4 ≤ level then 2 else 1 := by
      simp only [scanEntries, relationshipRule_matches w t object player level hrel]
      by_cases h4 : 4 ≤ level
      · simp [h4, relationshipRule, ValueRange.GetValue]
      · simp [h4]
    simp only [hscan]
    rfl
  refine ⟨_, _, hcreate, rfl, hquery, ?_, ?_⟩
  · intro h5
    rw [hquery]
    subst h5
    rfl
  · intro h3
    rw [hquery]
    subst h3
    rfl

/-- C15 with a world that records level 5 between the player and merchant A:
the first price query returns 2. -/
theorem relationship_rule_end_to_end_witness :
    ∃ start cm1, ConfigManager.create pluginPath (some relationshipDoc) (0, 0) = .ok start ∧
      GetPriceMultiplier start ⟨fun _ => none, fun _ => none, fun _ => none, fun _ => none,
          fun _ => some 5⟩ lowSample (some merchantA) (some ⟨some ⟨7, [], 9, 25⟩⟩) none =
        .ok (2, cm1) := by
  obtain ⟨start, cm1, h1, _, _, h5, _⟩ := relationship_rule_end_to_end pluginPath (0, 0)
    ⟨fun _ => none, fun _ => none, fun _ => none, fun _ => none, fun _ => some 5⟩ lowSample
    merchantA ⟨7, [], 9, 25⟩ none 5 rfl
  exact ⟨start, cm1, h1, h5 rfl⟩

/-! ## C16: condition texts with too few fields -/

theorem ItemFilter_short (self : ItemFilter) (s : Str)
    (h : (SplitString s "|".toList).length < 4) : self.ParseFilter s = .ok self := by
  unfold ItemFilter.ParseFilter
  split
  · rename_i heq
    rw [heq] at h
    simp only [List.length_cons] at h
    omega
  · rfl

theorem MerchantFilter_short (self : MerchantFilter) (s : Str)
    (h : (SplitString s "|".toList).length < 3) : self.ParseFilter s = .ok self := by
  unfold MerchantFilter.ParseFilter
  split
  · rename_i heq
    rw [heq] at h
    simp only [List.length_cons] at h
    omega
  · rfl

theorem PlayerFilter_short (self : PlayerFilter) (s : Str)
    (h : (SplitString s "|".toList).length < 3) : self.ParseFilter s = .ok self := by
  unfold PlayerFilter.ParseFilter
  split
  · rename_i heq
    rw [heq] at h
    simp only [List.length_cons] at h
    omega
  · rfl

/-- C16 (the code departs from it for the player category). A condition text
with fewer than 4 fields builds, without a fault, the item filter with every
member at its default, which matches every item that has an object; a text
with fewer than 3 fields builds the default merchant filter, which matches
every merchant.  A player text with fewer than 3 fields is built without a
fault too, but the constructor `PlayerFilter(const std::string&)` does not
initialise `skillID` and `skillLevel`: they keep the content `junk` of the
storage, not the unset marker -1.  With the content (5, 50) the filter built
from the text `NONE` is not the default one and does not match a player whose
actor values are all 10. -/
theorem short_condition_text (s : Str) :
    ((SplitString s "|".toList).length < 4 →
      ItemFilter.ofString s = .ok ItemFilter.default ∧
      ∀ (w : World) (object : BoundObject),
        MatchesItemFilter w ItemFilter.default (some ⟨some object⟩) = true) ∧
    ((SplitString s "|".toList).length < 3 →
      MerchantFilter.ofString s = .ok MerchantFilter.default ∧
      ∀ (w : World) (t : Actor), MatchesMerchantFilter w MerchantFilter.default (some t) = true) ∧
    ((SplitString s "|".toList).length < 3 → ∀ junk : Int × Int,
      PlayerFilter.ofString junk s = .ok ⟨ComparisonFilter.default, junk.1, junk.2, []⟩) ∧
    PlayerFilter.ofString (5, 50) "NONE".toList = .ok ⟨ComparisonFilter.default, 5, 50, []⟩ ∧
    (⟨ComparisonFilter.default, 5, 50, []⟩ : PlayerFilter) ≠ PlayerFilter.default ∧
    MatchesPlayerFilter emptyWorld ⟨ComparisonFilter.default, 5, 50, []⟩ (some novice) = false ∧
    MatchesPlayerFilter emptyWorld PlayerFilter.default (some novice) = true := by
  refine ⟨?_, ?_, ?_, by decide!, by decide!, by decide!, by decide!⟩
  · intro h
    refine ⟨ItemFilter_short _ s h, ?_⟩
    intro w object
    simp [MatchesItemFilter, ItemFilter.default, ComparisonFilter.default]
  · intro h
    refine ⟨MerchantFilter_short _ s h, ?_⟩
    intro w t
    simp [MatchesMerchantFilter, MerchantFilter.default, ComparisonFilter.default,
      GlobalsFilter.default]
  · intro h junk
    exact PlayerFilter_short _ s h

/-! ## C17: the text of a global condition -/

/-- The operator search answers the first operator found in the order `>=`,
`<=`, `>`, `<`, `=`, at the position of its first occurrence. -/
theorem findOperator_eq_some_iff (s : Str) (opPos : Nat) (opStr : Str) :
    findOperator s = some (opPos, opStr) ↔
      (opStr = ['>', '='] ∧ find s ['>', '='] = some opPos) ∨
      (opStr = ['<', '='] ∧ find s ['>', '='] = none ∧ find s ['<', '='] = some opPos) ∨
      (opStr = ['>'] ∧ find s ['>', '='] = none ∧ find s ['<', '='] = none ∧
        find s ['>'] = some opPos) ∨
      (opStr = ['<'] ∧ find s ['>', '='] = none ∧ find s ['<', '='] = none ∧
        find s ['>'] = none ∧ find s ['<'] = some opPos) ∨
      (opStr = ['='] ∧ find s ['>', '='] = none ∧ find s ['<', '='] = none ∧
        find s ['>'] = none ∧ find s ['<'] = none ∧ find s ['='] = some opPos) := by
  unfold findOperator
  show (match find s ['>', '='] with
    | some p => some (p, ['>', '='])
    | none =>
      match find s ['<', '='] with
      | some p => some (p, ['<', '='])
      | none =>
        match find s ['>'] with
        | some p => some (p, ['>'])
        | none =>
          match find s ['<'] with
          | some p => some (p, ['<'])
          | none =>
            match find s ['='] with
            | some p => some (p, ['='])
            | none => none) = some (opPos, opStr) ↔ _
  cases find s ['>', '='] with
  | some p => simp; constructor <;> (rintro ⟨rfl, rfl⟩; exact ⟨rfl, rfl⟩)
  | none =>
    cases find s ['<', '='] with
    | some p => simp; constructor <;> (rintro ⟨rfl, rfl⟩; exact ⟨rfl, rfl⟩)
    | none =>
      cases find s ['>'] with
      | some p => simp; constructor <;> (rintro ⟨rfl, rfl⟩; exact ⟨rfl, rfl⟩)
      | none =>
        cases find s ['<'] with
        | some p => simp; constructor <;> (rintro ⟨rfl, rfl⟩; exact ⟨rfl, rfl⟩)
        | none =>
          cases find s ['='] with
          | some p => simp; constructor <;> (rintro ⟨rfl, rfl⟩; exact ⟨rfl, rfl⟩)
          | none => simp

theorem findOperator_eq_none_iff (s : Str) :
    findOperator s = none ↔
      find s ['>', '='] = none ∧ find s ['<', '='] = none ∧ find s ['>'] = none ∧
        find s ['<'] = none ∧ find s ['='] = none := by
  unfold findOperator
  show (match find s ['>', '='] with
    | some p => some (p, ['>', '='])
    | none =>
      match find s ['<', '='] with
      | some p => some (p, ['<', '='])
      | none =>
        match find s ['>'] with
        | some p => some (p, ['>'])
        | none =>
          match find s ['<'] with
          | some p => some (p, ['<'])
          | none =>
            match find s ['='] with
            | some p => some (p, ['='])
            | none => none) = none ↔ _
  cases find s ['>', '='] <;> cases find s ['<', '='] <;> cases find s ['>'] <;>
    cases find s ['<'] <;> cases find s ['='] <;> simp

/-- The comparison rebuilt from an operator and a numeric text has the kind of
the operator and the value of the text. -/
theorem parse_operator_text (self : ComparisonFilter) (opStr t : Str) (v : ℚ)
    (hop : opStr = ['>', '='] ∨ opStr = ['<', '='] ∨ opStr = ['>'] ∨ opStr = ['<'] ∨
      opStr = ['='])
    (ht : stofScan t = some (v, [])) :
    self.ParseFilter (opStr ++ t) = .ok ⟨operatorKind opStr, v⟩ := by
  have hv : stof t = .ok v := stof_of_stofScan ht
  obtain ⟨hgt, hlt, heq⟩ := operator_free_of_floatText ht
  rcases hop with rfl | rfl | rfl | rfl | rfl
  · exact parse_GREATER_EQUAL self hv
  · exact parse_LESS_EQUAL self hv hgt
  · exact parse_GREATER self hv heq
  · exact parse_LESS self hv hgt heq
  · exact parse_EQUAL self hv hgt hlt

/-- C17. `GlobalsFilter::ParseFilter` (1) on the empty text or on `NONE`
yields the empty name with a comparison of kind `NONE`; (2) on any other text
in which the operator search finds `opStr` at `opPos`, and whose part right of
the operator is, once trimmed, a numeric text of value `v`, yields the name
that is the part left of the operator, trimmed, and the comparison of the kind
of `opStr` with threshold `v`; (3) on any other text without an operator
yields the whole text, trimmed, as the name with kind `NONE`.  (4) The
operator found is the first one that occurs in the order `>=`, `<=`, `>`,
`<`, `=`, at its first occurrence. -/
theorem GlobalsFilter_parse (self : GlobalsFilter) (filterStr : Str) :
    ((filterStr = [] ∨ filterStr = "NONE".toList) →
      self.ParseFilter filterStr = .ok ⟨[], ⟨.NONE, self.againstValue.value⟩⟩) ∧
    (filterStr ≠ [] → filterStr ≠ "NONE".toList →
      ∀ (opPos : Nat) (opStr : Str) (v : ℚ), findOperator filterStr = some (opPos, opStr) →
        stofScan (TrimString (filterStr.drop (opPos + opStr.length))) = some (v, []) →
        self.ParseFilter filterStr =
          .ok ⟨TrimString (filterStr.take opPos), ⟨operatorKind opStr, v⟩⟩) ∧
    (filterStr ≠ [] → filterStr ≠ "NONE".toList → findOperator filterStr = none →
      self.ParseFilter filterStr =
        .ok ⟨TrimString filterStr, ⟨.NONE, self.againstValue.value⟩⟩) ∧
    (∀ (opPos : Nat) (opStr : Str), findOperator filterStr = some (opPos, opStr) ↔
      (opStr = ['>', '='] ∧ find filterStr ['>', '='] = some opPos) ∨
      (opStr = ['<', '='] ∧ find filterStr ['>', '='] = none ∧
        find filterStr ['<', '='] = some opPos) ∨
      (opStr = ['>'] ∧ find filterStr ['>', '='] = none ∧ find filterStr ['<', '='] = none ∧
        find filterStr ['>'] = some opPos) ∨
      (opStr = ['<'] ∧ find filterStr ['>', '='] = none ∧ find filterStr ['<', '='] = none ∧
        find filterStr ['>'] = none ∧ find filterStr ['<'] = some opPos) ∨
      (opStr = ['='] ∧ find filterStr ['>', '='] = none ∧ find filterStr ['<', '='] = none ∧
        find filterStr ['>'] = none ∧ find filterStr ['<'] = none ∧
        find filterStr ['='] = some opPos)) := by
  refine ⟨?_, ?_, ?_, findOperator_eq_some_iff filterStr⟩
  · intro h
    unfold GlobalsFilter.ParseFilter
    rw [if_pos h]
  · intro h1 h2 opPos opStr v hop hv
    have hne : ¬ (filterStr = [] ∨ filterStr = "NONE".toList) := fun h => h.elim h1 h2
    have hkind : opStr = ['>', '='] ∨ opStr = ['<', '='] ∨ opStr = ['>'] ∨ opStr = ['<'] ∨
        opStr = ['='] := by
      rcases (findOperator_eq_some_iff filterStr opPos opStr).mp hop with
        h | h | h | h | h
      · exact Or.inl h.1
      · exact Or.inr (Or.inl h.1)
      · exact Or.inr (Or.inr (Or.inl h.1))
      · exact Or.inr (Or.inr (Or.inr (Or.inl h.1)))
      · exact Or.inr (Or.inr (Or.inr (Or.inr h.1)))
    unfold GlobalsFilter.ParseFilter
    rw [if_neg hne, hop]
    simp only
    rw [parse_operator_text self.againstValue opStr _ v hkind hv]
    rfl
  · intro h1 h2 hop
    have hne : ¬ (filterStr = [] ∨ filterStr = "NONE".toList) := fun h => h.elim h1 h2
    unfold GlobalsFilter.ParseFilter
    rw [if_neg hne, hop]

/-- C17 on the text ` Glob >= 3 `: the name is `Glob` and the comparison is
`GREATER_EQUAL` with threshold 3. -/
theorem GlobalsFilter_parse_witness :
    findOperator " Glob >= 3 ".toList = some (6, ">=".toList) ∧
      GlobalsFilter.default.ParseFilter " Glob >= 3 ".toList =
        .ok ⟨"Glob".toList, ⟨.GREATER_EQUAL, 3⟩⟩ :=
  ⟨by decide,
    (GlobalsFilter_parse GlobalsFilter.default " Glob >= 3 ".toList).2.1 (by decide) (by decide)
      6 ">=".toList 3 (by decide) (by decide!)⟩

/-! ## C18: the skill field of a player text -/

theorem SplitString_single (a : Str) (h : '|' ∉ a) : SplitString a ['|'] = [a] := by
  induction a with
  | nil => rfl
  | cons c a ih =>
    have hc : ¬ (c = '|') := fun e => h (by simp [e])
    have ha : '|' ∉ a := fun hm => h (List.mem_cons_of_mem _ hm)
    unfold SplitString
    simp [hc, ih ha]

theorem SplitString_field (a r : Str) (h : '|' ∉ a) :
    SplitString (a ++ '|' :: r) ['|'] = a :: SplitString r ['|'] := by
  induction a with
  | nil =>
    show SplitString ('|' :: r) ['|'] = _
    conv_lhs => unfold SplitString
    simp
  | cons c a ih =>
    have hc : ¬ (c = '|') := fun e => h (by simp [e])
    have ha : '|' ∉ a := fun hm => h (List.mem_cons_of_mem _ hm)
    show SplitString (c :: (a ++ '|' :: r)) ['|'] = _
    conv_lhs => unfold SplitString
    simp [hc, ih ha]

theorem SplitString_three (a b c : Str) (ha : '|' ∉ a) (hb : '|' ∉ b) (hc : '|' ∉ c) :
    SplitString (a ++ '|' :: (b ++ '|' :: c)) ['|'] = [a, b, c] := by
  rw [SplitString_field a _ ha, SplitString_field b _ hb, SplitString_single c hc]

/-- The skill field `id(level)` sets both skill members. -/
theorem parseSkill_set (held : Int × Int) (idText levelText : Str) (id level : Int)
    (hparen : '(' ∉ idText) (hid : stoi idText = .ok id) (hlevel : stoi levelText = .ok level) :
    parseSkill held (idText ++ '(' :: (levelText ++ [')'])) = .ok (id, level) := by
  have hne : idText ++ '(' :: (levelText ++ [')']) ≠ "NONE".toList := by
    intro h
    have hmem : '(' ∈ idText ++ '(' :: (levelText ++ [')']) := by simp
    rw [h] at hmem
    revert hmem
    decide
  have hfind : find (idText ++ '(' :: (levelText ++ [')'])) ['('] = some idText.length :=
    find_char_append idText _ hparen
  have hpop : pop_back (levelText ++ [')']) = .ok levelText := by
    unfold pop_back
    simp
  unfold parseSkill
  rw [if_pos hne, hfind]
  simp only [List.take_left', List.drop_succ_cons, List.drop_left', hid]
  simp [bind, Except.bind, hpop, hlevel, pure, Except.pure]

/-- The skill field `NONE` leaves both skill members as they are. -/
theorem parseSkill_NONE (held : Int × Int) : parseSkill held "NONE".toList = .ok held := by
  unfold parseSkill
  simp
  rfl

/-- C18 (the code departs from its second half). For a player text of three
fields `L|S|P`, built by the constructor `PlayerFilter(const std::string&)` as
`FilterSet::ParseFilters` does: (1) when `L` is parsed as a comparison and `S`
is `id(level)` with integer texts that `std::stoi` reads, the filter has
exactly that skill identifier and that level; (2) when `S` is `NONE` the two
skill members are not assigned, and since the constructor does not initialise
them they hold the content `junk` of the storage, not the unset marker -1.
(3) With the content (5, 50) the filter built from `NONE|NONE|NONE` asks for
skill 5 at level 50: the skill check is not skipped, and a player whose actor
values are all 10 is rejected, whereas the filter with the unset marker would
match that player. -/
theorem player_text_skill (junk : Int × Int) (L P : Str) (lf : ComparisonFilter) :
    (∀ (idText levelText : Str) (id level : Int),
      '|' ∉ L → '|' ∉ idText → '|' ∉ levelText → '|' ∉ P → '(' ∉ idText →
      ComparisonFilter.default.ParseFilter L = .ok lf →
      stoi idText = .ok id → stoi levelText = .ok level →
      PlayerFilter.ofString junk
          (L ++ '|' :: ((idText ++ '(' :: (levelText ++ [')'])) ++ '|' :: P)) =
        .ok ⟨lf, id, level, if P = "NONE".toList then [] else P⟩) ∧
    ('|' ∉ L → '|' ∉ P → ComparisonFilter.default.ParseFilter L = .ok lf →
      PlayerFilter.ofString junk (L ++ '|' :: ("NONE".toList ++ '|' :: P)) =
        .ok ⟨lf, junk.1, junk.2, if P = "NONE".toList then [] else P⟩) ∧
    PlayerFilter.ofString (5, 50) "NONE|NONE|NONE".toList =
      .ok ⟨ComparisonFilter.default, 5, 50, []⟩ ∧
    MatchesPlayerFilter emptyWorld ⟨ComparisonFilter.default, 5, 50, []⟩ (some novice) = false ∧
    MatchesPlayerFilter emptyWorld ⟨ComparisonFilter.default, -1, -1, []⟩ (some novice) =
      true := by
  refine ⟨?_, ?_, by decide!, by decide!, by decide!⟩
  · intro idText levelText id level hL hid hlv hP hparen hlf hstoi hstoi2
    have hS : '|' ∉ idText ++ '(' :: (levelText ++ [')']) := by
      simp only [List.mem_append, List.mem_cons, List.mem_singleton, not_or]
      exact ⟨hid, by decide, hlv, by decide, by simp⟩
    unfold PlayerFilter.ofString PlayerFilter.ParseFilter
    rw [show "|".toList = ['|'] from rfl, SplitString_three L _ P hL hS hP]
    simp only [hlf, parseSkill_set _ idText levelText id level hparen hstoi hstoi2]
    rfl
  · intro hL hP hlf
    unfold PlayerFilter.ofString PlayerFilter.ParseFilter
    rw [show "|".toList = ['|'] from rfl,
      SplitString_three L "NONE".toList P hL (by decide) hP]
    simp only [hlf, parseSkill_NONE]
    rfl

/-! ## C19: what a category filter asks of an entity -/

/-- C19. For every world and every present entity, each category filter
returns a Boolean (no fault is possible) that is true exactly when every
sub-check that is set passes, a sub-check that is not set being skipped.
Item: the form name resolves to the identifier of the object; the keyword name
resolves to a keyword the object carries; the weight and the gold value
satisfy their comparisons.  Merchant: the form name resolves to the
identifier of the merchant; a relationship record with the player exists and
its level satisfies the comparison; the global name resolves and its value
satisfies the comparison.  Player: the level satisfies its comparison; the
actor value of the skill is at least the level asked; the perk name resolves
to a perk the player has.  A name that is set and does not resolve, and a
relationship test without a record, make the filter fail. -/
theorem category_filter_matches_iff (w : World) :
    (∀ (f : ItemFilter) (object : BoundObject),
      MatchesItemFilter w f (some ⟨some object⟩) = true ↔
        (f.formEditorID = [] ∨ w.lookupForm f.formEditorID = some object.formID) ∧
        (f.keywordEditorID = [] ∨
          ∃ k, w.lookupKeyword f.keywordEditorID = some k ∧ k ∈ object.keywords) ∧
        (f.weightFilter.type = .NONE ∨ f.weightFilter.Matches object.weight = true) ∧
        (f.valueFilter.type = .NONE ∨
          f.valueFilter.Matches (object.goldValue : ℚ) = true)) ∧
    (∀ (f : MerchantFilter) (t : Actor),
      MatchesMerchantFilter w f (some t) = true ↔
        (f.formEditorID = [] ∨ w.lookupForm f.formEditorID = some t.formID) ∧
        (f.relationship.type = .NONE ∨
          ∃ level, w.getRelationship t.actorBase = some level ∧
            f.relationship.Matches (level : ℚ) = true) ∧
        (f.globalCondition.globalEditorID = [] ∨
          ∃ g, w.lookupGlobal f.globalCondition.globalEditorID = some g ∧
            f.globalCondition.againstValue.Matches g = true)) ∧
    (∀ (f : PlayerFilter) (p : PlayerCharacter),
      MatchesPlayerFilter w f (some p) = true ↔
        (f.levelFilter.type = .NONE ∨ f.levelFilter.Matches (p.level : ℚ) = true) ∧
        (f.skillID < 0 ∨ f.skillLevel < 0 ∨
          ∃ av, p.actorValueOwner = some av ∧ (f.skillLevel : ℚ) ≤ av f.skillID) ∧
        (f.perkEditorID = [] ∨
          ∃ k, w.lookupPerk f.perkEditorID = some k ∧ k ∈ p.perks)) ∧
    (∀ (f : ItemFilter) (object : BoundObject),
      (f.formEditorID ≠ [] ∧ w.lookupForm f.formEditorID = none) ∨
        (f.keywordEditorID ≠ [] ∧ w.lookupKeyword f.keywordEditorID = none) →
      MatchesItemFilter w f (some ⟨some object⟩) = false) ∧
    (∀ (f : MerchantFilter) (t : Actor),
      (f.formEditorID ≠ [] ∧ w.lookupForm f.formEditorID = none) ∨
        (f.relationship.type ≠ .NONE ∧ w.getRelationship t.actorBase = none) ∨
        (f.globalCondition.globalEditorID ≠ [] ∧
          w.lookupGlobal f.globalCondition.globalEditorID = none) →
      MatchesMerchantFilter w f (some t) = false) ∧
    (∀ (f : PlayerFilter) (p : PlayerCharacter),
      f.perkEditorID ≠ [] ∧ w.lookupPerk f.perkEditorID = none →
      MatchesPlayerFilter w f (some p) = false) := by
  have hitem : ∀ (f : ItemFilter) (object : BoundObject),
      MatchesItemFilter w f (some ⟨some object⟩) = true ↔
        (f.formEditorID = [] ∨ w.lookupForm f.formEditorID = some object.formID) ∧
        (f.keywordEditorID = [] ∨
          ∃ k, w.lookupKeyword f.keywordEditorID = some k ∧ k ∈ object.keywords) ∧
        (f.weightFilter.type = .NONE ∨ f.weightFilter.Matches object.weight = true) ∧
        (f.valueFilter.type = .NONE ∨
          f.valueFilter.Matches (object.goldValue : ℚ) = true) := by
    intro f object
    unfold MatchesItemFilter
    cases hform : w.lookupForm f.formEditorID <;>
      cases hkey : w.lookupKeyword f.keywordEditorID <;>
      simp [hform, hkey]
  have hmerchant : ∀ (f : MerchantFilter) (t : Actor),
      MatchesMerchantFilter w f (some t) = true ↔
        (f.formEditorID = [] ∨ w.lookupForm f.formEditorID = some t.formID) ∧
        (f.relationship.type = .NONE ∨
          ∃ level, w.getRelationship t.actorBase = some level ∧
            f.relationship.Matches (level : ℚ) = true) ∧
        (f.globalCondition.globalEditorID = [] ∨
          ∃ g, w.lookupGlobal f.globalCondition.globalEditorID = some g ∧
            f.globalCondition.againstValue.Matches g = true) := by
    intro f t
    unfold MatchesMerchantFilter
    cases hform : w.lookupForm f.formEditorID <;>
      cases hrel : w.getRelationship t.actorBase <;>
      cases hglob : w.lookupGlobal f.globalCondition.globalEditorID <;>
      simp [hform, hrel, hglob]
  have hplayer : ∀ (f : PlayerFilter) (p : PlayerCharacter),
      MatchesPlayerFilter w f (some p) = true ↔
        (f.levelFilter.type = .NONE ∨ f.levelFilter.Matches (p.level : ℚ) = true) ∧
        (f.skillID < 0 ∨ f.skillLevel < 0 ∨
          ∃ av, p.actorValueOwner = some av ∧ (f.skillLevel : ℚ) ≤ av f.skillID) ∧
        (f.perkEditorID = [] ∨
          ∃ k, w.lookupPerk f.perkEditorID = some k ∧ k ∈ p.perks) := by
    intro f p
    unfold MatchesPlayerFilter
    cases hperk : w.lookupPerk f.perkEditorID <;>
      cases hav : p.actorValueOwner <;>
      simp [hperk, hav, or_assoc]
  refine ⟨hitem, hmerchant, hplayer, ?_, ?_, ?_⟩
  · intro f object h
    cases hm : MatchesItemFilter w f (some ⟨some object⟩) with
    | false => rfl
    | true =>
      obtain ⟨h1, h2, _⟩ := (hitem f object).mp hm
      rcases h with ⟨hne, hnone⟩ | ⟨hne, hnone⟩
      · rcases h1 with h1 | h1
        · exact absurd h1 hne
        · rw [hnone] at h1; cases h1
      · rcases h2 with h2 | ⟨k, h2, _⟩
        · exact absurd h2 hne
        · rw [hnone] at h2; cases h2
  · intro f t h
    cases hm : MatchesMerchantFilter w f (some t) with
    | false => rfl
    | true =>
      obtain ⟨h1, h2, h3⟩ := (hmerchant f t).mp hm
      rcases h with ⟨hne, hnone⟩ | ⟨hne, hnone⟩ | ⟨hne, hnone⟩
      · rcases h1 with h1 | h1
        · exact absurd h1 hne
        · rw [hnone] at h1; cases h1
      · rcases h2 with h2 | ⟨k, h2, _⟩
        · exact absurd h2 hne
        · rw [hnone] at h2; cases h2
      · rcases h3 with h3 | ⟨k, h3, _⟩
        · exact absurd h3 hne
        · rw [hnone] at h3; cases h3
  · intro f p h
    cases hm : MatchesPlayerFilter w f (some p) with
    | false => rfl
    | true =>
      obtain ⟨_, _, h3⟩ := (hplayer f p).mp hm
      obtain ⟨hne, hnone⟩ := h
      rcases h3 with h3 | ⟨k, h3, _⟩
      · exact absurd h3 hne
      · rw [hnone] at h3; cases h3

/-! ## C20: the skill and the perk of a player filter -/

/-- What `ComparisonFilter::ParseFilter` does with a text in which the
operator search finds `opStr`: the kind is the one of `opStr`, and the value
is read from the text after its first `opStr.length` characters, wherever the
operator stands. -/
theorem ParseFilter_of_findOperator (self : ComparisonFilter) (s : Str) (opPos : Nat)
    (opStr : Str) (h : findOperator s = some (opPos, opStr)) :
    self.ParseFilter s =
      (stof (s.drop opStr.length)).map (fun v => ⟨operatorKind opStr, v⟩) := by
  have hne : ¬ (s = "NONE".toList ∨ s = []) := by
    rintro (rfl | rfl)
    · have h0 : findOperator "NONE".toList = none := by decide
      rw [h0] at h
      cases h
    · have h0 : findOperator [] = none := by decide
      rw [h0] at h
      cases h
  unfold ComparisonFilter.ParseFilter
  rw [if_neg hne]
  rcases (findOperator_eq_some_iff s opPos opStr).mp h with
    ⟨rfl, h1⟩ | ⟨rfl, h1, h2⟩ | ⟨rfl, h1, h2, h3⟩ | ⟨rfl, h1, h2, h3, h4⟩ |
      ⟨rfl, h1, h2, h3, h4, h5⟩
  · cases hs : stof (List.drop 2 s) <;>
      simp [h1, hs, operatorKind, Except.map, bind, Except.bind, pure, Except.pure]
  · cases hs : stof (List.drop 2 s) <;>
      simp [h1, h2, hs, operatorKind, Except.map, bind, Except.bind, pure, Except.pure]
  · cases hs : stof (List.tail s) <;>
      simp [h1, h2, h3, hs, operatorKind, Except.map, bind, Except.bind, pure, Except.pure]
  · cases hs : stof (List.tail s) <;>
      simp [h1, h2, h3, h4, hs, operatorKind, Except.map, bind, Except.bind, pure, Except.pure]
  · cases hs : stof (List.tail s) <;>
      simp [h1, h2, h3, h4, h5, hs, operatorKind, Except.map, bind, Except.bind, pure,
        Except.pure]

/-! ## C21: an operator that is not at the front -/

/-- C21 (the code departs from it). `ComparisonFilter::ParseFilter` does
select the first operator found in the order `>=`, `<=`, `>`, `<`, `=`,
wherever it stands, but it reads the threshold from the text after the first
two (or one) characters, `substr(2)` or `substr(1)`, not from the text after
the operator found.  So ` >=5` and `x>5` fail with `std::invalid_argument`,
being read from `=5` and from `>5`, and `12<5` yields `LESS` with threshold 2,
read from `2<5`, where the text after the operator denotes 5. -/
theorem operator_away_from_front (self : ComparisonFilter) :
    (∀ (s : Str) (opPos : Nat) (opStr : Str), findOperator s = some (opPos, opStr) →
      self.ParseFilter s =
        (stof (s.drop opStr.length)).map (fun v => ⟨operatorKind opStr, v⟩)) ∧
    (findOperator " >=5".toList = some (1, ">=".toList) ∧
      self.ParseFilter " >=5".toList = .error .invalid_argument) ∧
    (findOperator "x>5".toList = some (1, ">".toList) ∧
      self.ParseFilter "x>5".toList = .error .invalid_argument) ∧
    (findOperator "12<5".toList = some (2, "<".toList) ∧
      self.ParseFilter "12<5".toList = .ok ⟨.LESS, 2⟩ ∧
      stof ("12<5".toList.drop (2 + "<".toList.length)) = .ok 5) := by
  refine ⟨fun s opPos opStr h => ParseFilter_of_findOperator self s opPos opStr h,
    ⟨by decide, ?_⟩, ⟨by decide, ?_⟩, ⟨by decide, ?_, by decide!⟩⟩
  · rw [ParseFilter_of_findOperator self " >=5".toList 1 ">=".toList (by decide)]
    have hs : stof (" >=5".toList.drop ">=".toList.length) = .error .invalid_argument := by
      decide!
    rw [hs]
    rfl
  · rw [ParseFilter_of_findOperator self "x>5".toList 1 ">".toList (by decide)]
    have hs : stof ("x>5".toList.drop ">".toList.length) = .error .invalid_argument := by
      decide!
    rw [hs]
    rfl
  · rw [ParseFilter_of_findOperator self "12<5".toList 2 "<".toList (by decide)]
    have hs : stof ("12<5".toList.drop "<".toList.length) = .ok 2 := by decide!
    rw [hs]
    rfl

/-! ## C23: a failed load is not undone -/

/-- C23. For every prior engine and every document whose `Prices` array has,
at position `k` (counted from 0), the first rule object that fails to build,
failing with a conversion exception: `LoadConfig` returns false and leaves the
price rule list with exactly the rules built from the `k` rule objects before
it, in their order, and the quantity rule list empty; the previous rules are
not restored.  So the stocked engine, which holds three rules, is left with
one rule by the failed load of a document whose second price rule has the
value text `abc`. -/
theorem failed_load_keeps_built_rules (self : ConfigManager) (configJson : ConfigJson)
    (junk : Int × Int) (prices : List EntryJson) (k : Nat) (e : EntryJson) (f : Fault)
    (hprices : configJson.Prices = some prices) (hk : prices[k]? = some e)
    (he : ConfigEntry.ofJson junk e = .error f) (hexc : f.isException = true)
    (hbefore : ∀ (j : Nat) (e1 : EntryJson), j < k → prices[j]? = some e1 →
      ∃ c, ConfigEntry.ofJson junk e1 = .ok c) :
    (∃ built, List.Forall₂ (Builds junk) (prices.take k) built ∧ built.length = k ∧
      LoadConfig self (some configJson) junk =
        .ok (false, { self with priceEntries := built, countEntries := [] }) ∧
      ReloadConfig self (some configJson) junk =
        .ok (false, { self with priceEntries := built, countEntries := [] })) ∧
    LoadConfig stockedEngine (some secondRuleBadDoc) (0, 0) =
      .ok (false, ⟨pluginPath, [fixedRule 5], [], none, none⟩) ∧
    ([fixedRule 5] : List ConfigEntry).length + ([] : List ConfigEntry).length <
      stockedEngine.priceEntries.length + stockedEngine.countEntries.length := by
  refine ⟨?_, by decide!, by decide⟩
  have hget : configJson.Prices.getD [] = prices := by rw [hprices]; rfl
  obtain ⟨h1, h2⟩ := emplaceEntries_first_fault junk prices k e f hk he hbefore
  have hlen : (emplaceEntries junk prices).1.length = k := by
    have hl := h2.length_eq
    have hkl : k < prices.length := by
      by_contra hge
      rw [List.getElem?_eq_none (Nat.le_of_not_lt hge)] at hk
      cases hk
    rw [← hl, List.length_take]
    omega
  refine ⟨(emplaceEntries junk prices).1, h2, hlen, ?_, ?_⟩
  · rw [LoadConfig_eq, hget, h1]
    simp only [hexc, if_true]
  · unfold ReloadConfig
    rw [LoadConfig_eq, hget, h1]
    simp only [hexc, if_true]

/-- C23 on the stocked engine and the document whose second price rule has the
value text `abc`: the one rule built before it is all that is left. -/
theorem failed_load_keeps_built_rules_witness :
    ∃ built, List.Forall₂ (Builds (0, 0)) [⟨some "5".toList, none⟩] built ∧ built.length = 1 ∧
      LoadConfig stockedEngine (some secondRuleBadDoc) (0, 0) =
        .ok (false, { stockedEngine with priceEntries := built, countEntries := [] }) ∧
      ReloadConfig stockedEngine (some secondRuleBadDoc) (0, 0) =
        .ok (false, { stockedEngine with priceEntries := built, countEntries := [] }) :=
  (failed_load_keeps_built_rules stockedEngine secondRuleBadDoc (0, 0)
    [⟨some "5".toList, none⟩, ⟨some "abc".toList, none⟩, ⟨some "6".toList, none⟩] 1
    ⟨some "abc".toList, none⟩ .invalid_argument rfl rfl (by decide!) rfl
    (by
      intro j e1 hj hj1
      have hj0 : j = 0 := by omega
      subst hj0
      simp only [List.getElem?_cons_zero, Option.some.injEq] at hj1
      subst hj1
      exact ⟨fixedRule 5, by decide!⟩)).1

/-! ## C22: a skill field without its closing parenthesis -/

/-- The skill field `id(level` followed by any one character: the last
character is removed whatever it is. -/
theorem parseSkill_last_removed (held : Int × Int) (idText levelText : Str) (c : Char)
    (id level : Int) (hparen : '(' ∉ idText) (hid : stoi idText = .ok id)
    (hlevel : stoi levelText = .ok level) :
    parseSkill held (idText ++ '(' :: (levelText ++ [c])) = .ok (id, level) := by
  have hne : idText ++ '(' :: (levelText ++ [c]) ≠ "NONE".toList := by
    intro h
    have hmem : '(' ∈ idText ++ '(' :: (levelText ++ [c]) := by simp
    rw [h] at hmem
    revert hmem
    decide
  have hfind : find (idText ++ '(' :: (levelText ++ [c])) ['('] = some idText.length :=
    find_char_append idText _ hparen
  have hpop : pop_back (levelText ++ [c]) = .ok levelText := by
    unfold pop_back
    simp
  unfold parseSkill
  rw [if_pos hne, hfind]
  simp only [List.take_left', List.drop_succ_cons, List.drop_left', hid]
  simp [bind, Except.bind, hpop, hlevel, pure, Except.pure]

/-- The skill field `id(` reaches `pop_back` on the empty text. -/
theorem parseSkill_no_level (held : Int × Int) (idText : Str) (id : Int)
    (hparen : '(' ∉ idText) (hid : stoi idText = .ok id) :
    parseSkill held (idText ++ ['(']) = .error .pop_back_on_empty := by
  have hne : idText ++ ['('] ≠ "NONE".toList := by
    intro h
    have hmem : '(' ∈ idText ++ ['('] := by simp
    rw [h] at hmem
    revert hmem
    decide
  have hfind : find (idText ++ ['(']) ['('] = some idText.length :=
    find_char_append idText [] hparen
  unfold parseSkill
  rw [if_pos hne, hfind]
  simp only [List.take_left', List.drop_succ_cons, List.drop_left', hid]
  simp [bind, Except.bind, pop_back]

/-- C22 (the code departs from it). `PlayerFilter::ParseFilter` removes the
last character of the text after `(` without looking at it.  (1) A skill
field `id(level` followed by any one character, a closing parenthesis or not,
sets the skill to `id` and `level`; so the player text `NONE|5(20|NONE` is
built with a skill requirement of level 2, the level 20 cut short, for every
content of the storage.  (2) The player text `NONE|5(|NONE` reaches `pop_back`
on the empty text, which is undefined; (3) `LoadConfig` does not catch it, so
the load of a document with that player text neither succeeds nor returns
false. -/
theorem unclosed_skill_field (junk : Int × Int) :
    (∀ (idText levelText : Str) (c : Char) (id level : Int), '(' ∉ idText →
      stoi idText = .ok id → stoi levelText = .ok level →
      parseSkill junk (idText ++ '(' :: (levelText ++ [c])) = .ok (id, level)) ∧
    PlayerFilter.ofString junk "NONE|5(20|NONE".toList =
      .ok ⟨ComparisonFilter.default, 5, 2, []⟩ ∧
    PlayerFilter.ofString junk "NONE|5(|NONE".toList = .error .pop_back_on_empty ∧
    (∀ self : ConfigManager,
      LoadConfig self
          (some ⟨some [⟨some "2.0".toList, some ⟨none, none, some ["NONE|5(|NONE".toList]⟩⟩],
            none⟩) junk =
        .error .pop_back_on_empty) := by
  have hlf : ComparisonFilter.default.ParseFilter "NONE".toList = .ok ComparisonFilter.default := by
    decide!
  have hbad : PlayerFilter.ofString junk "NONE|5(|NONE".toList = .error .pop_back_on_empty := by
    unfold PlayerFilter.ofString PlayerFilter.ParseFilter
    rw [show "|".toList = ['|'] from rfl,
      show "NONE|5(|NONE".toList = "NONE".toList ++ '|' :: ("5(".toList ++ '|' :: "NONE".toList)
        from rfl,
      SplitString_three "NONE".toList "5(".toList "NONE".toList (by decide) (by decide)
        (by decide)]
    simp only [hlf]
    rw [show "5(".toList = "5".toList ++ ['('] from rfl,
      parseSkill_no_level _ "5".toList 5 (by decide) (by decide)]
    rfl
  refine ⟨fun idText levelText c id level h1 h2 h3 =>
    parseSkill_last_removed junk idText levelText c id level h1 h2 h3, ?_, hbad, ?_⟩
  · unfold PlayerFilter.ofString PlayerFilter.ParseFilter
    rw [show "|".toList = ['|'] from rfl,
      show "NONE|5(20|NONE".toList =
        "NONE".toList ++ '|' :: ("5(20".toList ++ '|' :: "NONE".toList) from rfl,
      SplitString_three "NONE".toList "5(20".toList "NONE".toList (by decide) (by decide)
        (by decide)]
    simp only [hlf]
    rw [show "5(20".toList = "5".toList ++ '(' :: ("2".toList ++ ['0']) from rfl,
      parseSkill_last_removed _ "5".toList "2".toList '0' 5 2 (by decide) (by decide)
        (by decide)]
    rfl
  · intro self
    have hval : ValueRange.ParseValue "2.0".toList = .ok ⟨2, 2, false⟩ := by decide!
    have hfs : FilterSet.ParseFilters junk ⟨none, none, some ["NONE|5(|NONE".toList]⟩ =
        .error .pop_back_on_empty := by
      unfold FilterSet.ParseFilters
      simp only [List.mapM_cons, hbad]
      rfl
    have hentry : ConfigEntry.ofJson junk
        ⟨some "2.0".toList, some ⟨none, none, some ["NONE|5(|NONE".toList]⟩⟩ =
        .error .pop_back_on_empty := by
      unfold ConfigEntry.ofJson
      simp only [hval, hfs]
      rfl
    rw [LoadConfig_eq]
    have hp : (emplaceEntries junk
        [⟨some "2.0".toList, some ⟨none, none, some ["NONE|5(|NONE".toList]⟩⟩]).2 =
        some .pop_back_on_empty := by
      unfold emplaceEntries
      rw [hentry]
    simp only [Option.getD_some]
    rw [hp]
    rfl

/-! ## C24: the comparison rebuilt by the global condition -/

theorem find_cons_none (c : Char) (r pat : Str) (hsw : startsWith (c :: r) pat = false)
    (hr : find r pat = none) : find (c :: r) pat = none := by
  unfold find
  simp [hsw, hr]

theorem find_none_of_cons (c : Char) (r pat : Str) (h : find (c :: r) pat = none) :
    find r pat = none := by
  unfold find at h
  split at h
  · cases h
  · simpa using h

theorem find_none_of_append_left (a s pat : Str) (h : find (a ++ s) pat = none) :
    find s pat = none := by
  induction a with
  | nil => exact h
  | cons c a ih => exact ih (find_none_of_cons c _ pat h)

theorem startsWith_append_right (s b pat : Str) (h : startsWith s pat = true) :
    startsWith (s ++ b) pat = true := by
  induction pat generalizing s with
  | nil => cases s <;> cases b <;> rfl
  | cons p pat ih =>
    cases s with
    | nil => simp [startsWith] at h
    | cons c s =>
      simp only [startsWith, Bool.and_eq_true, beq_iff_eq] at h
      simp [startsWith, h.1, ih s h.2]

theorem find_none_of_append_right (s b pat : Str) (h : find (s ++ b) pat = none) :
    find s pat = none := by
  induction s with
  | nil =>
    cases pat with
    | nil =>
      unfold find at h
      cases b <;> simp [startsWith] at h
    | cons p pat =>
      unfold find
      simp [startsWith]
  | cons c s ih =>
    have hrest : find (s ++ b) pat = none := find_none_of_cons c _ pat h
    have hsw : startsWith (c :: s) pat = false := by
      cases hb : startsWith (c :: s) pat with
      | false => rfl
      | true =>
        have h2 := startsWith_append_right (c :: s) b pat hb
        unfold find at h
        rw [show c :: s ++ b = (c :: s) ++ b from rfl, h2] at h
        simp at h
    exact find_cons_none c s pat hsw (ih hrest)

/-- The trimmed text lies inside the text. -/
theorem TrimString_inside (s : Str) : ∃ a b : Str, s = a ++ (TrimString s ++ b) := by
  refine ⟨s.takeWhile isspace,
    (((s.dropWhile isspace).reverse).takeWhile isspace).reverse, ?_⟩
  have h1 : s = s.takeWhile isspace ++ s.dropWhile isspace :=
    (List.takeWhile_append_dropWhile isspace s).symm
  have h2 : (s.dropWhile isspace).reverse =
      ((s.dropWhile isspace).reverse).takeWhile isspace ++
        ((s.dropWhile isspace).reverse).dropWhile isspace :=
    (List.takeWhile_append_dropWhile isspace _).symm
  have h3 : s.dropWhile isspace =
      (((s.dropWhile isspace).reverse).dropWhile isspace).reverse ++
        (((s.dropWhile isspace).reverse).takeWhile isspace).reverse := by
    have h4 : s.dropWhile isspace =
        (((s.dropWhile isspace).reverse).takeWhile isspace ++
          ((s.dropWhile isspace).reverse).dropWhile isspace).reverse := by
      rw [← h2, List.reverse_reverse]
    rw [List.reverse_append] at h4
    exact h4
  unfold TrimString
  rw [← h3]
  exact h1

/-- A pattern that does not occur in a text does not occur in the trimmed
rest of the text after any position. -/
theorem find_none_in_value (t pat : Str) (n : Nat) (h : find t pat = none) :
    find (TrimString (t.drop n)) pat = none := by
  obtain ⟨a, b, hab⟩ := TrimString_inside (t.drop n)
  have h1 : find (t.drop n) pat = none := by
    have : t = t.take n ++ t.drop n := (List.take_append_drop n t).symm
    rw [this] at h
    exact find_none_of_append_left _ _ pat h
  rw [hab] at h1
  exact find_none_of_append_right _ b pat (find_none_of_append_left a _ pat h1)

/-- A text that `std::stof` reads starts with a character that is not `=`. -/
theorem stof_ok_head (v : Str) (x : ℚ) (h : stof v = .ok x) :
    startsWith v ['='] = false := by
  cases v with
  | nil => rfl
  | cons c r =>
    by_cases hc : c = '='
    · subst hc
      have : scanNumber ('=' :: r) = none := by
        simp [scanNumber, scanSign, isspace, List.dropWhile, startsWithNoCase, scanHexNumber,
          scanDecimal, List.takeWhile, Char.isDigit]
      unfold stof at h
      rw [this] at h
      cases h
    · simp [startsWith, hc]

/-- In the text rebuilt from the operator found and the trimmed value part,
the operator search finds that operator again, at the front. -/
theorem findOperator_rebuilt (t : Str) (opPos : Nat) (opStr : Str) (x : ℚ)
    (hop : findOperator t = some (opPos, opStr))
    (hval : stof (TrimString (t.drop (opPos + opStr.length))) = .ok x) :
    findOperator (opStr ++ TrimString (t.drop (opPos + opStr.length))) = some (0, opStr) := by
  have hhead := stof_ok_head _ x hval
  have hin := fun pat h => find_none_in_value t pat (opPos + opStr.length) h
  rw [findOperator_eq_some_iff]
  rcases (findOperator_eq_some_iff t opPos opStr).mp hop with
    ⟨rfl, _⟩ | ⟨rfl, h1, _⟩ | ⟨rfl, h1, h2, _⟩ | ⟨rfl, h1, h2, h3, _⟩ |
      ⟨rfl, h1, h2, h3, h4, _⟩
  · exact Or.inl ⟨rfl, find_append_self _ _⟩
  · refine Or.inr (Or.inl ⟨rfl, ?_, find_append_self _ _⟩)
    exact find_cons_none _ _ _ (by simp [startsWith])
      (find_cons_none _ _ _ (by simp [startsWith]) (hin _ h1))
  · refine Or.inr (Or.inr (Or.inl ⟨rfl, ?_, ?_, find_append_self _ _⟩))
    · exact find_cons_none _ _ _ (by simpa [startsWith] using hhead) (hin _ h1)
    · exact find_cons_none _ _ _ (by simp [startsWith]) (hin _ h2)
  · refine Or.inr (Or.inr (Or.inr (Or.inl ⟨rfl, ?_, ?_, ?_, find_append_self _ _⟩)))
    · exact find_cons_none _ _ _ (by simp [startsWith]) (hin _ h1)
    · exact find_cons_none _ _ _ (by simpa [startsWith] using hhead) (hin _ h2)
    · exact find_cons_none _ _ _ (by simp [startsWith]) (hin _ h3)
  · refine Or.inr (Or.inr (Or.inr (Or.inr ⟨rfl, ?_, ?_, ?_, ?_, find_append_self _ _⟩)))
    · exact find_cons_none _ _ _ (by simp [startsWith]) (hin _ h1)
    · exact find_cons_none _ _ _ (by simp [startsWith]) (hin _ h2)
    · exact find_cons_none _ _ _ (by simp [startsWith]) (hin _ h3)
    · exact find_cons_none _ _ _ (by simp [startsWith]) (hin _ h4)

/-- C24. For every text in which the operator search of
`GlobalsFilter::ParseFilter` finds `opStr` at `opPos`, and whose value part,
the trimmed text after that occurrence, `std::stof` reads as `x`: parsing the
rebuilt text, `opStr` followed by the value part, with
`ComparisonFilter::ParseFilter` yields the kind of `opStr`, which is not
`NONE`, with threshold `x`, and so `GlobalsFilter::ParseFilter` yields the
trimmed name part with that comparison.  No assumption is made on the
characters of the name part or of the value part. -/
theorem rebuilt_comparison_kind (self : ComparisonFilter) (t : Str) (opPos : Nat)
    (opStr : Str) (x : ℚ) (hop : findOperator t = some (opPos, opStr))
    (hval : stof (TrimString (t.drop (opPos + opStr.length))) = .ok x) :
    self.ParseFilter (opStr ++ TrimString (t.drop (opPos + opStr.length))) =
        .ok ⟨operatorKind opStr, x⟩ ∧
      operatorKind opStr ≠ .NONE ∧
      (operatorKind opStr = .GREATER_EQUAL ↔ opStr = ">=".toList) ∧
      (operatorKind opStr = .LESS_EQUAL ↔ opStr = "<=".toList) ∧
      (operatorKind opStr = .GREATER ↔ opStr = ">".toList) ∧
      (operatorKind opStr = .LESS ↔ opStr = "<".toList) ∧
      (operatorKind opStr = .EQUAL ↔ opStr = "=".toList) ∧
      ∀ g : GlobalsFilter,
        g.ParseFilter t = .ok ⟨TrimString (t.take opPos), ⟨operatorKind opStr, x⟩⟩ := by
  have hparse : ∀ f : ComparisonFilter,
      f.ParseFilter (opStr ++ TrimString (t.drop (opPos + opStr.length))) =
        .ok ⟨operatorKind opStr, x⟩ := by
    intro f
    rw [ParseFilter_of_findOperator f _ 0 opStr (findOperator_rebuilt t opPos opStr x hop hval),
      List.drop_left' rfl, hval]
    rfl
  have hkind : opStr = ['>', '='] ∨ opStr = ['<', '='] ∨ opStr = ['>'] ∨ opStr = ['<'] ∨
      opStr = ['='] := by
    rcases (findOperator_eq_some_iff t opPos opStr).mp hop with h | h | h | h | h
    · exact Or.inl h.1
    · exact Or.inr (Or.inl h.1)
    · exact Or.inr (Or.inr (Or.inl h.1))
    · exact Or.inr (Or.inr (Or.inr (Or.inl h.1)))
    · exact Or.inr (Or.inr (Or.inr (Or.inr h.1)))
  have hne : ¬ (t = [] ∨ t = "NONE".toList) := by
    rintro (rfl | rfl)
    · have h0 : findOperator [] = none := by decide
      rw [h0] at hop
      cases hop
    · have h0 : findOperator "NONE".toList = none := by decide
      rw [h0] at hop
      cases hop
  refine ⟨hparse self, ?_, ?_, ?_, ?_, ?_, ?_, ?_⟩
  · rcases hkind with rfl | rfl | rfl | rfl | rfl <;> decide
  · rcases hkind with rfl | rfl | rfl | rfl | rfl <;> decide
  · rcases hkind with rfl | rfl | rfl | rfl | rfl <;> decide
  · rcases hkind with rfl | rfl | rfl | rfl | rfl <;> decide
  · rcases hkind with rfl | rfl | rfl | rfl | rfl <;> decide
  · rcases hkind with rfl | rfl | rfl | rfl | rfl <;> decide
  · intro g
    unfold GlobalsFilter.ParseFilter
    rw [if_neg hne, hop]
    simp only
    rw [hparse g.againstValue]
    rfl

/-- C24 on the text `a<b > 5=3`, whose name part holds `<` and whose value
part holds `=`: the operator found is `>`, and the rebuilt text `>5=3` is
parsed as `GREATER` with threshold 5. -/
theorem rebuilt_comparison_kind_witness :
    findOperator "a<b > 5=3".toList = some (4, ">".toList) ∧
      TrimString ("a<b > 5=3".toList.drop (4 + ">".toList.length)) = "5=3".toList ∧
      ComparisonFilter.default.ParseFilter (">".toList ++ "5=3".toList) = .ok ⟨.GREATER, 5⟩ ∧
      GlobalsFilter.default.ParseFilter "a<b > 5=3".toList =
        .ok ⟨"a<b".toList, ⟨.GREATER, 5⟩⟩ :=
  ⟨by decide, by decide,
    (rebuilt_comparison_kind ComparisonFilter.default "a<b > 5=3".toList 4 ">".toList 5
      (by decide) (by decide!)).1,
    (rebuilt_comparison_kind ComparisonFilter.default "a<b > 5=3".toList 4 ">".toList 5
      (by decide) (by decide!)).2.2.2.2.2.2.2 GlobalsFilter.default⟩

/-! ## C25: a reload leaves the caches alone -/

/-- After a query that returned `v`, a query with the same merchant and item
identity on the statics it left returns `v` and leaves them, whatever the rule
list is. -/
theorem getMultiplier_again (statics : Option SessionCache) (entries entries2 : List ConfigEntry)
    (w w2 : World) (u u2 : Sample) (t t2 : Actor) (object object2 : BoundObject)
    (player player2 : Option PlayerCharacter) (v : ℚ) (s1 : SessionCache)
    (h : getMultiplier statics entries w u (some t) (some ⟨some object⟩) player = .ok (v, s1))
    (hmerchant : t2.formID = t.formID) (hitem : object2.formID = object.formID) :
    getMultiplier (some s1) entries2 w2 u2 (some t2) (some ⟨some object2⟩) player2 =
      .ok (v, s1) := by
  have hc := cachedFor_after_query _ _ _ _ _ _ _ _ _ h
  rw [← hmerchant, ← hitem] at hc
  obtain ⟨s, hs, hget⟩ := getMultiplier_hit (some s1) entries2 w2 u2 t2 object2 player2 v hc
  cases hs
  exact hget

/-- C25. (1) `ReloadConfig`, whether it returns true or false, leaves the
statics of the price queries and those of the count queries, that is both
caches and both recorded merchants, as they were.  (2) After a price query
returned `v` and the configuration was reloaded, with whatever result and
whatever rules, a price query with the same merchant and item identity still
returns `v`; (3) the same holds for count queries.  (4) A price query leaves
the statics of the count queries as they were and (5) a count query those of
the price queries; (6) the value a count query returns does not depend on
the statics of the price queries, and (7) conversely. -/
theorem reload_keeps_caches (cm : ConfigManager) :
    (∀ file junk flag next, ReloadConfig cm file junk = .ok (flag, next) →
      next.priceStatics = cm.priceStatics ∧ next.countStatics = cm.countStatics) ∧
    (∀ (w w2 : World) (u u2 : Sample) (t t2 : Actor) (object object2 : BoundObject)
        (player player2 : Option PlayerCharacter) (v : ℚ) (cm1 cm2 : ConfigManager)
        (file : Option ConfigJson) (junk : Int × Int) (flag : Bool),
      GetPriceMultiplier cm w u (some t) (some ⟨some object⟩) player = .ok (v, cm1) →
      ReloadConfig cm1 file junk = .ok (flag, cm2) →
      t2.formID = t.formID → object2.formID = object.formID →
      GetPriceMultiplier cm2 w2 u2 (some t2) (some ⟨some object2⟩) player2 = .ok (v, cm2)) ∧
    (∀ (w w2 : World) (u u2 : Sample) (t t2 : Actor) (object object2 : BoundObject)
        (player player2 : Option PlayerCharacter) (v : ℚ) (cm1 cm2 : ConfigManager)
        (file : Option ConfigJson) (junk : Int × Int) (flag : Bool),
      GetCountMultiplier cm w u (some t) (some ⟨some object⟩) player = .ok (v, cm1) →
      ReloadConfig cm1 file junk = .ok (flag, cm2) →
      t2.formID = t.formID → object2.formID = object.formID →
      GetCountMultiplier cm2 w2 u2 (some t2) (some ⟨some object2⟩) player2 = .ok (v, cm2)) ∧
    (∀ w u trader item player v cm1,
      GetPriceMultiplier cm w u trader item player = .ok (v, cm1) →
      cm1.countStatics = cm.countStatics) ∧
    (∀ w u trader item player v cm1,
      GetCountMultiplier cm w u trader item player = .ok (v, cm1) →
      cm1.priceStatics = cm.priceStatics) ∧
    (∀ (priceStatics : Option SessionCache) w u trader item player,
      (GetCountMultiplier { cm with priceStatics := priceStatics } w u trader item player).map
          (fun r => r.1) =
        (GetCountMultiplier cm w u trader item player).map (fun r => r.1)) ∧
    (∀ (countStatics : Option SessionCache) w u trader item player,
      (GetPriceMultiplier { cm with countStatics := countStatics } w u trader item player).map
          (fun r => r.1) =
        (GetPriceMultiplier cm w u trader item player).map (fun r => r.1)) := by
  refine ⟨?_, ?_, ?_, ?_, ?_, ?_, ?_⟩
  · intro file junk flag next h
    exact (LoadConfig_frame cm next file junk flag h).2
  · intro w w2 u u2 t t2 object object2 player player2 v cm1 cm2 file junk flag hq hre hm hi
    obtain ⟨s1, hq1, hcm1⟩ := GetPriceMultiplier_ok _ _ _ _ _ _ _ _ hq
    have hstat1 : cm1.priceStatics = some s1 := by rw [hcm1]
    have hstat2 : cm2.priceStatics = some s1 := by
      rw [(LoadConfig_frame cm1 cm2 file junk flag hre).2.1, hstat1]
    unfold GetPriceMultiplier
    rw [hstat2, getMultiplier_again _ _ cm2.priceEntries _ w2 _ u2 _ _ _ _ _ player2 _ _ hq1 hm hi]
    simp only [Except.map]
    rw [← hstat2]
  · intro w w2 u u2 t t2 object object2 player player2 v cm1 cm2 file junk flag hq hre hm hi
    obtain ⟨s1, hq1, hcm1⟩ := GetCountMultiplier_ok _ _ _ _ _ _ _ _ hq
    have hstat1 : cm1.countStatics = some s1 := by rw [hcm1]
    have hstat2 : cm2.countStatics = some s1 := by
      rw [(LoadConfig_frame cm1 cm2 file junk flag hre).2.2, hstat1]
    unfold GetCountMultiplier
    rw [hstat2, getMultiplier_again _ _ cm2.countEntries _ w2 _ u2 _ _ _ _ _ player2 _ _ hq1 hm hi]
    simp only [Except.map]
    rw [← hstat2]
  · intro w u trader item player v cm1 hq
    obtain ⟨s1, _, hcm1⟩ := GetPriceMultiplier_ok _ _ _ _ _ _ _ _ hq
    rw [hcm1]
  · intro w u trader item player v cm1 hq
    obtain ⟨s1, _, hcm1⟩ := GetCountMultiplier_ok _ _ _ _ _ _ _ _ hq
    rw [hcm1]
  · intro priceStatics w u trader item player
    unfold GetCountMultiplier
    cases getMultiplier cm.countStatics cm.countEntries w u trader item player <;> rfl
  · intro countStatics w u trader item player
    unfold GetPriceMultiplier
    cases getMultiplier cm.priceStatics cm.priceEntries w u trader item player <;> rfl

/-- C25 on the engine whose only price rule has the value 2: the price of the
iron sword at merchant A is asked, the configuration is reloaded from the
document without rules, and the same query still returns 2. -/
theorem reload_keeps_caches_witness :
    GetPriceMultiplier ⟨pluginPath, [fixedRule 2], [], none, none⟩ emptyWorld lowSample
        (some merchantA) (some ⟨some ⟨7, [], 9, 25⟩⟩) none =
      .ok (2, ⟨pluginPath, [fixedRule 2], [], some ⟨20, [(7, 2)]⟩, none⟩) ∧
    ReloadConfig ⟨pluginPath, [fixedRule 2], [], some ⟨20, [(7, 2)]⟩, none⟩ (some noRules)
        (0, 0) = .ok (true, staleEngine) ∧
    GetPriceMultiplier staleEngine emptyWorld midSample (some merchantA)
        (some ⟨some ⟨7, [], 9, 25⟩⟩) none = .ok (2, staleEngine) :=
  ⟨by decide!, by decide!,
    (reload_keeps_caches ⟨pluginPath, [fixedRule 2], [], none, none⟩).2.1 emptyWorld emptyWorld
      lowSample midSample merchantA merchantA ⟨7, [], 9, 25⟩ ⟨7, [], 9, 25⟩ none none 2
      ⟨pluginPath, [fixedRule 2], [], some ⟨20, [(7, 2)]⟩, none⟩ staleEngine (some noRules)
      (0, 0) true (by decide!) (by decide!) rfl rfl⟩
/-! ## Lemmas on the numbers of binary32 -/

theorem Representable32.zero : Representable32 0 :=
  ⟨0, 0, by norm_num, by norm_num, by norm_num, by norm_num⟩

theorem Representable32.grid {q : ℚ} (h : Representable32 q) :
    ∃ k : ℤ, q = (k : ℚ) * (2 : ℚ) ^ (-149 : ℤ) := by
  obtain ⟨m, e, _, he, _, rfl⟩ := h
  refine ⟨m * 2 ^ (e + 149).toNat, ?_⟩
  have h1 : (2 : ℚ) ^ e = (2 : ℚ) ^ ((e + 149).toNat : ℤ) * (2 : ℚ) ^ (-149 : ℤ) := by
    rw [← zpow_add₀ (by norm_num : (2 : ℚ) ≠ 0)]
    congr 1
    rw [Int.toNat_of_nonneg (by omega)]
    ring
  rw [h1, zpow_natCast]
  push_cast
  ring

theorem Representable32.of_grid (k : ℤ) (hk : |k| < 2 ^ 24) :
    Representable32 ((k : ℚ) * (2 : ℚ) ^ (-149 : ℤ)) :=
  ⟨k, -149, hk, le_refl _, by norm_num, rfl⟩

theorem two_zpow_pos (e : ℤ) : (0 : ℚ) < (2 : ℚ) ^ e := zpow_pos (by norm_num) e

theorem Representable32.abs_le {q : ℚ} (h : Representable32 q) :
    |q| ≤ (2 ^ 24 - 1) * 2 ^ 104 := by
  obtain ⟨m, e, hm, _, he, rfl⟩ := h
  rw [abs_mul, abs_of_pos (two_zpow_pos e)]
  have h1 : (|(m : ℚ)|) ≤ 2 ^ 24 - 1 := by
    have h0 : |m| ≤ 16777215 := by omega
    have h2 : |(m : ℚ)| ≤ 16777215 := by exact_mod_cast h0
    have h3 : (2 : ℚ) ^ 24 - 1 = 16777215 := by norm_num
    rw [h3]
    exact h2
  have h2 : (2 : ℚ) ^ e ≤ 2 ^ 104 := by
    have h0 : (2 : ℚ) ^ e ≤ (2 : ℚ) ^ (104 : ℤ) := zpow_le_zpow_right₀ (by norm_num) he
    have h3 : (2 : ℚ) ^ (104 : ℤ) = 2 ^ 104 := by norm_cast
    rw [h3] at h0
    exact h0
  calc |(m : ℚ)| * (2 : ℚ) ^ e ≤ (2 ^ 24 - 1) * (2 : ℚ) ^ e :=
        mul_le_mul_of_nonneg_right h1 (two_zpow_pos e).le
    _ ≤ (2 ^ 24 - 1) * 2 ^ 104 := mul_le_mul_of_nonneg_left h2 (by norm_num)

theorem Nearest32.le_of_le {x r c : ℚ} (h : Nearest32 x r) (hc : Representable32 c)
    (hx : x ≤ c) : r ≤ c := by
  by_contra hlt
  push_neg at hlt
  have h1 := h.2 c hc
  rw [abs_of_nonneg (by linarith), abs_of_nonneg (by linarith)] at h1
  linarith

theorem Nearest32.ge_of_ge {x r c : ℚ} (h : Nearest32 x r) (hc : Representable32 c)
    (hx : c ≤ x) : c ≤ r := by
  by_contra hlt
  push_neg at hlt
  have h1 := h.2 c hc
  rw [abs_of_nonpos (by linarith), abs_of_nonpos (by linarith)] at h1
  linarith

theorem Nearest32.eq_self {x r : ℚ} (h : Nearest32 x r) (hx : Representable32 x) : r = x := by
  have h1 := h.2 x hx
  simp only [sub_self, abs_zero] at h1
  have := abs_nonneg (r - x)
  have h2 : |r - x| = 0 := le_antisymm h1 this
  have := abs_eq_zero.mp h2
  linarith

theorem normal_aux (n : ℕ) : ∀ m e : ℤ, (e + 149).toNat = n → 0 < m → m < 2 ^ 24 → -149 ≤ e →
    e ≤ 104 → ∃ m1 e1 : ℤ, (m : ℚ) * (2 : ℚ) ^ e = (m1 : ℚ) * (2 : ℚ) ^ e1 ∧ -149 ≤ e1 ∧
      e1 ≤ 104 ∧ 0 < m1 ∧ m1 < 2 ^ 24 ∧ (2 ^ 23 ≤ m1 ∨ e1 = -149) := by
  induction n with
  | zero =>
    intro m e hn hm1 hm2 he1 he2
    exact ⟨m, e, rfl, he1, he2, hm1, hm2, Or.inr (by omega)⟩
  | succ n ih =>
    intro m e hn hm1 hm2 he1 he2
    by_cases h23 : 2 ^ 23 ≤ m
    · exact ⟨m, e, rfl, he1, he2, hm1, hm2, Or.inl h23⟩
    · push_neg at h23
      obtain ⟨m1, e1, heq, h1, h2, h3, h4, h5⟩ :=
        ih (2 * m) (e - 1) (by omega) (by omega) (by omega) (by omega) (by omega)
      refine ⟨m1, e1, ?_, h1, h2, h3, h4, h5⟩
      rw [← heq]
      have : (2 : ℚ) ^ e = 2 * (2 : ℚ) ^ (e - 1) := by
        rw [zpow_sub_one₀ (by norm_num : (2 : ℚ) ≠ 0)]
        field_simp
      rw [this]
      push_cast
      ring

theorem Representable32.normal {d : ℚ} (h : Representable32 d) (hd : 0 < d) :
    ∃ m e : ℤ, d = (m : ℚ) * (2 : ℚ) ^ e ∧ -149 ≤ e ∧ e ≤ 104 ∧ 0 < m ∧ m < 2 ^ 24 ∧
      (2 ^ 23 ≤ m ∨ e = -149) := by
  obtain ⟨m, e, hm, he1, he2, rfl⟩ := h
  have hmpos : 0 < m := by
    by_contra hneg
    push_neg at hneg
    have h1 : (m : ℚ) ≤ 0 := by exact_mod_cast hneg
    have h2 := two_zpow_pos e
    nlinarith
  have hm2 : m < 2 ^ 24 := (abs_lt.mp hm).2
  exact normal_aux _ m e rfl hmpos hm2 he1 he2

theorem Representable32.le_pred_one {u : ℚ} (h : Representable32 u) (h1 : u < 1) :
    u ≤ 1 - (2 : ℚ) ^ (-24 : ℤ) := by
  obtain ⟨m, e, hm, he1, he2, rfl⟩ := h
  have hm2 : m < 2 ^ 24 := (abs_lt.mp hm).2
  have hpos := two_zpow_pos e
  have h24 : (2 : ℚ) ^ (-24 : ℤ) = 1 / 2 ^ 24 := by
    rw [zpow_neg]
    norm_num
  by_cases hm0 : m ≤ 0
  · have : (m : ℚ) ≤ 0 := by exact_mod_cast hm0
    have h3 : (m : ℚ) * (2 : ℚ) ^ e ≤ 0 := mul_nonpos_of_nonpos_of_nonneg this hpos.le
    rw [h24]
    norm_num
    linarith
  · push_neg at hm0
    have hm1 : (1 : ℚ) ≤ m := by exact_mod_cast hm0
    by_cases hcase : -24 ≤ e
    · -- the number times 2 ^ 24 is an integer below 2 ^ 24
      have hsplit : (2 : ℚ) ^ e = (2 : ℚ) ^ ((e + 24).toNat : ℤ) * (2 : ℚ) ^ (-24 : ℤ) := by
        rw [← zpow_add₀ (by norm_num : (2 : ℚ) ≠ 0)]
        congr 1
        rw [Int.toNat_of_nonneg (by omega)]
        ring
      rw [zpow_natCast] at hsplit
      have hN : (m * 2 ^ (e + 24).toNat : ℤ) < 2 ^ 24 := by
        have : ((m * 2 ^ (e + 24).toNat : ℤ) : ℚ) < ((2 ^ 24 : ℤ) : ℚ) := by
          push_cast
          rw [hsplit, h24] at h1
          have h5 : (m : ℚ) * (2 ^ (e + 24).toNat * (1 / 2 ^ 24)) =
              (m : ℚ) * 2 ^ (e + 24).toNat / 2 ^ 24 := by ring
          rw [h5, div_lt_one (by norm_num)] at h1
          exact h1
        exact_mod_cast this
      have hN2 : (m * 2 ^ (e + 24).toNat : ℤ) ≤ 2 ^ 24 - 1 := by omega
      have hN3 : ((m * 2 ^ (e + 24).toNat : ℤ) : ℚ) ≤ ((2 ^ 24 - 1 : ℤ) : ℚ) := by
        exact_mod_cast hN2
      push_cast at hN3
      rw [hsplit, h24]
      have h5 : (m : ℚ) * (2 ^ (e + 24).toNat * (1 / 2 ^ 24)) =
          (m : ℚ) * 2 ^ (e + 24).toNat / 2 ^ 24 := by ring
      rw [h5, div_le_iff₀ (by norm_num)]
      have h6 : (1 - 1 / (2 : ℚ) ^ 24) * 2 ^ 24 = 2 ^ 24 - 1 := by norm_num
      rw [h6]
      have h8 : (2 : ℚ) ^ 24 - 1 = 16777215 := by norm_num
      rw [h8]
      exact hN3
    · push_neg at hcase
      have he : (2 : ℚ) ^ e ≤ (2 : ℚ) ^ (-25 : ℤ) :=
        zpow_le_zpow_right₀ (by norm_num) (by omega)
      have h25 : (2 : ℚ) ^ (-25 : ℤ) = 1 / 2 ^ 25 := by
        rw [zpow_neg]
        norm_num
      have hmq : (m : ℚ) ≤ 2 ^ 24 := by
        have : ((m : ℤ) : ℚ) ≤ ((2 ^ 24 : ℤ) : ℚ) := by exact_mod_cast hm2.le
        simpa using this
      have h7 : (m : ℚ) * (2 : ℚ) ^ e ≤ 2 ^ 24 * (1 / 2 ^ 25) := by
        rw [← h25]
        exact mul_le_mul hmq he hpos.le (by norm_num)
      rw [h24]
      norm_num at h7 ⊢
      linarith

/-- The rounded product of a sample below one and the rounded difference of
the bounds does not exceed the exact difference. -/
theorem sample_le_difference {a b u d p : ℚ} (ha : Representable32 a) (hb : Representable32 b)
    (hab : a ≤ b) (hu0 : 0 ≤ u) (hu1 : u < 1) (hu : Representable32 u)
    (hd : Nearest32 (b - a) d) (hp : Nearest32 (u * d) p) : 0 ≤ p ∧ p ≤ b - a := by
  have hd0 : 0 ≤ d := hd.ge_of_ge Representable32.zero (by linarith)
  have hud : u * d ≤ d := by nlinarith
  have hp0 : 0 ≤ p := hp.ge_of_ge Representable32.zero (mul_nonneg hu0 hd0)
  have hpd : p ≤ d := hp.le_of_le hd.1 hud
  refine ⟨hp0, ?_⟩
  by_contra hlt
  push_neg at hlt
  have hDd : b - a < d := lt_of_lt_of_le hlt hpd
  have h1 := hd.2 p hp.1
  rw [abs_of_pos (by linarith), abs_of_pos (by linarith)] at h1
  have hpeq : p = d := le_antisymm hpd (by linarith)
  rw [hpeq] at hp
  have hdpos : 0 < d := by linarith
  obtain ⟨m, e, hdm, he1, he2, hm0, hm24, hcase⟩ := hd.1.normal hdpos
  have hule := hu.le_pred_one hu1
  have hg : (0 : ℚ) < (2 : ℚ) ^ e := two_zpow_pos e
  by_cases he149 : e = -149
  · -- the difference is itself a number of binary32
    subst he149
    obtain ⟨ka, hka⟩ := ha.grid
    obtain ⟨kb, hkb⟩ := hb.grid
    have hD : b - a = ((kb - ka : ℤ) : ℚ) * (2 : ℚ) ^ (-149 : ℤ) := by
      rw [hka, hkb]
      push_cast
      ring
    have hk0 : 0 ≤ kb - ka := by
      by_contra hneg
      push_neg at hneg
      have : ((kb - ka : ℤ) : ℚ) < 0 := by exact_mod_cast hneg
      have : b - a < 0 := by
        rw [hD]
        exact mul_neg_of_neg_of_pos this hg
      linarith
    have hk1 : kb - ka < m := by
      by_contra hge
      push_neg at hge
      have : (m : ℚ) ≤ ((kb - ka : ℤ) : ℚ) := by exact_mod_cast hge
      have : d ≤ b - a := by
        rw [hD, hdm]
        exact mul_le_mul_of_nonneg_right this hg.le
      linarith
    have hrep : Representable32 (b - a) := by
      rw [hD]
      exact Representable32.of_grid _ (by rw [abs_of_nonneg hk0]; omega)
    have := hd.eq_self hrep
    linarith
  · have h23 : (2 : ℤ) ^ 23 ≤ m := by
      rcases hcase with h | h
      · exact h
      · exact absurd h he149
    have h23q : (2 : ℚ) ^ 23 ≤ m := by exact_mod_cast h23
    have h24 : (2 : ℚ) ^ (-24 : ℤ) = 1 / 2 ^ 24 := by
      rw [zpow_neg]
      norm_num
    rw [h24] at hule
    -- the neighbour below
    have hc1 : Representable32 (((m - 1 : ℤ) : ℚ) * (2 : ℚ) ^ e) :=
      ⟨m - 1, e, by rw [abs_of_nonneg (by omega)]; omega, he1, he2, rfl⟩
    have h2 := hp.2 _ hc1
    have hlow : (2 : ℚ) ^ e / 2 ≤ d - u * d := by
      have h3 : d * (1 / 2 ^ 24) ≤ d - u * d := by nlinarith
      have h4 : (2 : ℚ) ^ e / 2 ≤ d * (1 / 2 ^ 24) := by
        rw [hdm]
        have : (2 : ℚ) ^ 23 * (2 : ℚ) ^ e ≤ (m : ℚ) * (2 : ℚ) ^ e :=
          mul_le_mul_of_nonneg_right h23q hg.le
        have h5 : (2 : ℚ) ^ e / 2 = (2 : ℚ) ^ 23 * (2 : ℚ) ^ e * (1 / 2 ^ 24) := by
          norm_num
          ring
        rw [h5]
        exact mul_le_mul_of_nonneg_right this (by norm_num)
      linarith
    have hc1eq : ((m - 1 : ℤ) : ℚ) * (2 : ℚ) ^ e = d - (2 : ℚ) ^ e := by
      rw [hdm]
      push_cast
      ring
    rw [hc1eq, abs_of_pos (by linarith)] at h2
    by_cases hside : d - (2 : ℚ) ^ e ≤ u * d
    · rw [abs_of_nonpos (by linarith)] at h2
      have hexact : d - u * d = (2 : ℚ) ^ e / 2 := by linarith
      have hm23 : m = 2 ^ 23 := by
        have h3 : d * (1 / 2 ^ 24) ≤ (2 : ℚ) ^ e / 2 := by nlinarith
        rw [hdm] at h3
        have h4 : (m : ℚ) ≤ 2 ^ 23 := by
          have h5 : (m : ℚ) * (2 : ℚ) ^ e * (1 / 2 ^ 24) =
              ((m : ℚ) / 2 ^ 24) * (2 : ℚ) ^ e := by ring
          have h6 : (2 : ℚ) ^ e / 2 = (1 / 2) * (2 : ℚ) ^ e := by ring
          rw [h5, h6] at h3
          have h7 := le_of_mul_le_mul_right h3 hg
          rw [div_le_iff₀ (by norm_num)] at h7
          norm_num at h7 ⊢
          exact h7
        have h8 : m ≤ 2 ^ 23 := by exact_mod_cast h4
        omega
      have hrep : Representable32 (u * d) := by
        refine ⟨2 ^ 24 - 1, e - 1, by norm_num, by omega, by omega, ?_⟩
        have h3 : u * d = d - (2 : ℚ) ^ e / 2 := by linarith
        rw [h3, hdm, hm23, zpow_sub_one₀ (by norm_num : (2 : ℚ) ≠ 0)]
        push_cast
        ring
      have := hp.eq_self hrep
      linarith
    · push_neg at hside
      rw [abs_of_pos (by linarith)] at h2
      linarith

theorem Representable32.neg {q : ℚ} (h : Representable32 q) : Representable32 (-q) := by
  obtain ⟨m, e, hm, he1, he2, rfl⟩ := h
  exact ⟨-m, e, by rwa [abs_neg], he1, he2, by push_cast; ring⟩

theorem Representable32.lt_overflowThreshold {q : ℚ} (h : Representable32 q) :
    |q| < overflowThreshold := by
  have h1 := h.abs_le
  unfold overflowThreshold
  have h2 : ((2 : ℚ) ^ 24 - 1) * 2 ^ 104 < 2 ^ 128 - 2 ^ 103 := by norm_num
  linarith

/-! ## Rounding to binary32 -/

theorem pow2_eq (e : ℤ) : pow2 e = (2 : ℚ) ^ e := by
  unfold pow2
  obtain ⟨n, rfl | rfl⟩ := Int.eq_nat_or_neg e
  · have h : ¬ ((n : ℤ) < 0) := by omega
    rw [if_neg h, Int.natAbs_ofNat, zpow_natCast]
  · by_cases hn : n = 0
    · subst hn
      simp
    · have h : (-(n : ℤ)) < 0 := by omega
      rw [if_pos h, Int.natAbs_neg, Int.natAbs_ofNat, zpow_neg, zpow_natCast]
      simp

theorem lastPlace_range (a : ℚ) (k : ℕ) :
    -149 ≤ lastPlace a k ∧ lastPlace a k ≤ max (-149) ((k : ℤ) - 150) := by
  induction k with
  | zero => simp [lastPlace]
  | succ k ih =>
    unfold lastPlace
    split
    · push_cast
      constructor
      · omega
      · exact le_max_of_le_right (by omega)
    · refine ⟨ih.1, le_trans ih.2 ?_⟩
      push_cast
      exact max_le_max (le_refl _) (by omega)

theorem lastPlace_top (a : ℚ) (k : ℕ) (h : pow2 ((k : ℤ) - 126) ≤ a) :
    lastPlace a (k + 1) = (k : ℤ) - 149 := by
  simp [lastPlace, h]

theorem lastPlace_upper (a : ℚ) (k : ℕ) (h : a < pow2 ((k : ℤ) - 126)) :
    a < (2 : ℚ) ^ (lastPlace a k + 24) := by
  induction k with
  | zero =>
    rw [pow2_eq] at h
    simp only [lastPlace]
    have : (2 : ℚ) ^ (((0 : ℕ) : ℤ) - 126) ≤ (2 : ℚ) ^ ((-149 : ℤ) + 24) :=
      zpow_le_zpow_right₀ (by norm_num) (by norm_num)
    linarith
  | succ k ih =>
    unfold lastPlace
    split
    · rw [pow2_eq] at h
      have : ((k + 1 : ℕ) : ℤ) - 126 = (k : ℤ) - 149 + 24 := by push_cast; ring
      rw [this] at h
      exact h
    · rename_i hlt
      push_neg at hlt
      exact ih hlt

theorem roundHalfEven_bounds (x : ℚ) : ⌊x⌋ ≤ roundHalfEven x ∧ roundHalfEven x ≤ ⌊x⌋ + 1 := by
  unfold roundHalfEven
  simp only
  split
  · omega
  · split
    · omega
    · split <;> omega

/-- A multiple of a power of two below `2 ^ 128`, whose factor is at most
`2 ^ 24`, is a number of binary32. -/
theorem representable_of_multiple (n e : ℤ) (hn0 : 0 ≤ n) (hn : n ≤ 2 ^ 24) (he1 : -149 ≤ e)
    (he2 : e ≤ 104) (hlt : (n : ℚ) * (2 : ℚ) ^ e < (2 : ℚ) ^ (128 : ℤ)) :
    Representable32 ((n : ℚ) * (2 : ℚ) ^ e) := by
  by_cases h24 : n = 2 ^ 24
  · subst h24
    have he3 : e ≠ 104 := by
      rintro rfl
      norm_num at hlt
    refine ⟨2 ^ 23, e + 1, by norm_num, by omega, by omega, ?_⟩
    rw [zpow_add_one₀ (by norm_num : (2 : ℚ) ≠ 0)]
    push_cast
    ring
  · exact ⟨n, e, by rw [abs_of_nonneg hn0]; omega, he1, he2, rfl⟩

/-- What the rounding keeps when it does not overflow is a number of
binary32. -/
theorem roundToQuantum_representable (a : ℚ) (ha : 0 ≤ a)
    (hover : ¬ pow2 128 ≤ roundToQuantum a (lastPlace a 254)) :
    Representable32 (roundToQuantum a (lastPlace a 254)) := by
  unfold roundToQuantum at hover ⊢
  rw [pow2_eq] at hover ⊢
  rw [pow2_eq] at hover
  push_neg at hover
  have hrange := lastPlace_range a 254
  have he2 : lastPlace a 254 ≤ 104 := by
    have := hrange.2
    norm_num at this
    exact this
  have hg := two_zpow_pos (lastPlace a 254)
  have hb := roundHalfEven_bounds (a / (2 : ℚ) ^ lastPlace a 254)
  have hx0 : 0 ≤ a / (2 : ℚ) ^ lastPlace a 254 := div_nonneg ha hg.le
  have hn0 : 0 ≤ roundHalfEven (a / (2 : ℚ) ^ lastPlace a 254) :=
    le_trans (Int.floor_nonneg.mpr hx0) hb.1
  refine representable_of_multiple _ _ hn0 ?_ hrange.1 he2 hover
  by_cases hbig : a < pow2 ((254 : ℕ) - 126)
  · have hup := lastPlace_upper a 254 hbig
    have hx : a / (2 : ℚ) ^ lastPlace a 254 < ((2 ^ 24 : ℤ) : ℚ) := by
      rw [div_lt_iff₀ hg]
      rw [zpow_add₀ (by norm_num : (2 : ℚ) ≠ 0)] at hup
      have h24 : (2 : ℚ) ^ (24 : ℤ) = ((2 ^ 24 : ℤ) : ℚ) := by norm_cast
      rw [h24] at hup
      linarith
    have hfl : ⌊a / (2 : ℚ) ^ lastPlace a 254⌋ < 2 ^ 24 := Int.floor_lt.mpr hx
    omega
  · exfalso
    push_neg at hbig
    have htop : lastPlace a 254 = 104 := by
      have h127 : pow2 (((253 : ℕ) : ℤ) - 126) ≤ a := by
        refine le_trans ?_ hbig
        rw [pow2_eq, pow2_eq]
        exact zpow_le_zpow_right₀ (by norm_num) (by norm_num)
      have := lastPlace_top a 253 h127
      norm_num at this
      exact this
    rw [htop] at hover hb
    rw [pow2_eq] at hbig
    have h1 : (((254 : ℕ) : ℤ) - 126) = 128 := by norm_num
    rw [h1] at hbig
    have h104 : (0 : ℚ) < (2 : ℚ) ^ (104 : ℤ) := two_zpow_pos 104
    have hsplit : (2 : ℚ) ^ (128 : ℤ) = ((2 ^ 24 : ℤ) : ℚ) * (2 : ℚ) ^ (104 : ℤ) := by
      have : (128 : ℤ) = 24 + 104 := by norm_num
      rw [this, zpow_add₀ (by norm_num : (2 : ℚ) ≠ 0)]
      norm_cast
    have hx : ((2 ^ 24 : ℤ) : ℚ) ≤ a / (2 : ℚ) ^ (104 : ℤ) := by
      rw [le_div_iff₀ h104, ← hsplit]
      exact hbig
    have hfl : (2 : ℤ) ^ 24 ≤ ⌊a / (2 : ℚ) ^ (104 : ℤ)⌋ := Int.le_floor.mpr hx
    have hn : ((2 ^ 24 : ℤ) : ℚ) ≤ (roundHalfEven (a / (2 : ℚ) ^ (104 : ℤ)) : ℚ) := by
      exact_mod_cast le_trans hfl hb.1
    have h5 : (2 : ℚ) ^ (128 : ℤ) ≤
        (roundHalfEven (a / (2 : ℚ) ^ (104 : ℤ)) : ℚ) * (2 : ℚ) ^ (104 : ℤ) := by
      rw [hsplit]
      exact mul_le_mul_of_nonneg_right hn h104.le
    linarith

/-! ## Overflow of the rounding -/

theorem roundHalfEven_ge (x : ℚ) (n : ℤ) (heven : n % 2 = 0) (h : (n : ℚ) - 1 / 2 ≤ x) :
    n ≤ roundHalfEven x := by
  have hb := roundHalfEven_bounds x
  by_cases hfl : n ≤ ⌊x⌋
  · exact le_trans hfl hb.1
  · push_neg at hfl
    have h1 : n - 1 ≤ ⌊x⌋ := by
      apply Int.le_floor.mpr
      push_cast
      linarith
    have hfeq : ⌊x⌋ = n - 1 := by omega
    have hd : (1 : ℚ) / 2 ≤ x - ((⌊x⌋ : ℤ) : ℚ) := by
      rw [hfeq]
      push_cast
      linarith
    unfold roundHalfEven
    simp only
    rw [if_neg (not_lt.mpr hd)]
    split
    · omega
    · rw [hfeq]
      have : ¬ ((n - 1) % 2 = 0) := by omega
      rw [if_neg this]
      omega

theorem roundHalfEven_le (x : ℚ) (n : ℤ) (h : x < (n : ℚ) - 1 / 2) :
    roundHalfEven x ≤ n - 1 := by
  have hb := roundHalfEven_bounds x
  have hfl : ⌊x⌋ ≤ n - 1 := by
    have : ⌊x⌋ < n := by
      apply Int.floor_lt.mpr
      linarith
    omega
  by_cases hcase : ⌊x⌋ ≤ n - 2
  · omega
  · have hfeq : ⌊x⌋ = n - 1 := by omega
    have hd : x - ((⌊x⌋ : ℤ) : ℚ) < 1 / 2 := by
      rw [hfeq]
      push_cast
      linarith
    unfold roundHalfEven
    simp only
    rw [if_pos hd]
    exact hfl

theorem roundHalfEven_eq_self_iff (x : ℚ) : (roundHalfEven x : ℚ) = x ↔ ∃ k : ℤ, x = k := by
  constructor
  · intro h
    exact ⟨_, h.symm⟩
  · rintro ⟨k, rfl⟩
    unfold roundHalfEven
    simp

theorem lastPlace_subnormal (a : ℚ) (h : a < pow2 (-126)) (k : ℕ) : lastPlace a k = -149 := by
  induction k with
  | zero => rfl
  | succ k ih =>
    unfold lastPlace
    have : ¬ pow2 ((k : ℤ) - 126) ≤ a := by
      push_neg
      refine lt_of_lt_of_le h ?_
      rw [pow2_eq, pow2_eq]
      exact zpow_le_zpow_right₀ (by norm_num) (by omega)
    rw [if_neg this]
    exact ih

/-- The conversion overflows exactly from the halfway point between the
largest number of binary32 and `2 ^ 128` on. -/
theorem overflow_iff (a : ℚ) :
    pow2 128 ≤ roundToQuantum a (lastPlace a 254) ↔ overflowThreshold ≤ a := by
  have h104 : (0 : ℚ) < (2 : ℚ) ^ (104 : ℤ) := two_zpow_pos 104
  have hsplit : (2 : ℚ) ^ (128 : ℤ) = ((2 ^ 24 : ℤ) : ℚ) * (2 : ℚ) ^ (104 : ℤ) := by
    have : (128 : ℤ) = 24 + 104 := by norm_num
    rw [this, zpow_add₀ (by norm_num : (2 : ℚ) ≠ 0)]
    norm_cast
  have hthr : overflowThreshold = (((2 ^ 24 : ℤ) : ℚ) - 1 / 2) * (2 : ℚ) ^ (104 : ℤ) := by
    unfold overflowThreshold
    have : (2 : ℚ) ^ (104 : ℤ) = 2 ^ 104 := by norm_cast
    rw [this]
    norm_num
  rw [pow2_eq]
  unfold roundToQuantum
  rw [pow2_eq]
  constructor
  · intro hover
    by_contra hlt
    push_neg at hlt
    have hrange := lastPlace_range a 254
    have he2 : lastPlace a 254 ≤ 104 := by
      have := hrange.2
      norm_num at this
      exact this
    have hg := two_zpow_pos (lastPlace a 254)
    have hb := roundHalfEven_bounds (a / (2 : ℚ) ^ lastPlace a 254)
    have hbig : a < pow2 (((254 : ℕ) : ℤ) - 126) := by
      rw [pow2_eq]
      have h1 : (((254 : ℕ) : ℤ) - 126) = 128 := by norm_num
      rw [h1, hsplit]
      rw [hthr] at hlt
      nlinarith
    have hup := lastPlace_upper a 254 hbig
    have hx : a / (2 : ℚ) ^ lastPlace a 254 < ((2 ^ 24 : ℤ) : ℚ) := by
      rw [div_lt_iff₀ hg]
      rw [zpow_add₀ (by norm_num : (2 : ℚ) ≠ 0)] at hup
      have h24 : (2 : ℚ) ^ (24 : ℤ) = ((2 ^ 24 : ℤ) : ℚ) := by norm_cast
      rw [h24] at hup
      linarith
    have hfl : ⌊a / (2 : ℚ) ^ lastPlace a 254⌋ < 2 ^ 24 := Int.floor_lt.mpr hx
    have hn : roundHalfEven (a / (2 : ℚ) ^ lastPlace a 254) ≤ 2 ^ 24 := by omega
    have hnq : (roundHalfEven (a / (2 : ℚ) ^ lastPlace a 254) : ℚ) ≤ ((2 ^ 24 : ℤ) : ℚ) := by
      exact_mod_cast hn
    -- the last place is the top one
    have he104 : lastPlace a 254 = 104 := by
      by_contra hne
      have hlt103 : lastPlace a 254 ≤ 103 := by omega
      have h103 : (2 : ℚ) ^ lastPlace a 254 ≤ (2 : ℚ) ^ (103 : ℤ) :=
        zpow_le_zpow_right₀ (by norm_num) hlt103
      have h1 : (roundHalfEven (a / (2 : ℚ) ^ lastPlace a 254) : ℚ) *
          (2 : ℚ) ^ lastPlace a 254 ≤ ((2 ^ 24 : ℤ) : ℚ) * (2 : ℚ) ^ (103 : ℤ) :=
        mul_le_mul hnq h103 hg.le (by norm_num)
      have h2 : ((2 ^ 24 : ℤ) : ℚ) * (2 : ℚ) ^ (103 : ℤ) < (2 : ℚ) ^ (128 : ℤ) := by
        rw [hsplit]
        have : (2 : ℚ) ^ (103 : ℤ) < (2 : ℚ) ^ (104 : ℤ) :=
          zpow_lt_zpow_right₀ (by norm_num) (by norm_num)
        nlinarith
      linarith
    rw [he104] at hover
    have hx2 : a / (2 : ℚ) ^ (104 : ℤ) < ((2 ^ 24 : ℤ) : ℚ) - 1 / 2 := by
      rw [div_lt_iff₀ h104, ← hthr]
      exact hlt
    have hn2 := roundHalfEven_le _ _ hx2
    have hn2q : (roundHalfEven (a / (2 : ℚ) ^ (104 : ℤ)) : ℚ) ≤ ((2 ^ 24 - 1 : ℤ) : ℚ) := by
      exact_mod_cast hn2
    have h3 : (roundHalfEven (a / (2 : ℚ) ^ (104 : ℤ)) : ℚ) * (2 : ℚ) ^ (104 : ℤ) ≤
        ((2 ^ 24 - 1 : ℤ) : ℚ) * (2 : ℚ) ^ (104 : ℤ) :=
      mul_le_mul_of_nonneg_right hn2q h104.le
    rw [hsplit] at hover
    push_cast at h3 hover
    nlinarith
  · intro hge
    have h127 : pow2 (((253 : ℕ) : ℤ) - 126) ≤ a := by
      refine le_trans ?_ hge
      rw [pow2_eq, hthr]
      have h1 : (((253 : ℕ) : ℤ) - 126) = 127 := by norm_num
      have h2 : (2 : ℚ) ^ (127 : ℤ) = ((2 ^ 23 : ℤ) : ℚ) * (2 : ℚ) ^ (104 : ℤ) := by
        have : (127 : ℤ) = 23 + 104 := by norm_num
        rw [this, zpow_add₀ (by norm_num : (2 : ℚ) ≠ 0)]
        norm_cast
      rw [h1, h2]
      exact mul_le_mul_of_nonneg_right (by norm_num) h104.le
    have htop : lastPlace a 254 = 104 := by
      have := lastPlace_top a 253 h127
      norm_num at this
      exact this
    rw [htop]
    have hx : ((2 ^ 24 : ℤ) : ℚ) - 1 / 2 ≤ a / (2 : ℚ) ^ (104 : ℤ) := by
      rw [le_div_iff₀ h104, ← hthr]
      exact hge
    have hn := roundHalfEven_ge _ (2 ^ 24) (by norm_num) hx
    have hnq : ((2 ^ 24 : ℤ) : ℚ) ≤ (roundHalfEven (a / (2 : ℚ) ^ (104 : ℤ)) : ℚ) := by
      exact_mod_cast hn
    rw [hsplit]
    exact mul_le_mul_of_nonneg_right hnq h104.le

/-! ## The rounding is to nearest -/

theorem roundHalfEven_nearest (x : ℚ) (k : ℤ) :
    |(roundHalfEven x : ℚ) - x| ≤ |(k : ℚ) - x| := by
  have hfl : ((⌊x⌋ : ℤ) : ℚ) ≤ x := Int.floor_le x
  have hfl2 : x < ((⌊x⌋ : ℤ) : ℚ) + 1 := Int.lt_floor_add_one x
  have hk : |(k : ℚ) - x| ≥ min (x - ((⌊x⌋ : ℤ) : ℚ)) (((⌊x⌋ : ℤ) : ℚ) + 1 - x) := by
    by_cases hcase : k ≤ ⌊x⌋
    · have : (k : ℚ) ≤ ((⌊x⌋ : ℤ) : ℚ) := by exact_mod_cast hcase
      rw [abs_of_nonpos (by linarith)]
      exact le_trans (min_le_left _ _) (by linarith)
    · push_neg at hcase
      have h1 : ⌊x⌋ + 1 ≤ k := hcase
      have : ((⌊x⌋ : ℤ) : ℚ) + 1 ≤ (k : ℚ) := by exact_mod_cast h1
      rw [abs_of_nonneg (by linarith)]
      exact le_trans (min_le_right _ _) (by linarith)
  have hn : |(roundHalfEven x : ℚ) - x| = min (x - ((⌊x⌋ : ℤ) : ℚ)) (((⌊x⌋ : ℤ) : ℚ) + 1 - x) := by
    unfold roundHalfEven
    simp only
    split
    · rename_i hd
      rw [abs_of_nonpos (by linarith), min_eq_left (by linarith)]
      ring
    · rename_i hd
      push_neg at hd
      split
      · rename_i hd2
        push_cast
        rw [abs_of_nonneg (by linarith), min_eq_right (by linarith)]
      · rename_i hd2
        push_neg at hd2
        have hd3 : x - ((⌊x⌋ : ℤ) : ℚ) = 1 / 2 := le_antisymm hd2 hd
        split
        · rw [abs_of_nonpos (by linarith), min_eq_left (by linarith)]
          ring
        · push_cast
          rw [abs_of_nonneg (by linarith), min_eq_right (by linarith)]
  rw [hn]
  exact hk

theorem lastPlace_lower (a : ℚ) (k : ℕ) (h : lastPlace a k ≠ -149) :
    (2 : ℚ) ^ (lastPlace a k + 23) ≤ a := by
  induction k with
  | zero => exact absurd rfl h
  | succ k ih =>
    unfold lastPlace at h ⊢
    split
    · rename_i hle
      rw [pow2_eq] at hle
      have : (k : ℤ) - 149 + 23 = (k : ℤ) - 126 := by ring
      rw [this]
      exact hle
    · rename_i hlt
      rw [if_neg hlt] at h
      exact ih h

/-- The multiple of the last place that the conversion takes is a number of
binary32 nearest to the positive number converted. -/
theorem roundToQuantum_nearest (a c : ℚ) (hc : Representable32 c) :
    |roundToQuantum a (lastPlace a 254) - a| ≤ |c - a| := by
  have hg := two_zpow_pos (lastPlace a 254)
  have hmult : ∀ k : ℤ, |roundToQuantum a (lastPlace a 254) - a| ≤
      |(k : ℚ) * (2 : ℚ) ^ lastPlace a 254 - a| := by
    intro k
    unfold roundToQuantum
    rw [pow2_eq]
    have h1 := roundHalfEven_nearest (a / (2 : ℚ) ^ lastPlace a 254) k
    have h2 : ∀ y : ℚ, y * (2 : ℚ) ^ lastPlace a 254 - a =
        (y - a / (2 : ℚ) ^ lastPlace a 254) * (2 : ℚ) ^ lastPlace a 254 := by
      intro y
      field_simp
    rw [h2, h2, abs_mul, abs_mul, abs_of_pos hg]
    exact mul_le_mul_of_nonneg_right h1 hg.le
  obtain ⟨m, e, hm, he1, he2, rfl⟩ := hc
  by_cases hcase : lastPlace a 254 ≤ e
  · -- the number is a multiple of the last place
    have hsplit : (2 : ℚ) ^ e =
        (2 : ℚ) ^ ((e - lastPlace a 254).toNat : ℤ) * (2 : ℚ) ^ lastPlace a 254 := by
      rw [← zpow_add₀ (by norm_num : (2 : ℚ) ≠ 0)]
      congr 1
      rw [Int.toNat_of_nonneg (by omega)]
      ring
    have := hmult (m * 2 ^ (e - lastPlace a 254).toNat)
    rw [hsplit, zpow_natCast]
    push_cast at this
    rw [← mul_assoc]
    exact this
  · push_neg at hcase
    have hne : lastPlace a 254 ≠ -149 := by omega
    have hlow := lastPlace_lower a 254 hne
    have hL := hmult (2 ^ 23)
    have hLeq : ((2 ^ 23 : ℤ) : ℚ) * (2 : ℚ) ^ lastPlace a 254 =
        (2 : ℚ) ^ (lastPlace a 254 + 23) := by
      rw [zpow_add₀ (by norm_num : (2 : ℚ) ≠ 0)]
      norm_cast
      ring
    have hL2 : |(2 : ℚ) ^ (lastPlace a 254 + 23) - a| = a - (2 : ℚ) ^ (lastPlace a 254 + 23) := by
      rw [abs_of_nonpos (by linarith)]
      ring
    rw [hLeq, hL2] at hL
    have hcabs : (m : ℚ) * (2 : ℚ) ^ e < (2 : ℚ) ^ (lastPlace a 254 + 23) := by
      have h1 : (m : ℚ) < ((2 ^ 24 : ℤ) : ℚ) := by exact_mod_cast (abs_lt.mp hm).2
      have h2 : (2 : ℚ) ^ e ≤ (2 : ℚ) ^ (lastPlace a 254 - 1) :=
        zpow_le_zpow_right₀ (by norm_num) (by omega)
      have h3 : (2 : ℚ) ^ (lastPlace a 254 + 23) =
          ((2 ^ 24 : ℤ) : ℚ) * (2 : ℚ) ^ (lastPlace a 254 - 1) := by
        have : lastPlace a 254 + 23 = 24 + (lastPlace a 254 - 1) := by ring
        rw [this, zpow_add₀ (by norm_num : (2 : ℚ) ≠ 0)]
        norm_cast
      rw [h3]
      have he := two_zpow_pos e
      have hp := two_zpow_pos (lastPlace a 254 - 1)
      by_cases hm0 : (m : ℚ) ≤ 0
      · have : (m : ℚ) * (2 : ℚ) ^ e ≤ 0 := mul_nonpos_of_nonpos_of_nonneg hm0 he.le
        have : 0 < ((2 ^ 24 : ℤ) : ℚ) * (2 : ℚ) ^ (lastPlace a 254 - 1) :=
          mul_pos (by norm_num) hp
        linarith
      · push_neg at hm0
        calc (m : ℚ) * (2 : ℚ) ^ e ≤ (m : ℚ) * (2 : ℚ) ^ (lastPlace a 254 - 1) :=
              mul_le_mul_of_nonneg_left h2 hm0.le
          _ < ((2 ^ 24 : ℤ) : ℚ) * (2 : ℚ) ^ (lastPlace a 254 - 1) :=
              mul_lt_mul_of_pos_right h1 hp
    rw [abs_of_nonpos (a := (m : ℚ) * (2 : ℚ) ^ e - a) (by linarith)]
    linarith

/-! ## The values of the rounding -/

/-- Below the overflow threshold the rounding yields a number of binary32
nearest to the exact result. -/
theorem roundBinary32_finite (x : ℚ) (hx : |x| < overflowThreshold) :
    ∃ r, roundBinary32 x = .finite r ∧ Nearest32 x r := by
  have hov : ¬ pow2 128 ≤ roundToQuantum |x| (lastPlace |x| 254) := fun h =>
    absurd ((overflow_iff |x|).mp h) (not_le.mpr hx)
  have hrep := roundToQuantum_representable |x| (abs_nonneg x) hov
  unfold roundBinary32
  simp only
  rw [if_neg hov]
  refine ⟨_, rfl, ?_⟩
  split
  · rename_i hneg
    refine ⟨hrep.neg, fun c hc => ?_⟩
    have h1 := roundToQuantum_nearest |x| (-c) hc.neg
    rw [abs_of_neg hneg] at h1 ⊢
    have e1 : -roundToQuantum (-x) (lastPlace (-x) 254) - x =
        -(roundToQuantum (-x) (lastPlace (-x) 254) - -x) := by ring
    have e2 : c - x = -(-c - -x) := by ring
    rw [e1, e2, abs_neg, abs_neg]
    exact h1
  · rename_i hneg
    push_neg at hneg
    refine ⟨hrep, fun c hc => ?_⟩
    have h1 := roundToQuantum_nearest |x| c hc
    rw [abs_of_nonneg hneg] at h1 ⊢
    exact h1

/-- From the overflow threshold on the rounding yields the infinity of the
sign of the exact result. -/
theorem roundBinary32_infinite (x : ℚ) (hx : overflowThreshold ≤ |x|) :
    roundBinary32 x = .infinite (decide (x < 0)) := by
  unfold roundBinary32
  simp only
  rw [if_pos ((overflow_iff |x|).mpr hx)]

/-- A number of binary32 is rounded to itself. -/
theorem roundBinary32_self (x : ℚ) (hx : Representable32 x) : roundBinary32 x = .finite x := by
  obtain ⟨r, hr, hn⟩ := roundBinary32_finite x hx.lt_overflowThreshold
  rw [hr, hn.eq_self hx]

/-! ## The conversion of `strtof` -/

/-- The only fault of the conversion is the range error. -/
theorem convertBinary32_fault (q : ℚ) (f : Fault) (h : convertBinary32 q = .error f) :
    f = .out_of_range := by
  unfold convertBinary32 at h
  split at h
  · split at h
    · cases h; rfl
    · cases h
  · cases h; rfl

/-- What the conversion returns is a number of binary32 nearest to the
number written. -/
theorem convertBinary32_nearest (q v : ℚ) (h : convertBinary32 q = .ok v) : Nearest32 q v := by
  unfold convertBinary32 at h
  split at h
  · rename_i r hr
    split at h
    · cases h
    · simp only [Except.ok.injEq] at h
      subst h
      by_cases hx : |q| < overflowThreshold
      · obtain ⟨r2, hr2, hn⟩ := roundBinary32_finite q hx
        rw [hr] at hr2
        cases hr2
        exact hn
      · rw [roundBinary32_infinite q (not_lt.mp hx)] at hr
        cases hr
  · cases h

theorem convertBinary32_representable (q v : ℚ) (h : convertBinary32 q = .ok v) :
    Representable32 v :=
  (convertBinary32_nearest q v h).1

theorem stof_representable (s : Str) (v : ℚ) (h : stof s = .ok v) : Representable32 v := by
  unfold stof at h
  split at h
  · cases h
  · exact convertBinary32_representable _ _ h
  · cases h

theorem stof_nearest (s : Str) (q : ℚ) (rest : Str) (v : ℚ)
    (hs : scanNumber s = some (.number q, rest)) (h : stof s = .ok v) : Nearest32 q v := by
  unfold stof at h
  rw [hs] at h
  exact convertBinary32_nearest q v h

/-- The range errors of the conversion: the number written rounds beyond the
largest number of binary32, or it is below the least normal number even
after rounding to 24 bits and is not a number of binary32. -/
theorem convertBinary32_error_iff (q : ℚ) :
    convertBinary32 q = .error .out_of_range ↔
      overflowThreshold ≤ |q| ∨
        (0 < |q| ∧ |q| < (2 : ℚ) ^ (-126 : ℤ) - (2 : ℚ) ^ (-151 : ℤ) ∧
          ¬ ∃ k : ℤ, |q| = (k : ℚ) * (2 : ℚ) ^ (-149 : ℤ)) := by
  by_cases hover : overflowThreshold ≤ |q|
  · unfold convertBinary32
    rw [roundBinary32_infinite q hover]
    simp [hover]
  · push_neg at hover
    have hov : ¬ pow2 128 ≤ roundToQuantum |q| (lastPlace |q| 254) := fun h =>
      absurd ((overflow_iff |q|).mp h) (not_le.mpr hover)
    have hround : roundBinary32 q = .finite
        (if q < 0 then -roundToQuantum |q| (lastPlace |q| 254)
          else roundToQuantum |q| (lastPlace |q| 254)) := by
      unfold roundBinary32
      simp only
      rw [if_neg hov]
    unfold convertBinary32
    rw [hround]
    simp only
    have htiny : (2 : ℚ) ^ (-126 : ℤ) - (2 : ℚ) ^ (-151 : ℤ) < pow2 (-126) := by
      rw [pow2_eq]
      have := two_zpow_pos (-151)
      linarith
    by_cases hsmall : |q| < pow2 (-126) - pow2 (-151)
    · have hsmall2 : |q| < (2 : ℚ) ^ (-126 : ℤ) - (2 : ℚ) ^ (-151 : ℤ) := by
        rw [pow2_eq, pow2_eq] at hsmall
        exact hsmall
      have hlp := lastPlace_subnormal |q| (lt_trans hsmall2 htiny) 254
      rw [hlp]
      have hexact : roundToQuantum |q| (-149) = |q| ↔
          ∃ k : ℤ, |q| = (k : ℚ) * (2 : ℚ) ^ (-149 : ℤ) := by
        unfold roundToQuantum
        rw [pow2_eq]
        constructor
        · intro h
          exact ⟨_, h.symm⟩
        · rintro ⟨k, hk⟩
          have hx : |q| / (2 : ℚ) ^ (-149 : ℤ) = k := by
            rw [hk]
            field_simp
          rw [hx, (roundHalfEven_eq_self_iff (k : ℚ)).mpr ⟨k, rfl⟩, hk]
      have hsign : (if q < 0 then -roundToQuantum |q| (-149) else roundToQuantum |q| (-149)) = q ↔
          roundToQuantum |q| (-149) = |q| := by
        split
        · rename_i hneg
          rw [abs_of_neg hneg]
          constructor <;> intro h <;> linarith
        · rename_i hneg
          push_neg at hneg
          rw [abs_of_nonneg hneg]
      by_cases hex : roundToQuantum |q| (-149) = |q|
      · have hk := hexact.mp hex
        have hc : ¬ ((decide (|q| < pow2 (-126) - pow2 (-151)) &&
            (if q < 0 then -roundToQuantum |q| (-149) else roundToQuantum |q| (-149)) != q)
              = true) := by
          simp [hsign.mpr hex]
        rw [if_neg hc]
        constructor
        · intro h
          cases h
        · rintro (h | ⟨_, _, h⟩)
          · exact absurd h (not_le.mpr hover)
          · exact absurd hk h
      · have hk : ¬ ∃ k : ℤ, |q| = (k : ℚ) * (2 : ℚ) ^ (-149 : ℤ) := fun h =>
          hex (hexact.mpr h)
        have hq0 : 0 < |q| := by
          rcases (abs_nonneg q).lt_or_eq with h | h
          · exact h
          · exact absurd ⟨0, by rw [← h]; simp⟩ hk
        have hne : ¬ (if q < 0 then -roundToQuantum |q| (-149)
            else roundToQuantum |q| (-149)) = q := fun h => hex (hsign.mp h)
        have hc : (decide (|q| < pow2 (-126) - pow2 (-151)) &&
            (if q < 0 then -roundToQuantum |q| (-149) else roundToQuantum |q| (-149)) != q)
              = true := by
          simp [hsmall, hne]
        rw [if_pos hc]
        exact ⟨fun _ => Or.inr ⟨hq0, hsmall2, hk⟩, fun _ => rfl⟩
    · have hsmall2 : ¬ |q| < (2 : ℚ) ^ (-126 : ℤ) - (2 : ℚ) ^ (-151 : ℤ) := by
        rw [pow2_eq, pow2_eq] at hsmall
        exact hsmall
      have hc : ¬ ((decide (|q| < pow2 (-126) - pow2 (-151)) &&
          (if q < 0 then -roundToQuantum |q| (lastPlace |q| 254)
            else roundToQuantum |q| (lastPlace |q| 254)) != q) = true) := by
        simp [hsmall]
      rw [if_neg hc]
      constructor
      · intro h
        cases h
      · rintro (h | ⟨_, h, _⟩)
        · exact absurd h (not_le.mpr hover)
        · exact absurd h hsmall2

/-! ## Sampling in binary32 -/

/-- The three operations of a ranged sample, written out. -/
theorem GetRandomValueBinary32_range (a b : ℚ) (u : Sample) :
    (ValueRange.mk a b true).GetRandomValueBinary32 u =
      Binary32.add (Binary32.mul (.finite u.val) (roundBinary32 (b - a))) (.finite a) := by
  simp [ValueRange.GetRandomValueBinary32, Binary32.sub, Binary32.neg, Binary32.add,
    sub_eq_add_neg]

/-- The three roundings of a ranged sample without overflow of the
difference. -/
theorem sample_roundings (a b : ℚ) (u : Sample) (ha : Representable32 a)
    (hb : Representable32 b) (hab : a ≤ b) (hno : b - a < overflowThreshold)
    (hu : Representable32 u.val) :
    ∃ d p q, Nearest32 (b - a) d ∧ Nearest32 (u.val * d) p ∧ Nearest32 (p + a) q ∧
      (ValueRange.mk a b true).GetRandomValueBinary32 u = .finite q ∧ a ≤ q ∧ q ≤ b := by
  obtain ⟨d, hd, hdn⟩ := roundBinary32_finite (b - a)
    (by rw [abs_of_nonneg (by linarith)]; exact hno)
  have hd0 : 0 ≤ d := hdn.ge_of_ge Representable32.zero (by linarith)
  have hud : |u.val * d| < overflowThreshold := by
    have h1 := hdn.1.lt_overflowThreshold
    rw [abs_of_nonneg hd0] at h1
    rw [abs_of_nonneg (mul_nonneg u.nonneg hd0)]
    have := u.lt_one
    nlinarith [u.nonneg]
  obtain ⟨p, hp, hpn⟩ := roundBinary32_finite (u.val * d) hud
  obtain ⟨hp0, hpD⟩ := sample_le_difference ha hb hab u.nonneg u.lt_one hu hdn hpn
  have hsum : |p + a| < overflowThreshold := by
    have h1 := ha.lt_overflowThreshold
    have h2 := hb.lt_overflowThreshold
    rw [abs_lt] at h1 h2 ⊢
    constructor <;> linarith
  obtain ⟨q, hq, hqn⟩ := roundBinary32_finite (p + a) hsum
  refine ⟨d, p, q, hdn, hpn, hqn, ?_, hqn.ge_of_ge ha (by linarith),
    hqn.le_of_le hb (by linarith)⟩
  rw [GetRandomValueBinary32_range, hd]
  simp only [Binary32.mul, hp, Binary32.add, hq]

/-- A range whose bounds are one number of binary32 has that number for its
only sample. -/
theorem sample_degenerate (a : ℚ) (u : Sample) (ha : Representable32 a) :
    (ValueRange.mk a a true).GetRandomValueBinary32 u = .finite a := by
  rw [GetRandomValueBinary32_range, sub_self, roundBinary32_self 0 Representable32.zero]
  simp only [Binary32.mul, mul_zero, roundBinary32_self 0 Representable32.zero, Binary32.add,
    zero_add, roundBinary32_self a ha]

/-- When the difference of the bounds overflows binary32, no sample is a
number: each is the positive infinity, or a NaN when the engine output is
zero. -/
theorem sample_overflow (a b : ℚ) (u : Sample) (hover : overflowThreshold ≤ b - a) :
    (ValueRange.mk a b true).GetRandomValueBinary32 u =
      if u.val = 0 then .nan else .infinite false := by
  have hT : (0 : ℚ) < overflowThreshold := by
    unfold overflowThreshold
    norm_num
  have hpos : 0 < b - a := lt_of_lt_of_le hT hover
  have hneg : ¬ u.val < 0 := not_lt.mpr u.nonneg
  rw [GetRandomValueBinary32_range,
    roundBinary32_infinite (b - a) (by rw [abs_of_pos hpos]; exact hover)]
  by_cases hu0 : u.val = 0
  · simp [Binary32.mul, Binary32.add, hu0]
  · simp [Binary32.mul, Binary32.add, hu0, hneg, not_lt.mpr hpos.le]

/-- Where the three operations are exact, the sample of binary32 is the one
of exact arithmetic. -/
theorem sample_exact (a b : ℚ) (u : Sample) (hd : Representable32 (b - a))
    (hp : Representable32 (u.val * (b - a))) (hr : Representable32 (u.val * (b - a) + a)) :
    (ValueRange.mk a b true).GetRandomValueBinary32 u =
      .finite ((ValueRange.mk a b true).GetRandomValue u) := by
  have hval : (ValueRange.mk a b true).GetRandomValue u = u.val * (b - a) + a := by
    simp [ValueRange.GetRandomValue]
  rw [hval, GetRandomValueBinary32_range, roundBinary32_self _ hd]
  simp only [Binary32.mul, roundBinary32_self _ hp, Binary32.add, roundBinary32_self _ hr]
/-! ## C10: ranged values -/

theorem GetValue_degenerate_range (a : ℚ) (u : Sample) :
    (ValueRange.mk a a true).GetValue u = (ValueRange.mk a a false).GetValue u := by
  simp [ValueRange.GetValue, ValueRange.GetRandomValue]

theorem scanEntries_degenerate_range (w : World) (u : Sample) (a : ℚ) (filters : FilterSet)
    (before after : List ConfigEntry) (trader : Option Actor)
    (item : Option InventoryEntryData) (player : Option PlayerCharacter) :
    scanEntries w u (before ++ ⟨⟨a, a, true⟩, filters⟩ :: after) trader item player =
      scanEntries w u (before ++ ⟨⟨a, a, false⟩, filters⟩ :: after) trader item player := by
  induction before with
  | nil =>
    simp only [List.nil_append, scanEntries]
    rw [GetValue_degenerate_range]
  | cons e es ih =>
    show scanEntries w u (e :: (es ++ _)) trader item player =
      scanEntries w u (e :: (es ++ _)) trader item player
    unfold scanEntries
    rw [ih]

theorem GetValueBinary32_range (a b : ℚ) (u : Sample) :
    (ValueRange.mk a b true).GetValueBinary32 u =
      (ValueRange.mk a b true).GetRandomValueBinary32 u := by
  simp [ValueRange.GetValueBinary32]

/-- C10 fails as stated. The text `-3e38~3e38` is valid range text `a~b` with
`a ≤ b`: it is parsed into `min = -A`, `max = A`, `isRange` true, where
`A = 14791142 * 2 ^ 104` is the number of binary32 nearest to `3e38`.  The
difference `max - min` overflows binary32, so no value that `GetValue`
returns is a number of `[a, b]`: it is a NaN when the output of the random
engine is zero and the positive infinity for every other output, as for one
half. -/
theorem ValueRange_range_counterexample :
    isValueText "-3e38~3e38".toList ∧
      ValueRange.ParseValue "-3e38~3e38".toList =
        .ok ⟨-(14791142 * 2 ^ 104), 14791142 * 2 ^ 104, true⟩ ∧
      (-(14791142 * 2 ^ 104) : ℚ) ≤ 14791142 * 2 ^ 104 ∧
      (∀ u : Sample,
        (ValueRange.mk (-(14791142 * 2 ^ 104)) (14791142 * 2 ^ 104) true).GetValueBinary32 u =
          if u.val = 0 then .nan else .infinite false) ∧
      (ValueRange.mk (-(14791142 * 2 ^ 104)) (14791142 * 2 ^ 104) true).GetValueBinary32
        midSample = .infinite false := by
  have hover : overflowThreshold ≤ (14791142 * 2 ^ 104 : ℚ) - -(14791142 * 2 ^ 104) := by
    unfold overflowThreshold
    norm_num
  refine ⟨Or.inr ⟨"-3e38".toList, "3e38".toList, by decide,
    ⟨-(14791142 * 2 ^ 104), by decide!⟩, ⟨14791142 * 2 ^ 104, by decide!⟩⟩,
    by decide!, by norm_num, ?_, by decide!⟩
  intro u
  rw [GetValueBinary32_range]
  exact sample_overflow _ _ u hover

/-- C10 as amended. For every range text made of a text `ta` without `~` that
`std::stof` reads as `a`, the separator `~`, and a text `tb` read as `b`, with
`a ≤ b`:
(1) `ValueRange::ParseValue` yields `isRange` true, `min = a`, `max = b`, and
(2) `a` and `b` are numbers of binary32.
(3) When `b - a` does not overflow binary32 (it is below
`2 ^ 128 - 2 ^ 103`, as it is whenever it does not exceed the largest number
of binary32), then for every output `u` of the random engine in `[0, 1)`, a
number of binary32, the value that `GetValue` returns in the arithmetic of
binary32 is a number of `[a, b]`.
(4) When `a = b` the value returned is `a`, in the arithmetic of binary32 and
(5) in exact arithmetic, so that (6) a rule list holding that rule answers
every query exactly as the list holding the fixed value `a` in its place.
(7) When `b - a` overflows binary32, the value returned is the positive
infinity, or a NaN for the engine output zero.
(8) Where the three operations of the sample are exact, the value returned in
the arithmetic of binary32 is the one of exact arithmetic.
(9) The text `1.0~1.0` is the range from 1 to 1 and the text `1.0` the fixed
value 1. -/
theorem ValueRange_range_value (ta tb : Str) (a b : ℚ) (htilde : '~' ∉ ta)
    (ha : stof ta = .ok a) (hb : stof tb = .ok b) (hab : a ≤ b) :
    ValueRange.ParseValue (ta ++ '~' :: tb) = .ok ⟨a, b, true⟩ ∧
      (Representable32 a ∧ Representable32 b) ∧
      (b - a < overflowThreshold → ∀ u : Sample, Representable32 u.val →
        ∃ q, (ValueRange.mk a b true).GetValueBinary32 u = .finite q ∧ a ≤ q ∧ q ≤ b) ∧
      (a = b → ∀ u : Sample, (ValueRange.mk a b true).GetValueBinary32 u = .finite a) ∧
      (a = b → ∀ u : Sample, (ValueRange.mk a b true).GetValue u = a) ∧
      (a = b → ∀ (statics : Option SessionCache) (before after : List ConfigEntry)
        (filters : FilterSet) (w : World) (u : Sample) (trader : Option Actor)
        (item : Option InventoryEntryData) (player : Option PlayerCharacter),
        getMultiplier statics (before ++ ⟨⟨a, b, true⟩, filters⟩ :: after) w u trader item
            player =
          getMultiplier statics (before ++ ⟨⟨a, a, false⟩, filters⟩ :: after) w u trader item
            player) ∧
      (overflowThreshold ≤ b - a → ∀ u : Sample,
        (ValueRange.mk a b true).GetValueBinary32 u =
          if u.val = 0 then .nan else .infinite false) ∧
      (∀ u : Sample, Representable32 (b - a) → Representable32 (u.val * (b - a)) →
        Representable32 (u.val * (b - a) + a) →
        (ValueRange.mk a b true).GetValueBinary32 u =
          .finite ((ValueRange.mk a b true).GetValue u)) ∧
      ValueRange.ParseValue "1.0~1.0".toList = .ok ⟨1, 1, true⟩ ∧
      ValueRange.ParseValue "1.0".toList = .ok ⟨1, 1, false⟩ := by
  have hra := stof_representable ta a ha
  have hrb := stof_representable tb b hb
  refine ⟨?_, ⟨hra, hrb⟩, ?_, ?_, ?_, ?_, ?_, ?_, by decide!, by decide!⟩
  · have hf : find (ta ++ '~' :: tb) ['~'] = some ta.length := find_char_append ta tb htilde
    unfold ValueRange.ParseValue
    simp [hf, ha, hb]
    rfl
  · intro hno u hu
    obtain ⟨d, p, q, _, _, _, hres, h1, h2⟩ := sample_roundings a b u hra hrb hab hno hu
    exact ⟨q, by rw [GetValueBinary32_range, hres], h1, h2⟩
  · intro hEq u
    subst hEq
    rw [GetValueBinary32_range]
    exact sample_degenerate a u hra
  · intro hEq u
    subst hEq
    simp [ValueRange.GetValue, ValueRange.GetRandomValue]
  · intro hEq statics before after filters w u trader item player
    subst hEq
    unfold getMultiplier
    simp only [scanEntries_degenerate_range]
  · intro hover u
    rw [GetValueBinary32_range]
    exact sample_overflow a b u hover
  · intro u hd hp hr
    rw [GetValueBinary32_range]
    have : (ValueRange.mk a b true).GetValue u = (ValueRange.mk a b true).GetRandomValue u := by
      simp [ValueRange.GetValue]
    rw [this]
    exact sample_exact a b u hd hp hr

/-- C10 as amended, at the range text `2.0~2.5`: for the engine output one
half the value returned is `2.25`, a number of `[2, 2.5]`. -/
theorem ValueRange_range_value_witness :
    ('~' ∉ "2.0".toList ∧ stof "2.0".toList = .ok 2 ∧ stof "2.5".toList = .ok (5 / 2) ∧
        (2 : ℚ) ≤ 5 / 2) ∧
      ValueRange.ParseValue "2.0~2.5".toList = .ok ⟨2, 5 / 2, true⟩ ∧
      ((5 / 2 : ℚ) - 2 < overflowThreshold ∧ Representable32 midSample.val) ∧
      (ValueRange.mk 2 (5 / 2) true).GetValueBinary32 midSample = .finite (9 / 4) ∧
      ∃ q, (ValueRange.mk 2 (5 / 2) true).GetValueBinary32 midSample = .finite q ∧
        2 ≤ q ∧ q ≤ 5 / 2 :=
  have hno : (5 / 2 : ℚ) - 2 < overflowThreshold := by
    unfold overflowThreshold
    norm_num
  have hu : Representable32 midSample.val :=
    ⟨1, -1, by norm_num, by norm_num, by norm_num, by norm_num [midSample]⟩
  ⟨⟨by decide, by decide!, by decide!, by norm_num⟩,
    (ValueRange_range_value "2.0".toList "2.5".toList 2 (5 / 2) (by decide) (by decide!)
      (by decide!) (by norm_num)).1,
    ⟨hno, hu⟩, by decide!,
    (ValueRange_range_value "2.0".toList "2.5".toList 2 (5 / 2) (by decide) (by decide!)
      (by decide!) (by norm_num)).2.2.1 hno midSample hu⟩

/-! ## C11: the invariant of a parsed value -/

/-- C11 fails as stated. The text `3~1` is parsed without a fault into a
range whose `min` is 3 and whose `max` is 1. -/
theorem ValueRange_invariant_counterexample :
    ValueRange.ParseValue "3~1".toList = .ok ⟨3, 1, true⟩ ∧
      (ValueRange.mk 3 1 true).isRange = true ∧
      ¬ (ValueRange.mk 3 1 true).min ≤ (ValueRange.mk 3 1 true).max := by
  refine ⟨by decide!, rfl, by norm_num⟩

/-- C11 as amended. For every `ValueRange` that a successful `ParseValue`
produces with numbers for its members:
(1) when `isRange` is false, the text holds no `~` and `min` and `max` are
both the one number `std::stof` reads from it, so that `min = max`;
(2) when `isRange` is true, `min` is the number `std::stof` reads before the
first `~` of the text and `max` the number it reads after it, in that order.
(3) The two are never compared: `3~1` gives `min` 3 and `max` 1, `1~3` gives
`min` 1 and `max` 3.
(4) The texts `nan` and `inf` are read by `std::stof` as a NaN and an
infinity, which are not numbers: the program goes on with them, a NaN being
different from itself, and the run of the model ends with `not_finite`. -/
theorem ValueRange_parsed_members (t : Str) (r : ValueRange)
    (h : ValueRange.ParseValue t = .ok r) :
    (r.isRange = false → find t ['~'] = none ∧ stof t = .ok r.min ∧ r.min = r.max) ∧
      (r.isRange = true → ∃ tildePos, find t ['~'] = some tildePos ∧
        stof (t.take tildePos) = .ok r.min ∧ stof (t.drop (tildePos + 1)) = .ok r.max) ∧
      ValueRange.ParseValue "3~1".toList = .ok ⟨3, 1, true⟩ ∧
      ValueRange.ParseValue "1~3".toList = .ok ⟨1, 3, true⟩ ∧
      ValueRange.ParseValue "nan".toList = .error .not_finite ∧
      ValueRange.ParseValue "inf".toList = .error .not_finite := by
  refine ⟨?_, ?_, by decide!, by decide!, by decide, by decide⟩
  · intro hr
    unfold ValueRange.ParseValue at h
    cases hf : find t ['~'] with
    | none =>
      rw [hf] at h
      simp only at h
      cases hs : stof t with
      | error f => rw [hs] at h; cases h
      | ok v =>
        rw [hs] at h
        cases h
        exact ⟨rfl, rfl, rfl⟩
    | some tildePos =>
      rw [hf] at h
      simp only at h
      cases ha : stof (t.take tildePos) with
      | error f => rw [ha] at h; cases h
      | ok a =>
        cases hb : stof (t.drop (tildePos + 1)) with
        | error f => rw [ha, hb] at h; cases h
        | ok b =>
          rw [ha, hb] at h
          cases h
          cases hr
  · intro hr
    unfold ValueRange.ParseValue at h
    cases hf : find t ['~'] with
    | none =>
      rw [hf] at h
      simp only at h
      cases hs : stof t with
      | error f => rw [hs] at h; cases h
      | ok v =>
        rw [hs] at h
        cases h
        cases hr
    | some tildePos =>
      rw [hf] at h
      simp only at h
      cases ha : stof (t.take tildePos) with
      | error f => rw [ha] at h; cases h
      | ok a =>
        cases hb : stof (t.drop (tildePos + 1)) with
        | error f => rw [ha, hb] at h; cases h
        | ok b =>
          rw [ha, hb] at h
          cases h
          exact ⟨tildePos, rfl, ha, hb⟩

/-- C11 as amended, at the text `3~1`. -/
theorem ValueRange_parsed_members_witness :
    ValueRange.ParseValue "3~1".toList = .ok ⟨3, 1, true⟩ ∧
      ∃ tildePos, find "3~1".toList ['~'] = some tildePos ∧
        stof ("3~1".toList.take tildePos) = .ok 3 ∧
        stof ("3~1".toList.drop (tildePos + 1)) = .ok 1 :=
  ⟨by decide!, (ValueRange_parsed_members "3~1".toList ⟨3, 1, true⟩ (by decide!)).2.1 rfl⟩

/-! ## C12: texts that `ParseValue` rejects -/

/-- C12 fails as stated. The texts `2.0abc`, `1.0~2.0x` and `1~2~3` are not
valid value-text, and `ParseValue` accepts each of them: as the fixed value 2,
as the range from 1 to 2, and as the range from 1 to 2. -/
theorem ParseValue_rejects_counterexample :
    (¬ isValueText "2.0abc".toList ∧
        ValueRange.ParseValue "2.0abc".toList = .ok ⟨2, 2, false⟩) ∧
      (¬ isValueText "1.0~2.0x".toList ∧
        ValueRange.ParseValue "1.0~2.0x".toList = .ok ⟨1, 2, true⟩) ∧
      (¬ isValueText "1~2~3".toList ∧
        ValueRange.ParseValue "1~2~3".toList = .ok ⟨1, 2, true⟩) := by
  refine ⟨⟨?_, by decide!⟩, ⟨?_, by decide!⟩, ⟨?_, by decide!⟩⟩
  · intro h
    rcases isValueText_cases h with h | ⟨p, hp, _, _⟩
    · rw [isFloatText_iff] at h
      revert h
      decide!
    · have hp0 : find "2.0abc".toList ['~'] = none := by decide
      rw [hp0] at hp
      cases hp
  · intro h
    rcases isValueText_cases h with h | ⟨p, hp, _, hb⟩
    · rw [isFloatText_iff] at h
      revert h
      decide!
    · have hp3 : find "1.0~2.0x".toList ['~'] = some 3 := by decide
      rw [hp3] at hp
      cases hp
      rw [isFloatText_iff] at hb
      revert hb
      decide!
  · intro h
    rcases isValueText_cases h with h | ⟨p, hp, _, hb⟩
    · rw [isFloatText_iff] at h
      revert h
      decide!
    · have hp1 : find "1~2~3".toList ['~'] = some 1 := by decide
      rw [hp1] at hp
      cases hp
      rw [isFloatText_iff] at hb
      revert hb
      decide!

/-- The three ways `std::stof` fails, by what stands at the front of the
text. -/
theorem stof_error_cases (s : Str) :
    (stof s = .error .invalid_argument ↔ scanNumber s = none) ∧
      (stof s = .error .out_of_range ↔
        ∃ q rest, scanNumber s = some (.number q, rest) ∧
          (overflowThreshold ≤ |q| ∨
            (0 < |q| ∧ |q| < (2 : ℚ) ^ (-126 : ℤ) - (2 : ℚ) ^ (-151 : ℤ) ∧
              ¬ ∃ k : ℤ, |q| = (k : ℚ) * (2 : ℚ) ^ (-149 : ℤ)))) ∧
      (stof s = .error .not_finite ↔
        ∃ rest, (∃ negative, scanNumber s = some (.infinity negative, rest)) ∨
          scanNumber s = some (.nan, rest)) := by
  have hconv : ∀ q f, convertBinary32 q = .error f → f = .out_of_range :=
    convertBinary32_fault
  unfold stof
  cases hs : scanNumber s with
  | none => simp
  | some p =>
    obtain ⟨x, rest⟩ := p
    cases x with
    | number q =>
      simp only [Option.some.injEq, Prod.mk.injEq, Scanned.number.injEq,
        reduceCtorEq, false_and, exists_false, or_self, iff_false, false_iff]
      refine ⟨?_, ?_, ?_⟩
      · intro h
        have := hconv q _ h
        cases this
      · rw [convertBinary32_error_iff]
        constructor
        · intro h
          exact ⟨q, rest, ⟨rfl, rfl⟩, h⟩
        · rintro ⟨q2, rest2, ⟨rfl, _⟩, h⟩
          exact h
      · intro h
        have := hconv q _ h
        cases this
    | infinity negative => simp
    | nan => simp

/-- C12 as amended. (1) `ValueRange::ParseValue` fails, with the fault of
`std::stof`, exactly when `std::stof` fails on a text it is handed: the whole
text when it holds no `~`, and otherwise the text before the first `~`, or,
once that one is read, the text after it.
(2) `std::stof` throws `std::invalid_argument` exactly when no number stands
at the front of the text, after white space and a sign, and
`std::out_of_range` exactly when the number `q` that stands there is out of
the range of binary32: it rounds beyond the largest number of binary32
(`2 ^ 128 - 2 ^ 103 ≤ |q|`), or it is not zero, is below the least normal
number even after rounding (`|q| < 2 ^ -126 - 2 ^ -151`) and is not a number
of binary32 (a multiple of `2 ^ -149`); on an infinity or a NaN, with which
the program goes on, the run of the model ends with `not_finite`.
(3) What follows the number is not looked at: the result is the conversion of
the number written, and a value returned is a number of binary32 nearest to
it.
(4) So `ParseValue` succeeds on every valid value-text,
(5) it fails on `abc` and on `1.0~` with `std::invalid_argument`, and on
`1e39`, `1e-40`, `3.4028236e38` and `1~1e39` with `std::out_of_range`,
(6) it succeeds on `2.0abc`, `1.0~2.0x` and `1~2~3`, on the largest number of
binary32 `3.4028235e38`, on the hexadecimal `0x10`, which is 16, and on
`0.1`, which is read as `13421773 / 2 ^ 27`,
(7) on `inf` and `nan` the model ends with `not_finite`,
(8) and it reads `25e-1` as 5/2, `1.5E+2` as 150, `-0x1.8p1` as -3, ` -.5` as
-1/2, `0x1p-149` as the least positive number of binary32, `16777217` (a tie)
as 16777216 and `16777219` (a tie) as 16777220. -/
theorem ParseValue_fails_iff (t : Str) :
    (∀ f, ValueRange.ParseValue t = .error f ↔
      match find t ['~'] with
      | none => stof t = .error f
      | some tildePos =>
        stof (t.take tildePos) = .error f ∨
          ((∃ a, stof (t.take tildePos) = .ok a) ∧
            stof (t.drop (tildePos + 1)) = .error f)) ∧
    (∀ s, (stof s = .error .invalid_argument ↔ scanNumber s = none) ∧
      (stof s = .error .out_of_range ↔
        ∃ q rest, scanNumber s = some (.number q, rest) ∧
          (overflowThreshold ≤ |q| ∨
            (0 < |q| ∧ |q| < (2 : ℚ) ^ (-126 : ℤ) - (2 : ℚ) ^ (-151 : ℤ) ∧
              ¬ ∃ k : ℤ, |q| = (k : ℚ) * (2 : ℚ) ^ (-149 : ℤ)))) ∧
      (stof s = .error .not_finite ↔
        ∃ rest, (∃ negative, scanNumber s = some (.infinity negative, rest)) ∨
          scanNumber s = some (.nan, rest))) ∧
    (∀ s q rest, scanNumber s = some (.number q, rest) →
      stof s = convertBinary32 q ∧ ∀ v, stof s = .ok v → Nearest32 q v) ∧
    (isValueText t → ∃ r, ValueRange.ParseValue t = .ok r) ∧
    (ValueRange.ParseValue "abc".toList = .error .invalid_argument ∧
      ValueRange.ParseValue "1.0~".toList = .error .invalid_argument ∧
      ValueRange.ParseValue "1e39".toList = .error .out_of_range ∧
      ValueRange.ParseValue "1e-40".toList = .error .out_of_range ∧
      ValueRange.ParseValue "3.4028236e38".toList = .error .out_of_range ∧
      ValueRange.ParseValue "1~1e39".toList = .error .out_of_range) ∧
    (ValueRange.ParseValue "2.0abc".toList = .ok ⟨2, 2, false⟩ ∧
      ValueRange.ParseValue "1.0~2.0x".toList = .ok ⟨1, 2, true⟩ ∧
      ValueRange.ParseValue "1~2~3".toList = .ok ⟨1, 2, true⟩ ∧
      ValueRange.ParseValue "3.4028235e38".toList =
        .ok ⟨(2 ^ 24 - 1) * 2 ^ 104, (2 ^ 24 - 1) * 2 ^ 104, false⟩ ∧
      ValueRange.ParseValue "0x10".toList = .ok ⟨16, 16, false⟩ ∧
      ValueRange.ParseValue "0.1".toList =
        .ok ⟨13421773 / 2 ^ 27, 13421773 / 2 ^ 27, false⟩) ∧
    (ValueRange.ParseValue "inf".toList = .error .not_finite ∧
      ValueRange.ParseValue "nan".toList = .error .not_finite) ∧
    (ValueRange.ParseValue "25e-1".toList = .ok ⟨5 / 2, 5 / 2, false⟩ ∧
      ValueRange.ParseValue "1.5E+2".toList = .ok ⟨150, 150, false⟩ ∧
      ValueRange.ParseValue "-0x1.8p1".toList = .ok ⟨-3, -3, false⟩ ∧
      ValueRange.ParseValue " -.5".toList = .ok ⟨-(1 / 2), -(1 / 2), false⟩ ∧
      ValueRange.ParseValue "0x1p-149".toList = .ok ⟨1 / 2 ^ 149, 1 / 2 ^ 149, false⟩ ∧
      ValueRange.ParseValue "16777217".toList = .ok ⟨16777216, 16777216, false⟩ ∧
      ValueRange.ParseValue "16777219".toList = .ok ⟨16777220, 16777220, false⟩) := by
  have hiff : ∀ f, ValueRange.ParseValue t = .error f ↔
      match find t ['~'] with
      | none => stof t = .error f
      | some tildePos =>
        stof (t.take tildePos) = .error f ∨
          ((∃ a, stof (t.take tildePos) = .ok a) ∧
            stof (t.drop (tildePos + 1)) = .error f) := by
    intro f
    unfold ValueRange.ParseValue
    cases hf : find t ['~'] with
    | none =>
      simp only
      cases stof t with
      | error g => simp [bind, Except.bind]
      | ok v => simp [bind, Except.bind, pure, Except.pure]
    | some tildePos =>
      simp only
      cases stof (t.take tildePos) with
      | error g => simp [bind, Except.bind]
      | ok a =>
        cases stof (t.drop (tildePos + 1)) with
        | error g => simp [bind, Except.bind]
        | ok b => simp [bind, Except.bind, pure, Except.pure]
  refine ⟨hiff, stof_error_cases, ?_, ?_, ⟨by decide, by decide!, by decide!, by decide!,
    by decide!, by decide!⟩, ⟨by decide!, by decide!, by decide!, by decide!, by decide!,
    by decide!⟩, ⟨by decide, by decide⟩, ⟨by decide!, by decide!, by decide!, by decide!,
    by decide!, by decide!, by decide!⟩⟩
  · intro s q rest hs
    exact ⟨by simp [stof, hs], fun v hv => stof_nearest s q rest v hs hv⟩
  · intro hvalid
    cases hr : ValueRange.ParseValue t with
    | ok r => exact ⟨r, rfl⟩
    | error f =>
      exfalso
      have hfail := (hiff f).mp hr
      rcases isValueText_cases hvalid with h | ⟨p, hp, ha, hb⟩
      · have htilde := tilde_not_mem_of_isFloatText h
        have hfind : find t ['~'] = none :=
          find_eq_none_of_not_mem (c := '~') (by decide) htilde
        rw [hfind] at hfail
        simp only at hfail
        obtain ⟨v, hv⟩ := h
        rw [stof_of_stofScan hv] at hfail
        cases hfail
      · rw [hp] at hfail
        simp only at hfail
        obtain ⟨va, hva⟩ := ha
        obtain ⟨vb, hvb⟩ := hb
        rw [stof_of_stofScan hva, stof_of_stofScan hvb] at hfail
        rcases hfail with h | ⟨_, h⟩ <;> cases h
/-! ## C13: a numeric parse failure fails the load -/

theorem mapM_error {α β : Type} (g : α → Except Fault β) (l : List α)
    (h : ∃ t ∈ l, ∃ f, g t = .error f) : ∃ f, l.mapM g = .error f := by
  induction l with
  | nil =>
    obtain ⟨t, ht, _⟩ := h
    cases ht
  | cons a l ih =>
    cases ha : g a with
    | error f => exact ⟨f, by rw [List.mapM_cons, ha]; rfl⟩
    | ok b =>
      obtain ⟨t, ht, f, hf⟩ := h
      rcases List.mem_cons.mp ht with rfl | ht
      · rw [ha] at hf; cases hf
      · obtain ⟨f2, hf2⟩ := ih ⟨t, ht, f, hf⟩
        exact ⟨f2, by rw [List.mapM_cons, ha, hf2]; rfl⟩

/-- The faults of `std::stof`. -/
theorem stof_fault (s : Str) (f : Fault) (h : stof s = .error f) :
    f = .invalid_argument ∨ f = .out_of_range ∨ f = .not_finite := by
  unfold stof at h
  split at h
  · cases h; exact Or.inl rfl
  · exact Or.inr (Or.inl (convertBinary32_fault _ f h))
  · cases h; exact Or.inr (Or.inr rfl)

/-- The faults of `ValueRange::ParseValue` are those of `std::stof`. -/
theorem ParseValue_fault (text : Str) (f : Fault) (h : ValueRange.ParseValue text = .error f) :
    f = .invalid_argument ∨ f = .out_of_range ∨ f = .not_finite := by
  unfold ValueRange.ParseValue at h
  split at h
  · cases ha : stof (List.take _ text) with
    | error g =>
      rw [ha] at h
      cases h
      exact stof_fault _ _ ha
    | ok a =>
      rw [ha] at h
      cases hb : stof (List.drop _ text) with
      | error g =>
        rw [hb] at h
        cases h
        exact stof_fault _ _ hb
      | ok b => rw [hb] at h; cases h
  · cases ha : stof text with
    | error g =>
      rw [ha] at h
      cases h
      exact stof_fault _ _ ha
    | ok a => rw [ha] at h; cases h

/-- A comparison text fails to parse exactly when its threshold does, with
the fault of `std::stof`, whatever the object holds. -/
theorem ParseFilter_error_iff (self : ComparisonFilter) (s : Str) (f : Fault) :
    self.ParseFilter s = .error f ↔
      ∃ opPos opStr, findOperator s = some (opPos, opStr) ∧
        stof (s.drop opStr.length) = .error f := by
  cases hop : findOperator s with
  | some p =>
    obtain ⟨opPos, opStr⟩ := p
    rw [ParseFilter_of_findOperator self s opPos opStr hop]
    constructor
    · intro h
      refine ⟨opPos, opStr, rfl, ?_⟩
      cases hs : stof (s.drop opStr.length) with
      | error g => rw [hs] at h; cases h; rfl
      | ok v => rw [hs] at h; cases h
    · rintro ⟨p1, p2, hp, hs⟩
      cases hp
      rw [hs]
      rfl
  | none =>
    constructor
    · intro h
      exfalso
      obtain ⟨h1, h2, h3, h4, h5⟩ := (findOperator_eq_none_iff s).mp hop
      unfold ComparisonFilter.ParseFilter at h
      split at h
      · cases h
      · simp [h1, h2, h3, h4, h5] at h
    · rintro ⟨p1, p2, hp, _⟩
      cases hp

theorem ParseFilter_of_ThresholdFails (self : ComparisonFilter) (s : Str)
    (h : ThresholdFails s) : ∃ f, self.ParseFilter s = .error f := by
  obtain ⟨opPos, opStr, f, hop, hs, _⟩ := h
  exact ⟨f, (ParseFilter_error_iff self s f).mpr ⟨opPos, opStr, hop, hs⟩⟩

theorem GlobalsFilter_of_rebuilt (self : GlobalsFilter) (s c : Str)
    (hc : rebuiltComparison s = some c) (h : ThresholdFails c) :
    ∃ f, self.ParseFilter s = .error f := by
  unfold rebuiltComparison at hc
  split at hc
  · cases hc
  · rename_i hne
    cases hop : findOperator s with
    | none => rw [hop] at hc; cases hc
    | some p =>
      obtain ⟨opPos, opStr⟩ := p
      rw [hop] at hc
      simp only [Option.map_some', Option.some.injEq] at hc
      obtain ⟨f, hf⟩ := ParseFilter_of_ThresholdFails self.againstValue c h
      refine ⟨f, ?_⟩
      unfold GlobalsFilter.ParseFilter
      rw [if_neg hne]
      simp only [hop, hc, hf]
      rfl

theorem ItemFilter_of_ThresholdFails (t p0 p1 p2 p3 : Str) (rest : List Str)
    (hs : SplitString t "|".toList = p0 :: p1 :: p2 :: p3 :: rest)
    (h : ThresholdFails p2 ∨ ThresholdFails p3) : ∃ f, ItemFilter.ofString t = .error f := by
  unfold ItemFilter.ofString ItemFilter.ParseFilter
  rw [hs]
  simp only
  cases h2 : ItemFilter.default.weightFilter.ParseFilter p2 with
  | error f => exact ⟨f, rfl⟩
  | ok w =>
    rcases h with h | h
    · obtain ⟨f, hf⟩ := ParseFilter_of_ThresholdFails ItemFilter.default.weightFilter p2 h
      rw [hf] at h2
      cases h2
    · obtain ⟨f, hf⟩ := ParseFilter_of_ThresholdFails ItemFilter.default.valueFilter p3 h
      exact ⟨f, by simp [hf, bind, Except.bind]⟩

theorem MerchantFilter_of_ThresholdFails (t p0 p1 p2 : Str) (rest : List Str)
    (hs : SplitString t "|".toList = p0 :: p1 :: p2 :: rest)
    (h : ThresholdFails p1 ∨ ∃ c, rebuiltComparison p2 = some c ∧ ThresholdFails c) :
    ∃ f, MerchantFilter.ofString t = .error f := by
  unfold MerchantFilter.ofString MerchantFilter.ParseFilter
  rw [hs]
  simp only
  cases h1 : MerchantFilter.default.relationship.ParseFilter p1 with
  | error f => exact ⟨f, rfl⟩
  | ok w =>
    rcases h with h | ⟨c, hc, h⟩
    · obtain ⟨f, hf⟩ := ParseFilter_of_ThresholdFails MerchantFilter.default.relationship p1 h
      rw [hf] at h1
      cases h1
    · obtain ⟨f, hf⟩ := GlobalsFilter_of_rebuilt MerchantFilter.default.globalCondition p2 c hc h
      have hne : p2 ≠ "NONE".toList := by
        rintro rfl
        have h0 : rebuiltComparison "NONE".toList = none := by decide
        rw [h0] at hc
        cases hc
      refine ⟨f, ?_⟩
      simp only [ne_eq, hne, not_false_eq_true, if_true, hf]
      rfl

theorem parseSkill_of_SkillFails (held : Int × Int) (s : Str) (h : SkillFails s) :
    ∃ f, parseSkill held s = .error f := by
  obtain ⟨hne, parenPos, hp, h⟩ := h
  unfold parseSkill
  rw [if_pos hne]
  simp only [hp]
  cases h1 : stoi (List.take parenPos s) with
  | error f => exact ⟨f, rfl⟩
  | ok skillID =>
    rcases h with ⟨f, hf⟩ | ⟨hempty, f, hf⟩
    · rw [hf] at h1
      cases h1
    · exact ⟨f, by simp [pop_back, hempty, hf, bind, Except.bind]⟩

theorem PlayerFilter_of_ThresholdFails (junk : Int × Int) (t p0 p1 p2 : Str) (rest : List Str)
    (hs : SplitString t "|".toList = p0 :: p1 :: p2 :: rest)
    (h : ThresholdFails p0 ∨ SkillFails p1) : ∃ f, PlayerFilter.ofString junk t = .error f := by
  unfold PlayerFilter.ofString PlayerFilter.ParseFilter
  rw [hs]
  simp only
  cases h0 : ComparisonFilter.default.ParseFilter p0 with
  | error f => exact ⟨f, rfl⟩
  | ok w =>
    rcases h with h | h
    · obtain ⟨f, hf⟩ := ParseFilter_of_ThresholdFails ComparisonFilter.default p0 h
      rw [hf] at h0
      cases h0
    · obtain ⟨f, hf⟩ := parseSkill_of_SkillFails junk p1 h
      exact ⟨f, by simp [hf, bind, Except.bind]⟩

/-- The three arrays of condition texts are built in turn. -/
theorem ParseFilters_eq (junk : Int × Int) (filtersJson : FiltersJson) :
    FilterSet.ParseFilters junk filtersJson =
      ((filtersJson.item.getD []).mapM ItemFilter.ofString).bind (fun items =>
        ((filtersJson.merchant.getD []).mapM MerchantFilter.ofString).bind (fun merchants =>
          ((filtersJson.player.getD []).mapM (PlayerFilter.ofString junk)).bind
            (fun players => .ok ⟨items, merchants, players⟩))) := by
  obtain ⟨item, merchant, player⟩ := filtersJson
  cases item <;> cases merchant <;> cases player <;> rfl

/-- A condition text that fails to build makes `FilterSet::ParseFilters` fail,
in whichever of the three arrays it stands. -/
theorem ParseFilters_of_text (junk : Int × Int) (filtersJson : FiltersJson)
    (h : (∃ t ∈ filtersJson.item.getD [], ∃ f, ItemFilter.ofString t = .error f) ∨
      (∃ t ∈ filtersJson.merchant.getD [], ∃ f, MerchantFilter.ofString t = .error f) ∨
      ∃ t ∈ filtersJson.player.getD [], ∃ f, PlayerFilter.ofString junk t = .error f) :
    ∃ f, FilterSet.ParseFilters junk filtersJson = .error f := by
  rw [ParseFilters_eq]
  cases hi : (filtersJson.item.getD []).mapM ItemFilter.ofString with
  | error f => exact ⟨f, rfl⟩
  | ok items =>
    cases hm : (filtersJson.merchant.getD []).mapM MerchantFilter.ofString with
    | error f => exact ⟨f, rfl⟩
    | ok merchants =>
      cases hp : (filtersJson.player.getD []).mapM (PlayerFilter.ofString junk) with
      | error f => exact ⟨f, rfl⟩
      | ok players =>
        exfalso
        rcases h with h | h | h
        · obtain ⟨f, hf⟩ := mapM_error _ _ h
          rw [hf] at hi
          cases hi
        · obtain ⟨f, hf⟩ := mapM_error _ _ h
          rw [hf] at hm
          cases hm
        · obtain ⟨f, hf⟩ := mapM_error _ _ h
          rw [hf] at hp
          cases hp

/-- The value text is read first, then the condition texts. -/
theorem ofJson_eq (junk : Int × Int) (e : EntryJson) :
    ConfigEntry.ofJson junk e =
      ((e.value.map ValueRange.ParseValue).getD (.ok ValueRange.default)).bind (fun value =>
        ((e.filters.map (FilterSet.ParseFilters junk)).getD (.ok ⟨[], [], []⟩)).bind
          (fun filters => .ok ⟨value, filters⟩)) := by
  obtain ⟨value, filters⟩ := e
  cases value <;> cases filters <;> rfl

/-- A rule object that carries a number whose parse fails is not built. -/
theorem ofJson_of_CarriesFailingNumber (junk : Int × Int) (e : EntryJson)
    (h : CarriesFailingNumber e) : ∃ f, ConfigEntry.ofJson junk e = .error f := by
  rw [ofJson_eq]
  rcases h with ⟨text, f, hv, hf, _⟩ | ⟨filtersJson, hfj, h⟩
  · rw [hv]
    exact ⟨f, by simp [hf, Except.bind]⟩
  · rw [hfj]
    have hfail : ∃ f, FilterSet.ParseFilters junk filtersJson = .error f := by
      apply ParseFilters_of_text
      rcases h with ⟨t, ht, p0, p1, p2, p3, rest, hs, h⟩ | ⟨t, ht, p0, p1, p2, rest, hs, h⟩ |
        ⟨t, ht, p0, p1, p2, rest, hs, h⟩
      · exact Or.inl ⟨t, ht, ItemFilter_of_ThresholdFails t p0 p1 p2 p3 rest hs h⟩
      · exact Or.inr (Or.inl ⟨t, ht, MerchantFilter_of_ThresholdFails t p0 p1 p2 rest hs h⟩)
      · exact Or.inr (Or.inr ⟨t, ht, PlayerFilter_of_ThresholdFails junk t p0 p1 p2 rest hs h⟩)
    obtain ⟨f, hf⟩ := hfail
    cases hval : (e.value.map ValueRange.ParseValue).getD (.ok ValueRange.default) with
    | error g => exact ⟨g, rfl⟩
    | ok v => exact ⟨f, by simp [hf, Except.bind]⟩

/-- C13. A numeric parse failure in a rule fails the load, is caught, and is
not passed over.
(1) No exception leaves `LoadConfig`: it never ends with a fault that is an
exception.
(2) `LoadConfig` reports success only when every rule object of `Prices` and
`Counts` was built.
(3) When some rule object of the document fails to build and the faults of
its rule objects are conversion exceptions (`std::invalid_argument`,
`std::out_of_range`), `LoadConfig` and `ReloadConfig` return false.
(4) More generally they return false whenever the first rule object that
fails to build, in the order `Prices` then `Counts`, fails with a conversion
exception.
(5) A value text on which `ParseValue` fails makes its rule object fail to
build with that fault, which is one of `std::stof`, and (6) so does a
condition array whose parse fails once the value text is read; (7) a rule
with the value text `abc` fails with `std::invalid_argument`.
(8) A comparison text fails to parse exactly when an operator is found in it
and `std::stof` fails on the threshold text read for it, with that fault and
whatever the object holds.
(9) A rule object that carries a value text or a threshold whose numeric parse
fails (`CarriesFailingNumber`: a conversion throws on the value text, on the
weight or value comparison of an item text, on the relationship comparison or
the comparison of the global field of a merchant text, on the level
comparison or the skill field of a player text) is not built.
(10) A document with such a rule object is never loaded with success, and
(11) its load returns false when the faults of its rule objects are
conversion exceptions.
(12) On the documents with one price rule whose relationship comparison is
`>=abc`, whose item value or item weight comparison is `>abc`, whose level
comparison is `>abc`, whose global comparison is `GameHour>=abc`, whose value
text is `1e39`, whose relationship comparison is `>=1e39`, or whose skill
field is `x(5)`, the load returns false and leaves no rule. -/
theorem parse_failure_fails_load (self : ConfigManager) (configJson : ConfigJson)
    (junk : Int × Int) :
    (∀ file f, LoadConfig self file junk = .error f → f.isException = false) ∧
    (∀ cm, LoadConfig self (some configJson) junk = .ok (true, cm) →
      ∀ e ∈ configJson.rules, ∃ c, ConfigEntry.ofJson junk e = .ok c) ∧
    ((∀ e ∈ configJson.rules, ∀ f, ConfigEntry.ofJson junk e = .error f →
        f.isException = true) →
      (∃ e ∈ configJson.rules, ∃ f, ConfigEntry.ofJson junk e = .error f) →
      ∃ cm, LoadConfig self (some configJson) junk = .ok (false, cm) ∧
        ReloadConfig self (some configJson) junk = .ok (false, cm)) ∧
    (∀ (k : Nat) (e : EntryJson) (f : Fault), configJson.rules[k]? = some e →
      ConfigEntry.ofJson junk e = .error f → f.isException = true →
      (∀ (j : Nat) (e1 : EntryJson), j < k → configJson.rules[j]? = some e1 →
        ∃ c, ConfigEntry.ofJson junk e1 = .ok c) →
      ∃ cm, LoadConfig self (some configJson) junk = .ok (false, cm) ∧
        ReloadConfig self (some configJson) junk = .ok (false, cm)) ∧
    (∀ text filters f, ValueRange.ParseValue text = .error f →
      ConfigEntry.ofJson junk ⟨some text, filters⟩ = .error f ∧
        (f = .invalid_argument ∨ f = .out_of_range ∨ f = .not_finite)) ∧
    (∀ text r filtersJson f, ValueRange.ParseValue text = .ok r →
      FilterSet.ParseFilters junk filtersJson = .error f →
      ConfigEntry.ofJson junk ⟨some text, some filtersJson⟩ = .error f) ∧
    ConfigEntry.ofJson junk ⟨some "abc".toList, none⟩ = .error .invalid_argument ∧
    (∀ (held : ComparisonFilter) (s : Str) (f : Fault),
      held.ParseFilter s = .error f ↔
        ∃ opPos opStr, findOperator s = some (opPos, opStr) ∧
          stof (s.drop opStr.length) = .error f) ∧
    (∀ e, CarriesFailingNumber e → ∃ f, ConfigEntry.ofJson junk e = .error f) ∧
    ((∃ e ∈ configJson.rules, CarriesFailingNumber e) →
      ∀ cm, LoadConfig self (some configJson) junk ≠ .ok (true, cm)) ∧
    ((∃ e ∈ configJson.rules, CarriesFailingNumber e) →
      (∀ e ∈ configJson.rules, ∀ f, ConfigEntry.ofJson junk e = .error f →
        f.isException = true) →
      ∃ cm, LoadConfig self (some configJson) junk = .ok (false, cm) ∧
        ReloadConfig self (some configJson) junk = .ok (false, cm)) ∧
    (∀ doc ∈ [onePriceRuleDoc "2.0".toList [] ["NONE|>=abc|NONE".toList] [],
        onePriceRuleDoc "2.0".toList ["NONE|NONE|NONE|>abc".toList] [] [],
        onePriceRuleDoc "2.0".toList ["NONE|NONE|>abc|NONE".toList] [] [],
        onePriceRuleDoc "2.0".toList [] [] [">abc|NONE|NONE".toList],
        onePriceRuleDoc "2.0".toList [] ["NONE|NONE|GameHour>=abc".toList] [],
        onePriceRuleDoc "1e39".toList [] [] [],
        onePriceRuleDoc "2.0".toList [] ["NONE|>=1e39|NONE".toList] [],
        onePriceRuleDoc "2.0".toList [] [] ["NONE|x(5)|NONE".toList]],
      LoadConfig stockedEngine (some doc) (0, 0) =
        .ok (false, ⟨pluginPath, [], [], none, none⟩)) := by
  have hvalue : ∀ text filters f, ValueRange.ParseValue text = .error f →
      ConfigEntry.ofJson junk ⟨some text, filters⟩ = .error f ∧
        (f = .invalid_argument ∨ f = .out_of_range ∨ f = .not_finite) := by
    intro text filters f hf
    constructor
    · unfold ConfigEntry.ofJson
      simp only [hf]
      rfl
    · exact ParseValue_fault text f hf
  have htrue : ∀ cm, LoadConfig self (some configJson) junk = .ok (true, cm) →
      ∀ e ∈ configJson.rules, ∃ c, ConfigEntry.ofJson junk e = .ok c := by
    intro cm hcm e he
    obtain ⟨prices, counts, hp, hc, _⟩ := (LoadConfig_true_iff self cm configJson junk).mp hcm
    rcases List.mem_append.mp he with h | h
    · exact forall₂_built hp e h
    · exact forall₂_built hc e h
  have hfalse : (∀ e ∈ configJson.rules, ∀ f, ConfigEntry.ofJson junk e = .error f →
        f.isException = true) →
      (∃ e ∈ configJson.rules, ∃ f, ConfigEntry.ofJson junk e = .error f) →
      ∃ cm, LoadConfig self (some configJson) junk = .ok (false, cm) ∧
        ReloadConfig self (some configJson) junk = .ok (false, cm) := by
    intro hexc hfail
    have hexcP : ∀ f, (emplaceEntries junk (configJson.Prices.getD [])).2 = some f →
        f.isException = true := by
      intro f hf
      obtain ⟨e, hmem, he⟩ := emplaceEntries_fault junk _ f hf
      exact hexc e (List.mem_append.mpr (Or.inl hmem)) f he
    have hexcC : ∀ f, (emplaceEntries junk (configJson.Counts.getD [])).2 = some f →
        f.isException = true := by
      intro f hf
      obtain ⟨e, hmem, he⟩ := emplaceEntries_fault junk _ f hf
      exact hexc e (List.mem_append.mpr (Or.inr hmem)) f he
    unfold ReloadConfig
    rw [LoadConfig_eq]
    cases hp : (emplaceEntries junk (configJson.Prices.getD [])).2 with
    | some f =>
      simp only [hexcP f hp, if_true]
      exact ⟨_, rfl, rfl⟩
    | none =>
      cases hc : (emplaceEntries junk (configJson.Counts.getD [])).2 with
      | some f =>
        simp only [hexcC f hc, if_true]
        exact ⟨_, rfl, rfl⟩
      | none =>
        exfalso
        obtain ⟨e, he, f, hf⟩ := hfail
        have hallP := forall₂_built ((emplaceEntries_none_iff junk _ _).mp (Prod.ext rfl hp))
        have hallC := forall₂_built ((emplaceEntries_none_iff junk _ _).mp (Prod.ext rfl hc))
        rcases List.mem_append.mp he with h | h
        · obtain ⟨c, hc2⟩ := hallP e h
          rw [hc2] at hf; cases hf
        · obtain ⟨c, hc2⟩ := hallC e h
          rw [hc2] at hf; cases hf
  refine ⟨?_, htrue, hfalse, ?_, hvalue, ?_, (hvalue _ _ _ (by decide!)).1,
    ParseFilter_error_iff, ofJson_of_CarriesFailingNumber junk, ?_, ?_, ?_⟩
  · intro file f hf
    cases file with
    | none => simp [LoadConfig] at hf
    | some doc =>
      rw [LoadConfig_eq] at hf
      split at hf
      · split at hf
        · cases hf
        · rename_i hne
          cases hf
          simpa using hne
      · split at hf
        · split at hf
          · cases hf
          · rename_i hne
            cases hf
            simpa using hne
        · cases hf
  · intro k e f hk he hexc hbefore
    obtain ⟨cm, hcm⟩ := LoadConfig_first_fault self configJson junk k e f hk he hexc hbefore
    exact ⟨cm, hcm, hcm⟩
  · intro text r filtersJson f hr hf
    unfold ConfigEntry.ofJson
    simp only [hr, hf]
    rfl
  · rintro ⟨e, he, hcarry⟩ cm hcm
    obtain ⟨c, hc⟩ := htrue cm hcm e he
    obtain ⟨f, hf⟩ := ofJson_of_CarriesFailingNumber junk e hcarry
    rw [hc] at hf
    cases hf
  · rintro ⟨e, he, hcarry⟩ hexc
    exact hfalse hexc ⟨e, he, ofJson_of_CarriesFailingNumber junk e hcarry⟩
  · intro doc hdoc
    simp only [List.mem_cons, List.mem_singleton, List.not_mem_nil, or_false] at hdoc
    rcases hdoc with rfl | rfl | rfl | rfl | rfl | rfl | rfl | rfl <;> decide!

/-- C13 on the document whose price rule has the value text `abc`, on the
document whose count rule has the weight comparison `>abc`, and on the
document whose price rule is for merchants of relationship `>=abc`: the three
loads return false. -/
theorem parse_failure_fails_load_witness :
    (∃ cm, LoadConfig ⟨pluginPath, [fixedRule 2], [], none, none⟩ (some badValueDoc) (0, 0) =
        .ok (false, cm) ∧
      ReloadConfig ⟨pluginPath, [fixedRule 2], [], none, none⟩ (some badValueDoc) (0, 0) =
        .ok (false, cm)) ∧
    (∃ cm, LoadConfig ⟨pluginPath, [fixedRule 2], [], none, none⟩ (some badThresholdDoc)
        (0, 0) = .ok (false, cm) ∧
      ReloadConfig ⟨pluginPath, [fixedRule 2], [], none, none⟩ (some badThresholdDoc) (0, 0) =
        .ok (false, cm)) ∧
    (∃ e ∈ (onePriceRuleDoc "2.0".toList [] ["NONE|>=abc|NONE".toList] []).rules,
      CarriesFailingNumber e) ∧
    ∃ cm, LoadConfig stockedEngine
        (some (onePriceRuleDoc "2.0".toList [] ["NONE|>=abc|NONE".toList] [])) (0, 0) =
        .ok (false, cm) ∧
      ReloadConfig stockedEngine
        (some (onePriceRuleDoc "2.0".toList [] ["NONE|>=abc|NONE".toList] [])) (0, 0) =
        .ok (false, cm) :=
  have hcarry : ∃ e ∈ (onePriceRuleDoc "2.0".toList [] ["NONE|>=abc|NONE".toList] []).rules,
      CarriesFailingNumber e :=
    ⟨⟨some "2.0".toList, some ⟨some [], some ["NONE|>=abc|NONE".toList], some []⟩⟩,
      by simp [ConfigJson.rules, onePriceRuleDoc],
      Or.inr ⟨⟨some [], some ["NONE|>=abc|NONE".toList], some []⟩, rfl,
        Or.inr (Or.inl ⟨"NONE|>=abc|NONE".toList, by simp, "NONE".toList, ">=abc".toList,
          "NONE".toList, [], by decide,
          Or.inl ⟨0, ">=".toList, .invalid_argument, by decide, by decide, rfl⟩⟩)⟩⟩
  ⟨(parse_failure_fails_load ⟨pluginPath, [fixedRule 2], [], none, none⟩ badValueDoc
      (0, 0)).2.2.1
      (by
        intro e he f hf
        simp only [ConfigJson.rules, badValueDoc, Option.getD, List.append_nil,
          List.mem_singleton] at he
        subst he
        have h0 : ConfigEntry.ofJson (0, 0) ⟨some "abc".toList, none⟩ =
            .error .invalid_argument := by decide!
        rw [h0] at hf
        cases hf
        rfl)
      ⟨⟨some "abc".toList, none⟩, by simp [ConfigJson.rules, badValueDoc], .invalid_argument,
        by decide!⟩,
    (parse_failure_fails_load ⟨pluginPath, [fixedRule 2], [], none, none⟩ badThresholdDoc
      (0, 0)).2.2.1
      (by
        intro e he f hf
        simp only [ConfigJson.rules, badThresholdDoc, Option.getD, List.nil_append,
          List.mem_singleton] at he
        subst he
        have h0 : ConfigEntry.ofJson (0, 0)
            ⟨some "2.0".toList, some ⟨some ["NONE|NONE|>abc|NONE".toList], none, none⟩⟩ =
            .error .invalid_argument := by decide!
        rw [h0] at hf
        cases hf
        rfl)
      ⟨⟨some "2.0".toList, some ⟨some ["NONE|NONE|>abc|NONE".toList], none, none⟩⟩,
        by simp [ConfigJson.rules, badThresholdDoc], .invalid_argument, by decide!⟩,
    hcarry,
    (parse_failure_fails_load stockedEngine
      (onePriceRuleDoc "2.0".toList [] ["NONE|>=abc|NONE".toList] []) (0, 0)).2.2.2.2.2.2.2.2.2.2.1
      hcarry
      (by
        intro e he f hf
        simp only [ConfigJson.rules, onePriceRuleDoc, Option.getD, List.append_nil,
          List.mem_singleton] at he
        subst he
        have h0 : ConfigEntry.ofJson (0, 0)
            ⟨some "2.0".toList, some ⟨some [], some ["NONE|>=abc|NONE".toList], some []⟩⟩ =
            .error .invalid_argument := by decide!
        rw [h0] at hf
        cases hf
        rfl)⟩

end MerchantStock
